import Mathlib

set_option maxHeartbeats 1000000

namespace Muscle

/-- Wrap a natural number to the range of a C++ uint32, as muscle's
uint32 arithmetic does on overflow. -/
def u32 (n : Nat) : Nat := n % 4294967296

/-- The muscle status_t error values that appear in the DataNode and
RefCount code paths (B_NO_ERROR, B_ERROR, B_OUT_OF_MEMORY, B_BAD_ARGUMENT,
B_DATA_NOT_FOUND, B_BAD_OBJECT). -/
inductive Status where
  | noError
  | error
  | outOfMemory
  | badArgument
  | dataNotFound
  | badObject
deriving DecidableEq, Repr

/-- Model of the muscle idiom `ret | B_ERROR` at the end of
DataNode::InsertOrderedChild: produces B_ERROR when ret carried no error,
and ret itself otherwise. -/
def Status.orError (s : Status) : Status :=
  if s = .noError then .error else s

/-- A DataNode of the reflector tree (reflector/DataNode.cpp).  A payload
MessageRef is represented by an `Option Nat`: `none` is a NULL MessageRef
and, because the Message class itself is out of scope, a non-null Message
is identified with the uint32 value of its CalculateChecksum().  The
children Hashtable is represented by an insertion-ordered association
list (muscle Hashtables iterate in insertion order and Put on an existing
key keeps its position); `none` is the not-yet-allocated state of the
`_children` pointer.  The ordered index Queue holds references to child
nodes; since every use in the modelled code observes an entry only
through GetNodeName(), an entry is represented by that node's name;
`none` is the not-yet-allocated `_orderedIndex` pointer. -/
inductive DataNode where
  | node (nodeName : String) (depth : Nat) (maxChildIDHint : Nat)
         (orderedCounter : Nat) (data : Option Nat) (cachedDataChecksum : Nat)
         (children : Option (List (String × DataNode)))
         (orderedIndex : Option (List String))

namespace DataNode

def nodeName : DataNode → String
  | .node nm _ _ _ _ _ _ _ => nm

def depth : DataNode → Nat
  | .node _ d _ _ _ _ _ _ => d

def maxChildIDHint : DataNode → Nat
  | .node _ _ h _ _ _ _ _ => h

def orderedCounter : DataNode → Nat
  | .node _ _ _ c _ _ _ _ => c

def data : DataNode → Option Nat
  | .node _ _ _ _ d _ _ _ => d

def cachedDataChecksum : DataNode → Nat
  | .node _ _ _ _ _ c _ _ => c

def children : DataNode → Option (List (String × DataNode))
  | .node _ _ _ _ _ _ ch _ => ch

def orderedIndex : DataNode → Option (List String)
  | .node _ _ _ _ _ _ _ oi => oi

/-- The size of a subtree (number of DataNodes in it); used as fuel for
the recursive RemoveChild model. -/
def totalSize : DataNode → Nat
  | .node _ _ _ _ _ _ ch _ =>
    1 + (match ch with
         | none => 0
         | some tbl => sizeList tbl)
where
  sizeList : List (String × DataNode) → Nat
    | [] => 0
    | (_, c) :: rest => totalSize c + sizeList rest

def setChildren : DataNode → Option (List (String × DataNode)) → DataNode
  | .node nm d h c dat cs _ oi, ch => .node nm d h c dat cs ch oi

def setOrderedIndex : DataNode → Option (List String) → DataNode
  | .node nm d h c dat cs ch _, oi => .node nm d h c dat cs ch oi

def setDepth : DataNode → Nat → DataNode
  | .node nm _ h c dat cs ch oi, d => .node nm d h c dat cs ch oi

def setMaxChildIDHint : DataNode → Nat → DataNode
  | .node nm d _ c dat cs ch oi, h => .node nm d h c dat cs ch oi

def setOrderedCounter : DataNode → Nat → DataNode
  | .node nm d h _ dat cs ch oi, c => .node nm d h c dat cs ch oi

def setDataField : DataNode → Option Nat → DataNode
  | .node nm d h c _ cs ch oi, dat => .node nm d h c dat cs ch oi

def setCache : DataNode → Nat → DataNode
  | .node nm d h c dat _ ch oi, cs => .node nm d h c dat cs ch oi

end DataNode

/-- Lookup in an insertion-ordered association list, as muscle's
Hashtable::Get does (keys are node-name strings). -/
def alGet : List (String × DataNode) → String → Option DataNode
  | [], _ => none
  | (k, v) :: rest, key => if k = key then some v else alGet rest key

/-- Hashtable::Put semantics: replacing an existing key keeps its position
in the iteration order, a new key is appended at the end. -/
def alPut : List (String × DataNode) → String → DataNode → List (String × DataNode)
  | [], key, v => [(key, v)]
  | (k, w) :: rest, key, v =>
    if k = key then (k, v) :: rest else (k, w) :: alPut rest key v

/-- Hashtable::Remove semantics: deletes the entry with the given key, if
present. -/
def alRemove : List (String × DataNode) → String → List (String × DataNode)
  | [], _ => []
  | (k, w) :: rest, key => if k = key then rest else (k, w) :: alRemove rest key

/-- DataNode::HasChild: true iff the children table exists and holds the
key (DataNode.h is not part of the sources; this is its documented
one-line accessor over `_children`). -/
def DataNode.hasChild (n : DataNode) (key : String) : Bool :=
  match n.children with
  | none => false
  | some tbl => (alGet tbl key).isSome

/-- DataNode::HasChildren: true iff the children table exists and is
non-empty (DataNode.h accessor, as for hasChild). -/
def DataNode.hasChildren (n : DataNode) : Bool :=
  match n.children with
  | none => false
  | some tbl => !tbl.isEmpty

/-- Accumulator of C `atol`: consume leading decimal digits. -/
def parseDigitsAcc : List Char → Nat → Nat
  | [], acc => acc
  | ch :: rest, acc =>
    if ch.isDigit then parseDigitsAcc rest (acc * 10 + (ch.toNat - 48)) else acc

/-- Model of C `atol` on a node-name tail followed by the cast to uint32
performed in DataNode::SetParent.  An optional sign is honoured and leading
digits are parsed; leading whitespace (which atol would skip) does not occur
in node names handled by this model. -/
def atolU32 : List Char → Nat
  | '-' :: rest => u32 (4294967296 - u32 (parseDigitsAcc rest 0))
  | '+' :: rest => u32 (parseDigitsAcc rest 0)
  | cs => u32 (parseDigitsAcc cs 0)

/-- The argument SetParent passes to atol: the node name, minus a leading
letter I when present (`&nn[(*nn=='I')?1:0]`). -/
def skipNameI (s : String) : List Char :=
  match s.data with
  | 'I' :: rest => rest
  | cs => cs

/-- Modelled from the spec: `muscle::CalculateChecksum(buffer, numBytes)`
is missing from src/ (util/String.h merely delegates to it); the spec
describes it as a 32-bit non-cryptographic rolling sum over the bytes,
order-dependent.  We model it as the position-weighted byte sum mod 2^32. -/
def bytesChecksum (s : String) : Nat :=
  u32 (go s.data 1)
where
  go : List Char → Nat → Nat
    | [], _ => 0
    | ch :: rest, i => i * ch.toNat + go rest (i + 1)

/-- The name+payload checksum of one node:
`_nodeName.CalculateChecksum() + (_data() ? _data()->CalculateChecksum() : 0)`
in uint32 arithmetic (a payload Message is identified with its checksum). -/
def localChecksum (n : DataNode) : Nat :=
  u32 (bytesChecksum n.nodeName + n.data.getD 0)

/-- The index of the last occurrence of `key` in the ordered index, which
is what the downward for-loops in DataNode::RemoveIndexEntry,
DataNode::ReorderChild and DataNode::InsertOrderedChild find (they scan
from the back and stop at the first hit). -/
def findLastIdx : List String → String → Option Nat
  | [], _ => none
  | x :: rest, key =>
    match findLastIdx rest key with
    | some i => some (i + 1)
    | none => if x = key then some 0 else none

/-- Queue::RemoveItemAt on the ordered index (Queue.h is an out-of-scope
utility container; removal at a valid position deletes that element). -/
def listEraseIdx : List String → Nat → List String
  | [], _ => []
  | _ :: rest, 0 => rest
  | x :: rest, i + 1 => x :: listEraseIdx rest i

/-- Modelled from the spec: Queue::InsertItemAt on the ordered index
(Queue.h is an out-of-scope utility container); inserting at a position
at or past the end appends. -/
def listInsertIdx : List String → Nat → String → List String
  | l, 0, a => a :: l
  | [], _ + 1, a => [a]
  | x :: rest, i + 1, a => x :: listInsertIdx rest i a

/-- The flag bits of StorageReflectSession::NodeChangeFlags that the
modelled code can set. -/
structure NodeChangeFlags where
  isBeingRemoved : Bool
  enableSupercede : Bool
deriving DecidableEq, Repr

/-- INDEX_OP_ENTRYINSERTED / INDEX_OP_ENTRYREMOVED. -/
inductive IndexOp where
  | entryInserted
  | entryRemoved
deriving DecidableEq, Repr

/-- One notification callback into the StorageReflectSession machinery.
Node-valued arguments are represented by the node's path (the session
callbacks derive their aggregation key from GetNodePath) and, for index
events, by the entry's name. -/
inductive Event where
  | newNode (path : List String)
  | nodeChanged (path : List String) (oldData : Option Nat) (flags : NodeChangeFlags)
  | indexChanged (op : IndexOp) (pos : Nat) (key : String)
deriving DecidableEq, Repr

/-- DataNode::SetParent for the attach direction (parent non-NULL), as
called from PutChild.  `parentAncestors` is the number of ancestors of the
attaching parent: the C++ code recomputes the child's `_depth` by walking
the actual `_parent` chain, which in this tree model is the length of the
path at which the parent sits.  The parent's `_maxChildIDHint` is raised to
the numeric suffix parsed from the child's name, and subscribers of a new
node are notified when a session pointer was supplied. -/
def setParentAttach (parent child : DataNode) (parentAncestors : Nat)
    (notify : Bool) (childPath : List String) : DataNode × DataNode × List Event :=
  let parent := parent.setMaxChildIDHint
    (max parent.maxChildIDHint (atolU32 (skipNameI child.nodeName)))
  let child := child.setDepth (parentAncestors + 1)
  (parent, child, if notify then [.newNode childPath] else [])

/-- DataNode::PutChild, with an explicit out-of-memory oracle for the
children-Hashtable Put (the only fallible step besides the initial table
allocation, which the model folds into the same oracle-free success path
because a failure there returns before any mutation). -/
def putChildFull (self : DataNode) (selfAncestors : Nat) (selfPath : List String)
    (node : Option DataNode) (notifySetParent notifyChangedData : Bool)
    (oomPut : Bool) : DataNode × Status × List Event :=
  match node with
  | none => (self, .badArgument, [])
  | some child =>
    let self := match self.children with
      | none => self.setChildren (some [])
      | some _ => self
    let spa := setParentAttach self child selfAncestors notifySetParent
      (selfPath ++ [child.nodeName])
    let self := spa.1
    let child := spa.2.1
    let evs1 := spa.2.2
    if oomPut then (self, .outOfMemory, evs1)
    else
      let tbl := self.children.getD []
      let oldNode := alGet tbl child.nodeName
      let self := self.setChildren (some (alPut tbl child.nodeName child))
      let evs2 := if notifyChangedData then
          [.nodeChanged (selfPath ++ [child.nodeName])
            (match oldNode with | some o => o.data | none => none) ⟨false, false⟩]
        else []
      (self, .noError, evs1 ++ evs2)

/-- DataNode::PutChild on the normal (allocation succeeds) path. -/
def putChild (self : DataNode) (selfAncestors : Nat) (selfPath : List String)
    (node : Option DataNode) (notifySetParent notifyChangedData : Bool) :
    DataNode × Status × List Event :=
  putChildFull self selfAncestors selfPath node notifySetParent notifyChangedData false

/-- DataNode::RemoveIndexEntry: scans the ordered index from the back for
the entry with the given name, removes it and notifies; B_DATA_NOT_FOUND
when the index is absent or holds no such entry. -/
def removeIndexEntry (self : DataNode) (key : String) (notify : Bool) :
    DataNode × Status × List Event :=
  match self.orderedIndex with
  | none => (self, .dataNotFound, [])
  | some idx =>
    match findLastIdx idx key with
    | none => (self, .dataNotFound, [])
    | some i =>
      (self.setOrderedIndex (some (listEraseIdx idx i)), .noError,
       if notify then [.indexChanged .entryRemoved i key] else [])

/-- DataNode::RemoveIndexEntryAt. -/
def removeIndexEntryAt (self : DataNode) (removeIndex : Nat) (notify : Bool) :
    DataNode × Status × List Event :=
  match self.orderedIndex with
  | none => (self, .dataNotFound, [])
  | some idx =>
    if h : removeIndex < idx.length then
      (self.setOrderedIndex (some (listEraseIdx idx removeIndex)), .noError,
       if notify then [.indexChanged .entryRemoved removeIndex (idx.get ⟨removeIndex, h⟩)] else [])
    else (self, .dataNotFound, [])

/-- DataNode::InsertIndexEntryAt: B_BAD_OBJECT when the children table was
never allocated, B_DATA_NOT_FOUND when it lacks the key, otherwise inserts
the existing child into the ordered index and notifies (the notify session
pointer is dereferenced unconditionally in the source, so the event is
always emitted). -/
def insertIndexEntryAt (self : DataNode) (insertIndex : Nat) (key : String) :
    DataNode × Status × List Event :=
  match self.children with
  | none => (self, .badObject, [])
  | some tbl =>
    match alGet tbl key with
    | none => (self, .dataNotFound, [])
    | some childNode =>
      let idx := self.orderedIndex.getD []
      (self.setOrderedIndex (some (listInsertIdx idx insertIndex childNode.nodeName)),
       .noError, [.indexChanged .entryInserted insertIndex childNode.nodeName])

/-- DataNode::ReorderChild.  The child argument is a DataNodeRef observed
only through GetNodeName(), so it is passed as `Option String` (none for a
NULL reference). -/
def reorderChild (self : DataNode) (childName : Option String)
    (optMoveToBeforeThis : Option String) (notify : Bool) :
    DataNode × Status × List Event :=
  match childName with
  | none => (self, .badArgument, [])
  | some cn =>
    match self.orderedIndex with
    | none => (self, .dataNotFound, [])
    | some _ =>
      if optMoveToBeforeThis = some cn then (self, .noError, [])
      else
        let rem := removeIndexEntry self cn notify
        if rem.2.1 ≠ .noError then (rem.1, rem.2.1, rem.2.2)
        else
          let self := rem.1
          let idx := self.orderedIndex.getD []
          let targetIndex := match optMoveToBeforeThis with
            | some b =>
              if self.hasChild b then (findLastIdx idx b).getD idx.length
              else idx.length
            | none => idx.length
          (self.setOrderedIndex (some (listInsertIdx idx targetIndex cn)), .noError,
           rem.2.2 ++ (if notify then [.indexChanged .entryInserted targetIndex cn] else []))

/-- DataNode::SetData: replaces the payload, zeroes the cached checksum and
notifies (oldData is suppressed when the ISBEINGCREATED flag is set, and the
ENABLESUPERCEDE flag is forwarded into the notification). -/
def setData (self : DataNode) (d : Option Nat) (notify : Bool)
    (isBeingCreated enableSupercede : Bool) (selfPath : List String) :
    DataNode × List Event :=
  let oldData := if isBeingCreated then none else self.data
  let self := (self.setDataField d).setCache 0
  (self, if notify then [.nodeChanged selfPath oldData ⟨false, enableSupercede⟩] else [])

mutual

/-- DataNode::RemoveChild.  The `while(child->HasChildren()) RemoveChild(first)`
recursion is driven by a fuel argument (any fuel at least the subtree size
suffices; exhaustion, which cannot occur then, reports a bare error).
`selfPath` is the path of this node, used to label the notifications the
session derives from the removed node. -/
def removeChild : Nat → DataNode → String → Bool → Bool → List String →
    DataNode × Status × List Event
  | 0, self, _, _, _, _ => (self, .error, [])
  | fuel + 1, self, key, notify, recurse, selfPath =>
    match self.children with
    | none => (self, .dataNotFound, [])
    | some tbl =>
      match alGet tbl key with
      | none => (self, .dataNotFound, [])
      | some child =>
        let dr := if recurse then drainChildren fuel child notify (selfPath ++ [key])
                  else (child, [])
        let child := dr.1
        let rie := removeIndexEntry self key notify
        let self2 := rie.1
        let evsNode := if notify then
            [Event.nodeChanged (selfPath ++ [key]) child.data ⟨true, false⟩]
          else []
        -- child->SetParent(NULL) resets the detached child's depth before the
        -- table entry is removed and the reference released
        let tbl2 := self2.children.getD []
        (self2.setChildren (some (alRemove tbl2 key)), .noError,
         dr.2 ++ rie.2.2 ++ evsNode)

/-- The `while(child->HasChildren()) (void) child->RemoveChild(firstKey, …)`
loop inside DataNode::RemoveChild, removing the first child (in Hashtable
iteration order) until none remain. -/
def drainChildren : Nat → DataNode → Bool → List String → DataNode × List Event
  | 0, self, _, _ => (self, [])
  | fuel + 1, self, notify, selfPath =>
    match self.children with
    | none => (self, [])
    | some [] => (self, [])
    | some ((k, _) :: _) =>
      let rc := removeChild fuel self k notify true selfPath
      let dc := drainChildren fuel rc.1 notify selfPath
      (dc.1, rc.2.2 ++ dc.2)

end

/-- The auto-name search loop of DataNode::InsertOrderedChild: sprintf an
"I<counter>" name from the post-incremented uint32 `_orderedCounter` until
one is not an existing child.  Driven by fuel (children-count + 1 attempts
always suffice); on the unreachable exhaustion branch the last candidate is
used unchecked. -/
def findFreeAutoName (tbl : List (String × DataNode)) : Nat → Nat → String × Nat
  | 0, c => ("I" ++ toString (u32 c), u32 (c + 1))
  | fuel + 1, c =>
    let nm := "I" ++ toString (u32 c)
    if (alGet tbl nm).isSome then findFreeAutoName tbl fuel (u32 (c + 1))
    else (nm, u32 (c + 1))

/-- StorageReflectSession::GetNewDataNode: a pool-obtained node initialised
by DataNode::Init(name, data) — no parent, depth 0, zero hint, no children
table, no ordered index, zero cached checksum.  (A recycled pool node would
retain its previous `_orderedCounter`; the model corresponds to a freshly
constructed node, whose counter is 0.) -/
def mkFreshNode (name : String) (d : Option Nat) : DataNode :=
  .node name 0 0 0 d 0 none none

/-- The out-of-memory oracle for the four fallible steps of
DataNode::InsertOrderedChild, in source order: the `newnothrow Queue`
allocation of `_orderedIndex`, GetNewDataNode returning NULL, the
children-Hashtable Put inside PutChild, and InsertItemAt on the ordered
index. -/
structure OomOracle where
  queueAlloc : Bool
  nodeAlloc : Bool
  hashPut : Bool
  indexInsert : Bool
deriving DecidableEq, Repr

/-- The body of DataNode::InsertOrderedChild once `_orderedIndex` is known
to be allocated. -/
def insertOrderedChildBody (oom : OomOracle) (self : DataNode)
    (selfAncestors : Nat) (selfPath : List String) (d : Option Nat)
    (optInsertBefore optNodeName : Option String) (notifyChangedData : Bool) :
    DataNode × Status × List Event :=
  let tbl := self.children.getD []
  let nameAndCounter := match optNodeName with
    | some nm => (nm, self.orderedCounter)
    | none => findFreeAutoName tbl (tbl.length + 1) self.orderedCounter
  let name := nameAndCounter.1
  let self := self.setOrderedCounter nameAndCounter.2
  if oom.nodeAlloc then (self, .outOfMemory, [])
  else
    let dref := mkFreshNode name d
    let idx := self.orderedIndex.getD []
    let insertIndex := match optInsertBefore with
      | some b => (findLastIdx idx b).getD idx.length
      | none => idx.length
    let pc := putChildFull self selfAncestors selfPath (some dref) true
      notifyChangedData oom.hashPut
    let self := pc.1
    if pc.2.1 ≠ .noError then (self, pc.2.1.orError, pc.2.2)
    else if oom.indexInsert then
      let rc := removeChild 1 self name true false selfPath
      (rc.1, Status.outOfMemory.orError, pc.2.2 ++ rc.2.2)
    else
      let idx := self.orderedIndex.getD []
      let self := self.setOrderedIndex (some (listInsertIdx idx insertIndex name))
      (self, .noError, pc.2.2 ++ [.indexChanged .entryInserted insertIndex name])

/-- DataNode::InsertOrderedChild with its allocation failures made
explicit.  The notify-on-set-parent session is dereferenced unconditionally
in the source (GetNewDataNode is called through it), so those notifications
are always emitted; `notifyChangedData` tells whether the optional second
session was supplied. -/
def insertOrderedChildFull (oom : OomOracle) (self : DataNode)
    (selfAncestors : Nat) (selfPath : List String) (d : Option Nat)
    (optInsertBefore optNodeName : Option String) (notifyChangedData : Bool) :
    DataNode × Status × List Event :=
  match self.orderedIndex with
  | none =>
    if oom.queueAlloc then (self, .outOfMemory, [])
    else insertOrderedChildBody oom (self.setOrderedIndex (some []))
      selfAncestors selfPath d optInsertBefore optNodeName notifyChangedData
  | some _ =>
    insertOrderedChildBody oom self selfAncestors selfPath d optInsertBefore
      optNodeName notifyChangedData

/-- DataNode::InsertOrderedChild on the normal (all allocations succeed)
path. -/
def insertOrderedChild (self : DataNode) (selfAncestors : Nat)
    (selfPath : List String) (d : Option Nat)
    (optInsertBefore optNodeName : Option String) (notifyChangedData : Bool) :
    DataNode × Status × List Event :=
  insertOrderedChildFull ⟨false, false, false, false⟩ self selfAncestors selfPath
    d optInsertBefore optNodeName notifyChangedData

/-- uint32 `+=` accumulation over a list, in order. -/
def sumU32 (init : Nat) (l : List Nat) : Nat :=
  l.foldl (fun acc x => u32 (acc + x)) init

mutual

/-- DataNode::CalculateChecksum(maxRecursionDepth).  The method is const
but fills the mutable `_cachedDataChecksum` of this node and (through the
child references it recurses into) of its descendants, so the model
returns the value together with the updated node.  The ordered-index names
are accumulated by the downward for-loop, then every child in the children
table contributes its recursive checksum at depth-1. -/
def calculateChecksum : DataNode → Nat → Nat × DataNode
  | .node nm dep hint cnt dat cache ch oi, maxRecursionDepth =>
    let lc := if cache = 0 then localChecksum (.node nm dep hint cnt dat cache ch oi)
              else cache
    if maxRecursionDepth = 0 then (lc, .node nm dep hint cnt dat lc ch oi)
    else
      let idxSum := sumU32 lc ((oi.getD []).reverse.map bytesChecksum)
      match ch with
      | none => (idxSum, .node nm dep hint cnt dat lc none oi)
      | some tbl =>
        let cs := calcChecksumList tbl (maxRecursionDepth - 1) idxSum
        (cs.1, .node nm dep hint cnt dat lc (some cs.2) oi)

/-- The children-iteration of CalculateChecksum: accumulates each child's
recursive checksum into the uint32 running sum and returns the children
with their caches updated. -/
def calcChecksumList : List (String × DataNode) → Nat → Nat →
    Nat × List (String × DataNode)
  | [], _, acc => (acc, [])
  | (k, c) :: rest, d, acc =>
    let cc := calculateChecksum c d
    let rr := calcChecksumList rest d (u32 (acc + cc.1))
    (rr.1, (k, cc.2) :: rr.2)

end

/-- The names of a node's children, in table iteration order. -/
def childKeys (n : DataNode) : List String := (n.children.getD []).map Prod.fst

/-- True when a node has an empty or unallocated children table (a freshly
created node, in particular). -/
def DataNode.childless (n : DataNode) : Bool :=
  match n.children with
  | none => true
  | some [] => true
  | some (_ :: _) => false

/-- Applies a mutation to the node found at `path` below this node, putting
the mutated subtree back in place; a path that does not resolve leaves the
tree untouched.  The mutation receives the ancestor count and absolute path
of the node it runs on (the data the C++ code recovers by walking `_parent`
links). -/
def modifyAtPath (f : Nat → List String → DataNode → DataNode × List Event) :
    DataNode → Nat → List String → List String → DataNode × List Event
  | n, d, pathSoFar, [] => f d pathSoFar n
  | n, d, pathSoFar, k :: rest =>
    match n.children with
    | none => (n, [])
    | some tbl =>
      match alGet tbl k with
      | none => (n, [])
      | some c =>
        let r := modifyAtPath f c (d + 1) (pathSoFar ++ [k]) rest
        (n.setChildren (some (alPut tbl k r.1)), r.2)

/-- One DataNode tree operation, addressed at a path from the root. -/
inductive TreeOp where
  | putChildOp (path : List String) (child : Option DataNode) (notifySP notifyCD : Bool)
  | removeChildOp (path : List String) (key : String) (notify recurse : Bool)
  | insertOrderedChildOp (path : List String) (d : Option Nat)
      (before nm : Option String) (notifyCD : Bool)
  | insertIndexEntryAtOp (path : List String) (pos : Nat) (key : String)
  | removeIndexEntryAtOp (path : List String) (pos : Nat) (notify : Bool)
  | reorderChildOp (path : List String) (childName before : Option String) (notify : Bool)
  | setDataOp (path : List String) (d : Option Nat)
      (notify isBeingCreated enableSupercede : Bool)
  | calcChecksumOp (path : List String) (depth : Nat)

/-- Applies one tree operation to the tree under `root`. -/
def applyOp (root : DataNode) : TreeOp → DataNode
  | .putChildOp path child nSP nCD =>
    (modifyAtPath (fun d p n =>
      let r := putChild n d p child nSP nCD; (r.1, r.2.2)) root 0 [] path).1
  | .removeChildOp path key notify recurse =>
    (modifyAtPath (fun _ p n =>
      let r := removeChild root.totalSize n key notify recurse p; (r.1, r.2.2))
      root 0 [] path).1
  | .insertOrderedChildOp path d before nm nCD =>
    (modifyAtPath (fun dp p n =>
      let r := insertOrderedChild n dp p d before nm nCD; (r.1, r.2.2))
      root 0 [] path).1
  | .insertIndexEntryAtOp path pos key =>
    (modifyAtPath (fun _ _ n =>
      let r := insertIndexEntryAt n pos key; (r.1, r.2.2)) root 0 [] path).1
  | .removeIndexEntryAtOp path pos notify =>
    (modifyAtPath (fun _ _ n =>
      let r := removeIndexEntryAt n pos notify; (r.1, r.2.2)) root 0 [] path).1
  | .reorderChildOp path childName before notify =>
    (modifyAtPath (fun _ _ n =>
      let r := reorderChild n childName before notify; (r.1, r.2.2)) root 0 [] path).1
  | .setDataOp path d notify bc es =>
    (modifyAtPath (fun _ p n => setData n d notify bc es p) root 0 [] path).1
  | .calcChecksumOp path depth =>
    (modifyAtPath (fun _ _ n => ((calculateChecksum n depth).2, [])) root 0 [] path).1

/-- Applies a sequence of tree operations in order. -/
def applyOps (root : DataNode) : List TreeOp → DataNode
  | [] => root
  | op :: rest => applyOps (applyOp root op) rest

mutual

/-- The per-node checksum-cache invariant, holding throughout a subtree:
`_cachedDataChecksum` is 0 (recompute on demand) or the checksum of
name+payload. -/
def cacheOKb : DataNode → Bool
  | .node nm d h c dat cache ch oi =>
    (cache == 0 || cache == localChecksum (.node nm d h c dat cache ch oi)) &&
    (match ch with
     | none => true
     | some tbl => cacheOKbList tbl)

def cacheOKbList : List (String × DataNode) → Bool
  | [] => true
  | (_, c) :: rest => cacheOKb c && cacheOKbList rest

end

mutual

/-- Every node of the subtree has its stored `_depth` equal to its ancestor
count, the subtree's root sitting at ancestor count `a`. -/
def depthOKb : DataNode → Nat → Bool
  | .node _ dep _ _ _ _ ch _, a =>
    (dep == a) &&
    (match ch with
     | none => true
     | some tbl => depthOKbList tbl (a + 1))

def depthOKbList : List (String × DataNode) → Nat → Bool
  | [], _ => true
  | (_, c) :: rest, a => depthOKb c a && depthOKbList rest a

end

mutual

/-- The checksum value in the words of the spec: the name+payload checksum
plus, when depth > 0, each indexed child's name checksum plus each child's
recursive checksum with depth-1 (as a uint32 sum). -/
def checksumSpec : DataNode → Nat → Nat
  | .node nm d h c dat cache ch oi, dep =>
    if dep = 0 then localChecksum (.node nm d h c dat cache ch oi)
    else u32 (localChecksum (.node nm d h c dat cache ch oi)
      + ((oi.getD []).map bytesChecksum).sum
      + (match ch with
         | none => 0
         | some tbl => checksumSpecList tbl (dep - 1)))

def checksumSpecList : List (String × DataNode) → Nat → Nat
  | [], _ => 0
  | (_, c) :: rest, dep => checksumSpec c dep + checksumSpecList rest dep

end

mutual

/-- The paths of a subtree's nodes in post-order: all descendants (children
in table iteration order) before the subtree root itself. -/
def postorderPaths : DataNode → List String → List (List String)
  | .node _ _ _ _ _ _ ch _, base =>
    (match ch with
     | none => []
     | some tbl => postorderPathsList tbl base) ++ [base]

def postorderPathsList : List (String × DataNode) → List String → List (List String)
  | [], _ => []
  | (k, c) :: rest, base =>
    postorderPaths c (base ++ [k]) ++ postorderPathsList rest base

end

/-- The paths carried by the NodeChanged(ISBEINGREMOVED) notifications of
an event list, in emission order. -/
def removedPaths (evs : List Event) : List (List String) :=
  evs.filterMap (fun e => match e with
    | .nodeChanged p _ fl => if fl.isBeingRemoved then some p else none
    | _ => none)

/-! ## The RefCountable / ConstRef world (util/RefCount.h) -/

/-- Association-list lookup for Nat-keyed tables. -/
def nlGet {α : Type} : List (Nat × α) → Nat → Option α
  | [], _ => none
  | (k, v) :: rest, key => if k = key then some v else nlGet rest key

/-- Association-list update: replaces an existing key in place, appends a
new one. -/
def nlPut {α : Type} : List (Nat × α) → Nat → α → List (Nat × α)
  | [], key, v => [(key, v)]
  | (k, w) :: rest, key, v =>
    if k = key then (k, v) :: rest else (k, w) :: nlPut rest key v

/-- Association-list removal. -/
def nlRemove {α : Type} : List (Nat × α) → Nat → List (Nat × α)
  | [], _ => []
  | (k, w) :: rest, key => if k = key then rest else (k, w) :: nlRemove rest key

/-- The value held by a ConstRef: the PointerAndBool of the referenced
RefCountable (none for NULL) and the do-ref-count bit. -/
structure HandleVal where
  ptr : Option Nat
  strong : Bool
deriving DecidableEq, Repr

/-- The refcount world: allocated RefCountable objects with their
`_refCount` values, and the live ConstRef handles keyed by handle id.
An object disappears from `objs` when the last release deletes it or
returns it to its pool. -/
structure RCState where
  objs : List (Nat × Nat)
  handles : List (Nat × HandleVal)
deriving DecidableEq, Repr

/-- RefCountable::IncrementRefCount via the object table. -/
def incRefObj (objs : List (Nat × Nat)) (o : Nat) : List (Nat × Nat) :=
  objs.map (fun e => if e.1 = o then (e.1, e.2 + 1) else e)

/-- RefCountable::DecrementRefCount plus the delete/recycle that UnrefItem
performs when the decremented count reaches zero: the object leaves the
table.  (A decrement is only ever reached through a strong handle, whose
existence keeps the count positive.) -/
def decRefObj (objs : List (Nat × Nat)) (o : Nat) : List (Nat × Nat) :=
  match nlGet objs o with
  | none => objs
  | some rc => if rc - 1 = 0 then nlRemove objs o else nlPut objs o (rc - 1)

/-- ConstRef::RefItem: increments the refcount when the handle is
ref-counting and non-NULL. -/
def refItem (s : RCState) (h : HandleVal) : RCState :=
  match h.ptr, h.strong with
  | some o, true => { s with objs := incRefObj s.objs o }
  | _, _ => s

/-- ConstRef::UnrefItem: when non-NULL, decrements (and deletes on zero)
if ref-counting, and always nulls the held pointer. -/
def unrefItem (s : RCState) (h : HandleVal) : RCState × HandleVal :=
  match h.ptr with
  | none => (s, h)
  | some o =>
    (if h.strong then { s with objs := decRefObj s.objs o } else s,
     { ptr := none, strong := h.strong })

/-- ConstRef::SetRef(item, doRefCount), acting on a handle's value and the
world: the same-pointer branch toggles the ref-counting bit (dropping the
bit routes through UnrefItem, which also nulls the pointer); the
different-pointer branch unreferences the old item and references the new
one. -/
def setRefVal (s : RCState) (h : HandleVal) (item : Option Nat)
    (doRefCount : Bool) : RCState × HandleVal :=
  if item = h.ptr then
    if doRefCount = h.strong then (s, h)
    else if doRefCount then
      let h2 : HandleVal := { ptr := h.ptr, strong := true }
      (refItem s h2, h2)
    else
      let r := unrefItem s h
      (r.1, { ptr := r.2.ptr, strong := false })
  else
    let r := unrefItem s h
    let h2 : HandleVal := { ptr := item, strong := doRefCount }
    (refItem r.1 h2, h2)

/-- Guard against the undefined behaviour of referencing a deleted object:
a handle value that is strong and non-NULL must name a live object for an
operation that will RefItem through it to be legal C++. -/
def strongTargetAlive (s : RCState) (h : HandleVal) : Bool :=
  match h.ptr, h.strong with
  | some o, true => (nlGet s.objs o).isSome
  | _, _ => true

/-- The handle-level operations of util/RefCount.h: object allocation,
handle construction (ConstRef(item) strong, DummyConstRef(item) weak),
copy construction, assignment, SetRef, and destruction. -/
inductive RCOp where
  | newObject (oid : Nat)
  | newHandle (hid : Nat) (oid : Option Nat) (strong : Bool)
  | copyHandle (hid src : Nat)
  | assignHandle (dst src : Nat)
  | setRefOp (hid : Nat) (oid : Option Nat) (strong : Bool)
  | destroyHandle (hid : Nat)
deriving DecidableEq, Repr

/-- One step of the refcount world; `none` marks an operation that is not
legal C++ here (reused id, unknown handle, or resurrecting a deleted
object through a strong reference). -/
def rcStep (s : RCState) : RCOp → Option RCState
  | .newObject o =>
    if (nlGet s.objs o).isSome then none
    else some { s with objs := s.objs ++ [(o, 0)] }
  | .newHandle h oid strong =>
    if (nlGet s.handles h).isSome then none
    else
      let hv : HandleVal := { ptr := oid, strong := strong }
      if strongTargetAlive s hv then
        some { refItem s hv with handles := s.handles ++ [(h, hv)] }
      else none
  | .copyHandle h src =>
    if (nlGet s.handles h).isSome then none
    else
      match nlGet s.handles src with
      | none => none
      | some sv =>
        if strongTargetAlive s sv then
          -- copy construction starts from (NULL, true) and runs SetRef on
          -- the source's pointer and bit
          let r := setRefVal s { ptr := none, strong := true } sv.ptr sv.strong
          some { r.1 with handles := r.1.handles ++ [(h, r.2)] }
        else none
  | .assignHandle dst src =>
    match nlGet s.handles dst, nlGet s.handles src with
    | some dv, some sv =>
      if strongTargetAlive s sv then
        let r := setRefVal s dv sv.ptr sv.strong
        some { r.1 with handles := nlPut r.1.handles dst r.2 }
      else none
    | _, _ => none
  | .setRefOp h oid strong =>
    match nlGet s.handles h with
    | none => none
    | some hv =>
      if strongTargetAlive s { ptr := oid, strong := strong } then
        let r := setRefVal s hv oid strong
        some { r.1 with handles := nlPut r.1.handles h r.2 }
      else none
  | .destroyHandle h =>
    match nlGet s.handles h with
    | none => none
    | some hv =>
      let r := unrefItem s hv
      some { r.1 with handles := nlRemove r.1.handles h }

/-- Runs a list of handle operations from a given world. -/
def runRCFrom (s : RCState) : List RCOp → Option RCState
  | [] => some s
  | op :: rest =>
    match rcStep s op with
    | none => none
    | some s2 => runRCFrom s2 rest

/-- Runs a list of handle operations from the empty world. -/
def runRC (ops : List RCOp) : Option RCState := runRCFrom ⟨[], []⟩ ops

/-- The number of live strong (do-ref-count) handles referencing object
`o`. -/
def strongCount (s : RCState) (o : Nat) : Nat :=
  s.handles.countP (fun e => e.2.strong && e.2.ptr == some o)

/-- The refcount invariant: object and handle ids are unique, every live
object's refcount equals its number of live strong handles, and strong
handles only point at live objects. -/
def rcInv (s : RCState) : Prop :=
  (s.objs.map Prod.fst).Nodup ∧ (s.handles.map Prod.fst).Nodup ∧
  (∀ o rc, (o, rc) ∈ s.objs → rc = strongCount s o) ∧
  (∀ h hv, (h, hv) ∈ s.handles → hv.strong → ∀ o, hv.ptr = some o →
    (nlGet s.objs o).isSome = true)

/-- The effect of ConstRef::RefItem on the object table alone (refItem
with the state projected to `objs`). -/
def refObjs (objs : List (Nat × Nat)) (hv : HandleVal) : List (Nat × Nat) :=
  match hv.ptr, hv.strong with
  | some o, true => incRefObj objs o
  | _, _ => objs

/-- The effect of ConstRef::UnrefItem on the object table alone (unrefItem
with the state projected to `objs`). -/
def unrefObjs (objs : List (Nat × Nat)) (hv : HandleVal) : List (Nat × Nat) :=
  match hv.ptr, hv.strong with
  | some o, true => decRefObj objs o
  | _, _ => objs

/-! ## Typed-handle narrowing and widening (util/RefCount.h) -/

/-- A small representative class hierarchy under RefCountable for the
dynamic_cast model: classes A and B derive RefCountable, ASub derives A. -/
inductive CType where
  | tRefCountable
  | tA
  | tB
  | tASub
deriving DecidableEq, Repr

/-- Whether a dynamic_cast of an object with dynamic type `dyn` to a
pointer of class `target` succeeds. -/
def derivesFrom (dyn target : CType) : Bool :=
  target = .tRefCountable || dyn = target || (dyn = .tASub && target = .tA)

/-- ConstRef::SetFromRefCountableRef on a typed handle of class `target`:
a NULL source resets the handle; a live source is dynamic_cast, and on
mismatch the handle is left unchanged and B_BAD_ARGUMENT returned.
`typeOf` gives each object's dynamic type. -/
def setFromRefCountableRef (s : RCState) (typeOf : Nat → CType)
    (target : CType) (cur ref : HandleVal) : RCState × HandleVal × Status :=
  match ref.ptr with
  | some o =>
    if derivesFrom (typeOf o) target then
      let r := setRefVal s cur ref.ptr ref.strong
      (r.1, r.2, .noError)
    else (s, cur, .badArgument)
  | none =>
    let r := unrefItem s cur
    (r.1, r.2, .noError)

/-- The narrowing constructor `ConstRef(const ConstRefCountableRef &, bool)`:
a fresh handle (NULL pointer, ref-counting bit set) is filled in through
SetFromRefCountableRef, whose error result is discarded. -/
def narrowCtor (s : RCState) (typeOf : Nat → CType) (target : CType)
    (ref : HandleVal) : RCState × HandleVal :=
  let r := setFromRefCountableRef s typeOf target { ptr := none, strong := true } ref
  (r.1, r.2.1)

/-- The widening (upcast) template constructor
`ConstRef(const ConstRef<T> &)`: copies the pointer and the ref-counting
bit verbatim and references the item — it cannot fail. -/
def widenCtor (s : RCState) (ref : HandleVal) : RCState × HandleVal :=
  (refItem s ref, ref)

/-! ## Field lemmas for the DataNode setters -/

namespace DataNode

@[simp] theorem nodeName_setChildren (n : DataNode) (ch : Option (List (String × DataNode))) :
    (n.setChildren ch).nodeName = n.nodeName := by cases n; rfl

@[simp] theorem depth_setChildren (n : DataNode) (ch : Option (List (String × DataNode))) :
    (n.setChildren ch).depth = n.depth := by cases n; rfl

@[simp] theorem maxChildIDHint_setChildren (n : DataNode) (ch : Option (List (String × DataNode))) :
    (n.setChildren ch).maxChildIDHint = n.maxChildIDHint := by cases n; rfl

@[simp] theorem orderedCounter_setChildren (n : DataNode) (ch : Option (List (String × DataNode))) :
    (n.setChildren ch).orderedCounter = n.orderedCounter := by cases n; rfl

@[simp] theorem data_setChildren (n : DataNode) (ch : Option (List (String × DataNode))) :
    (n.setChildren ch).data = n.data := by cases n; rfl

@[simp] theorem cachedDataChecksum_setChildren (n : DataNode) (ch : Option (List (String × DataNode))) :
    (n.setChildren ch).cachedDataChecksum = n.cachedDataChecksum := by cases n; rfl

@[simp] theorem children_setChildren (n : DataNode) (ch : Option (List (String × DataNode))) :
    (n.setChildren ch).children = ch := by cases n; rfl

@[simp] theorem orderedIndex_setChildren (n : DataNode) (ch : Option (List (String × DataNode))) :
    (n.setChildren ch).orderedIndex = n.orderedIndex := by cases n; rfl

@[simp] theorem nodeName_setOrderedIndex (n : DataNode) (oi : Option (List String)) :
    (n.setOrderedIndex oi).nodeName = n.nodeName := by cases n; rfl

@[simp] theorem depth_setOrderedIndex (n : DataNode) (oi : Option (List String)) :
    (n.setOrderedIndex oi).depth = n.depth := by cases n; rfl

@[simp] theorem maxChildIDHint_setOrderedIndex (n : DataNode) (oi : Option (List String)) :
    (n.setOrderedIndex oi).maxChildIDHint = n.maxChildIDHint := by cases n; rfl

@[simp] theorem orderedCounter_setOrderedIndex (n : DataNode) (oi : Option (List String)) :
    (n.setOrderedIndex oi).orderedCounter = n.orderedCounter := by cases n; rfl

@[simp] theorem data_setOrderedIndex (n : DataNode) (oi : Option (List String)) :
    (n.setOrderedIndex oi).data = n.data := by cases n; rfl

@[simp] theorem cachedDataChecksum_setOrderedIndex (n : DataNode) (oi : Option (List String)) :
    (n.setOrderedIndex oi).cachedDataChecksum = n.cachedDataChecksum := by cases n; rfl

@[simp] theorem children_setOrderedIndex (n : DataNode) (oi : Option (List String)) :
    (n.setOrderedIndex oi).children = n.children := by cases n; rfl

@[simp] theorem orderedIndex_setOrderedIndex (n : DataNode) (oi : Option (List String)) :
    (n.setOrderedIndex oi).orderedIndex = oi := by cases n; rfl

@[simp] theorem nodeName_setDepth (n : DataNode) (d : Nat) :
    (n.setDepth d).nodeName = n.nodeName := by cases n; rfl

@[simp] theorem depth_setDepth (n : DataNode) (d : Nat) :
    (n.setDepth d).depth = d := by cases n; rfl

@[simp] theorem maxChildIDHint_setDepth (n : DataNode) (d : Nat) :
    (n.setDepth d).maxChildIDHint = n.maxChildIDHint := by cases n; rfl

@[simp] theorem orderedCounter_setDepth (n : DataNode) (d : Nat) :
    (n.setDepth d).orderedCounter = n.orderedCounter := by cases n; rfl

@[simp] theorem data_setDepth (n : DataNode) (d : Nat) :
    (n.setDepth d).data = n.data := by cases n; rfl

@[simp] theorem cachedDataChecksum_setDepth (n : DataNode) (d : Nat) :
    (n.setDepth d).cachedDataChecksum = n.cachedDataChecksum := by cases n; rfl

@[simp] theorem children_setDepth (n : DataNode) (d : Nat) :
    (n.setDepth d).children = n.children := by cases n; rfl

@[simp] theorem orderedIndex_setDepth (n : DataNode) (d : Nat) :
    (n.setDepth d).orderedIndex = n.orderedIndex := by cases n; rfl

@[simp] theorem nodeName_setMaxChildIDHint (n : DataNode) (h : Nat) :
    (n.setMaxChildIDHint h).nodeName = n.nodeName := by cases n; rfl

@[simp] theorem depth_setMaxChildIDHint (n : DataNode) (h : Nat) :
    (n.setMaxChildIDHint h).depth = n.depth := by cases n; rfl

@[simp] theorem maxChildIDHint_setMaxChildIDHint (n : DataNode) (h : Nat) :
    (n.setMaxChildIDHint h).maxChildIDHint = h := by cases n; rfl

@[simp] theorem orderedCounter_setMaxChildIDHint (n : DataNode) (h : Nat) :
    (n.setMaxChildIDHint h).orderedCounter = n.orderedCounter := by cases n; rfl

@[simp] theorem data_setMaxChildIDHint (n : DataNode) (h : Nat) :
    (n.setMaxChildIDHint h).data = n.data := by cases n; rfl

@[simp] theorem cachedDataChecksum_setMaxChildIDHint (n : DataNode) (h : Nat) :
    (n.setMaxChildIDHint h).cachedDataChecksum = n.cachedDataChecksum := by cases n; rfl

@[simp] theorem children_setMaxChildIDHint (n : DataNode) (h : Nat) :
    (n.setMaxChildIDHint h).children = n.children := by cases n; rfl

@[simp] theorem orderedIndex_setMaxChildIDHint (n : DataNode) (h : Nat) :
    (n.setMaxChildIDHint h).orderedIndex = n.orderedIndex := by cases n; rfl

@[simp] theorem nodeName_setOrderedCounter (n : DataNode) (c : Nat) :
    (n.setOrderedCounter c).nodeName = n.nodeName := by cases n; rfl

@[simp] theorem depth_setOrderedCounter (n : DataNode) (c : Nat) :
    (n.setOrderedCounter c).depth = n.depth := by cases n; rfl

@[simp] theorem maxChildIDHint_setOrderedCounter (n : DataNode) (c : Nat) :
    (n.setOrderedCounter c).maxChildIDHint = n.maxChildIDHint := by cases n; rfl

@[simp] theorem orderedCounter_setOrderedCounter (n : DataNode) (c : Nat) :
    (n.setOrderedCounter c).orderedCounter = c := by cases n; rfl

@[simp] theorem data_setOrderedCounter (n : DataNode) (c : Nat) :
    (n.setOrderedCounter c).data = n.data := by cases n; rfl

@[simp] theorem cachedDataChecksum_setOrderedCounter (n : DataNode) (c : Nat) :
    (n.setOrderedCounter c).cachedDataChecksum = n.cachedDataChecksum := by cases n; rfl

@[simp] theorem children_setOrderedCounter (n : DataNode) (c : Nat) :
    (n.setOrderedCounter c).children = n.children := by cases n; rfl

@[simp] theorem orderedIndex_setOrderedCounter (n : DataNode) (c : Nat) :
    (n.setOrderedCounter c).orderedIndex = n.orderedIndex := by cases n; rfl

@[simp] theorem nodeName_setDataField (n : DataNode) (dat : Option Nat) :
    (n.setDataField dat).nodeName = n.nodeName := by cases n; rfl

@[simp] theorem depth_setDataField (n : DataNode) (dat : Option Nat) :
    (n.setDataField dat).depth = n.depth := by cases n; rfl

@[simp] theorem maxChildIDHint_setDataField (n : DataNode) (dat : Option Nat) :
    (n.setDataField dat).maxChildIDHint = n.maxChildIDHint := by cases n; rfl

@[simp] theorem orderedCounter_setDataField (n : DataNode) (dat : Option Nat) :
    (n.setDataField dat).orderedCounter = n.orderedCounter := by cases n; rfl

@[simp] theorem data_setDataField (n : DataNode) (dat : Option Nat) :
    (n.setDataField dat).data = dat := by cases n; rfl

@[simp] theorem cachedDataChecksum_setDataField (n : DataNode) (dat : Option Nat) :
    (n.setDataField dat).cachedDataChecksum = n.cachedDataChecksum := by cases n; rfl

@[simp] theorem children_setDataField (n : DataNode) (dat : Option Nat) :
    (n.setDataField dat).children = n.children := by cases n; rfl

@[simp] theorem orderedIndex_setDataField (n : DataNode) (dat : Option Nat) :
    (n.setDataField dat).orderedIndex = n.orderedIndex := by cases n; rfl

@[simp] theorem nodeName_setCache (n : DataNode) (cs : Nat) :
    (n.setCache cs).nodeName = n.nodeName := by cases n; rfl

@[simp] theorem depth_setCache (n : DataNode) (cs : Nat) :
    (n.setCache cs).depth = n.depth := by cases n; rfl

@[simp] theorem maxChildIDHint_setCache (n : DataNode) (cs : Nat) :
    (n.setCache cs).maxChildIDHint = n.maxChildIDHint := by cases n; rfl

@[simp] theorem orderedCounter_setCache (n : DataNode) (cs : Nat) :
    (n.setCache cs).orderedCounter = n.orderedCounter := by cases n; rfl

@[simp] theorem data_setCache (n : DataNode) (cs : Nat) :
    (n.setCache cs).data = n.data := by cases n; rfl

@[simp] theorem cachedDataChecksum_setCache (n : DataNode) (cs : Nat) :
    (n.setCache cs).cachedDataChecksum = cs := by cases n; rfl

@[simp] theorem children_setCache (n : DataNode) (cs : Nat) :
    (n.setCache cs).children = n.children := by cases n; rfl

@[simp] theorem orderedIndex_setCache (n : DataNode) (cs : Nat) :
    (n.setCache cs).orderedIndex = n.orderedIndex := by cases n; rfl

end DataNode

/-! ## Concrete scenario states -/

/-- Resolves a path below a node (pure lookup, no mutation). -/
def getAtPath : DataNode → List String → Option DataNode
  | n, [] => some n
  | n, k :: rest =>
    match n.children with
    | none => none
    | some tbl =>
      match alGet tbl k with
      | none => none
      | some c => getAtPath c rest

/-- One InsertOrderedChild with no name, no insert-before, on a root-level
parent. -/
def insertUnnamed (n : DataNode) : DataNode :=
  (insertOrderedChild n 0 [] none none none false).1

/-- The S1 scenario parent after three no-name ordered inserts. -/
def c1AfterThree : DataNode :=
  insertUnnamed (insertUnnamed (insertUnnamed (mkFreshNode "parent" none)))

/-- The S1 scenario parent after PutChild of a node named I5. -/
def c1AfterPut : DataNode :=
  (putChild c1AfterThree 0 [] (some (mkFreshNode "I5" none)) true false).1

/-- The S1 scenario's final no-name ordered insert. -/
def c1Final : DataNode × Status × List Event :=
  insertOrderedChild c1AfterPut 0 [] none none none false

/-- One named ordered insert at the end of the index, on a root-level
parent. -/
def insertNamed (nm : String) (n : DataNode) : DataNode :=
  (insertOrderedChild n 0 [] none none (some nm) false).1

/-- The S2 scenario parent: ordered children [a, b, c, d]. -/
def c5Parent : DataNode :=
  insertNamed "d" (insertNamed "c" (insertNamed "b" (insertNamed "a"
    (mkFreshNode "p" none))))

/-- The S2 parent with one extra child e that is in the children table but
not in the ordered index (PutChild does not touch the index). -/
def c6Parent : DataNode :=
  (putChild c5Parent 0 [] (some (mkFreshNode "e" none)) true false).1

/-- A node whose children table is allocated but empty: a child was put and
then removed (RemoveChild never deallocates `_children`). -/
def c8Node : DataNode :=
  (removeChild 1
    ((putChild (mkFreshNode "p" none) 0 [] (some (mkFreshNode "x" none)) true false).1)
    "x" false false []).1

/-! ## C1 -/

/-- C1 counterexample: in the S1 scenario the three no-name inserts do
produce children I0, I1, I2, but after PutChild("I5") the next no-name
insert produces a child named I3, not I6 — InsertOrderedChild draws names
from `_orderedCounter` (which stands at 3) and never consults
`_maxChildIDHint`, so the claimed resumption above the recorded suffix does
not happen. -/
theorem c1_counterexample :
    childKeys c1AfterThree = ["I0", "I1", "I2"] ∧
    childKeys c1Final.1 = ["I0", "I1", "I2", "I5", "I3"] ∧
    c1Final.1.hasChild "I6" = false := by
  refine ⟨by decide, by decide, by decide⟩

/-- C1 amended: three no-name ordered inserts into an empty parent produce
children I0, I1, I2; after PutChild("I5") the hint `_maxChildIDHint` is
indeed maintained at the largest parsed numeric suffix (5), but the next
no-name insert is named from the insertion counter and yields I6's place
taken by I3, the counter moving to 4. -/
theorem c1_amended :
    childKeys c1AfterThree = ["I0", "I1", "I2"] ∧
    childKeys c1Final.1 = ["I0", "I1", "I2", "I5", "I3"] ∧
    c1Final.1.maxChildIDHint = 5 ∧
    c1Final.1.orderedCounter = 4 ∧
    c1Final.1.orderedIndex = some ["I0", "I1", "I2", "I3"] := by
  refine ⟨by decide, by decide, by decide, by decide, by decide⟩

/-- A node with exactly one child named x (used to exercise the
insert-index-entry success path). -/
def c8Good : DataNode :=
  (putChild (mkFreshNode "p" none) 0 [] (some (mkFreshNode "x" none)) true false).1

@[simp] theorem DataNode.hasChild_setOrderedIndex (n : DataNode)
    (oi : Option (List String)) (key : String) :
    (n.setOrderedIndex oi).hasChild key = n.hasChild key := by
  cases n; rfl

/-! ## C5 -/

/-- C5: for any parent whose ordered index is [a, b, c, d] and that has a
child a, ReorderChild on child c with before = a succeeds, leaves the
ordered index [c, a, b, d], and emits exactly IndexChanged(REMOVED, 2, c)
followed by IndexChanged(INSERTED, 0, c). -/
theorem c5_reorder (n : DataNode)
    (hidx : n.orderedIndex = some ["a", "b", "c", "d"])
    (hchild : n.hasChild "a" = true) :
    (reorderChild n (some "c") (some "a") true).2.1 = Status.noError ∧
    (reorderChild n (some "c") (some "a") true).1.orderedIndex =
      some ["c", "a", "b", "d"] ∧
    (reorderChild n (some "c") (some "a") true).2.2 =
      [.indexChanged .entryRemoved 2 "c", .indexChanged .entryInserted 0 "c"] := by
  simp [reorderChild, removeIndexEntry, hidx, hchild, findLastIdx, listEraseIdx,
    listInsertIdx]

/-- C5 witness: the scenario parent built by four named ordered inserts. -/
theorem c5_reorder_witness :
    c5Parent.orderedIndex = some ["a", "b", "c", "d"] ∧
    (reorderChild c5Parent (some "c") (some "a") true).1.orderedIndex =
      some ["c", "a", "b", "d"] :=
  ⟨by decide, (c5_reorder c5Parent (by decide) (by decide)).2.1⟩

/-! ## C6 -/

/-- C6 counterexample: the parent has child e in its children table but not
in its ordered index; ReorderChild(e) returns B_DATA_NOT_FOUND, emits no
index event at all (in particular no INSERTED), and leaves the index
unchanged — because ReorderChild propagates RemoveIndexEntry's failure
through MRETURN_ON_ERROR instead of continuing to the insert step. -/
theorem c6_counterexample :
    c6Parent.hasChild "e" = true ∧
    c6Parent.orderedIndex = some ["a", "b", "c", "d"] ∧
    (reorderChild c6Parent (some "e") none true).2.1 = Status.dataNotFound ∧
    (reorderChild c6Parent (some "e") none true).2.2 = [] ∧
    (reorderChild c6Parent (some "e") none true).1.orderedIndex =
      some ["a", "b", "c", "d"] := by
  refine ⟨by decide, by decide, by decide, by decide, by decide⟩

/-- C6 amended: when ReorderChild is called on a child that is not present
in the parent's ordered index (and the no-op shortcut does not apply), the
operation returns B_DATA_NOT_FOUND, emits no index events and leaves the
node unchanged. -/
theorem c6_amended (n : DataNode) (idx : List String) (cn : String)
    (before : Option String) (notify : Bool)
    (hidx : n.orderedIndex = some idx)
    (habs : findLastIdx idx cn = none)
    (hne : before ≠ some cn) :
    reorderChild n (some cn) before notify = (n, Status.dataNotFound, []) := by
  simp [reorderChild, removeIndexEntry, hidx, habs, hne]

/-- C6 amended witness: the concrete parent with unindexed child e. -/
theorem c6_amended_witness :
    reorderChild c6Parent (some "e") none true =
      (c6Parent, Status.dataNotFound, []) :=
  c6_amended c6Parent ["a", "b", "c", "d"] "e" none true (by decide) (by decide)
    (by decide)

/-! ## C8 -/

/-- C8 counterexample: a node whose only child was removed again has no
children at all, yet InsertIndexEntryAt returns B_DATA_NOT_FOUND rather
than B_BAD_OBJECT — the BadObject answer is tied to the `_children` table
never having been allocated, not to the node having no children. -/
theorem c8_counterexample :
    c8Node.hasChildren = false ∧
    (insertIndexEntryAt c8Node 0 "x").2.1 = Status.dataNotFound ∧
    (insertIndexEntryAt c8Node 0 "x").2.1 ≠ Status.badObject := by
  refine ⟨by decide, by decide, by decide⟩

/-- C8 amended: InsertIndexEntryAt returns B_BAD_OBJECT exactly when the
children table was never allocated (the node never had a child);
B_DATA_NOT_FOUND exactly when the table exists but holds no child of that
name; and otherwise inserts the existing child into the ordered index at
the requested position and emits IndexChanged(INSERTED, pos, name). -/
theorem c8_amended (n : DataNode) (pos : Nat) (key : String) :
    ((insertIndexEntryAt n pos key).2.1 = Status.badObject ↔ n.children = none) ∧
    ((insertIndexEntryAt n pos key).2.1 = Status.dataNotFound ↔
      ∃ tbl, n.children = some tbl ∧ alGet tbl key = none) ∧
    (∀ tbl c, n.children = some tbl → alGet tbl key = some c →
      insertIndexEntryAt n pos key =
        (n.setOrderedIndex (some (listInsertIdx (n.orderedIndex.getD []) pos c.nodeName)),
         Status.noError, [.indexChanged .entryInserted pos c.nodeName])) := by
  cases n with
  | node nm dep hint cnt dat cs ch oi =>
    cases ch with
    | none =>
      refine ⟨by simp [insertIndexEntryAt, DataNode.children],
              by simp [insertIndexEntryAt, DataNode.children], ?_⟩
      intro tbl c h1 h2
      exact Option.noConfusion h1
    | some tbl =>
      cases hget : alGet tbl key with
      | none =>
        refine ⟨by simp [insertIndexEntryAt, DataNode.children, hget], ?_, ?_⟩
        · constructor
          · intro _
            exact ⟨tbl, rfl, hget⟩
          · intro _
            simp [insertIndexEntryAt, DataNode.children, hget]
        · intro tbl2 c2 h1 h2
          injection h1 with h1
          subst h1
          rw [hget] at h2
          cases h2
      | some c =>
        refine ⟨by simp [insertIndexEntryAt, DataNode.children, hget], ?_, ?_⟩
        · constructor
          · intro h
            exfalso
            simp [insertIndexEntryAt, DataNode.children, hget] at h
          · rintro ⟨tbl2, h1, h2⟩
            injection h1 with h1
            subst h1
            rw [hget] at h2
            cases h2
        · intro tbl2 c2 h1 h2
          injection h1 with h1
          subst h1
          rw [hget] at h2
          injection h2 with h2
          subst h2
          simp [insertIndexEntryAt, DataNode.children, hget]

/-- C8 amended witness: both error answers and the success path at concrete
nodes. -/
theorem c8_amended_witness :
    (insertIndexEntryAt c8Node 0 "x").2.1 = Status.dataNotFound ∧
    (insertIndexEntryAt (mkFreshNode "p" none) 0 "x").2.1 = Status.badObject ∧
    (insertIndexEntryAt c8Good 0 "x").2.1 = Status.noError :=
  ⟨((c8_amended c8Node 0 "x").2.1).mpr ⟨[], rfl, rfl⟩,
   ((c8_amended (mkFreshNode "p" none) 0 "x").1).mpr rfl,
   by rw [(c8_amended c8Good 0 "x").2.2 [("x", .node "x" 1 0 0 none 0 none none)]
       (.node "x" 1 0 0 none 0 none none) rfl rfl]⟩

/-! ## C9 -/

/-- C9: constructing a typed handle from a base RefCountable handle runs a
dynamic_cast; whenever the referenced object is not of the target type the
constructed typed handle is a NULL handle (the SetFromRefCountableRef it
delegates to leaves the handle untouched and reports B_BAD_ARGUMENT, and
touches neither refcounts nor the object table), while widening a typed
handle to a base handle always succeeds and preserves the handle's pointer
and ref-counting bit verbatim. -/
theorem c9_narrow_widen (s : RCState) (typeOf : Nat → CType) (target : CType)
    (cur ref : HandleVal) (o : Nat)
    (hptr : ref.ptr = some o)
    (hmis : derivesFrom (typeOf o) target = false) :
    (narrowCtor s typeOf target ref).2.ptr = none ∧
    (narrowCtor s typeOf target ref).1 = s ∧
    setFromRefCountableRef s typeOf target cur ref = (s, cur, Status.badArgument) ∧
    ∀ r2 : HandleVal, (widenCtor s r2).2 = r2 := by
  refine ⟨?_, ?_, ?_, fun r2 => rfl⟩ <;>
    simp [narrowCtor, setFromRefCountableRef, hptr, hmis]

/-- C9 witness: an object of dynamic type B narrowed to a handle of type A
yields a NULL handle. -/
theorem c9_narrow_widen_witness :
    (narrowCtor ⟨[(1, 0)], []⟩ (fun _ => CType.tB) CType.tA ⟨some 1, true⟩).2.ptr
      = none :=
  (c9_narrow_widen ⟨[(1, 0)], []⟩ (fun _ => CType.tB) CType.tA ⟨none, false⟩
    ⟨some 1, true⟩ 1 rfl (by decide)).1

/-! ## C7 support: RemoveChild removes subtrees in post-order -/

theorem totalSize_node (nm : String) (d hi c : Nat) (dat : Option Nat) (cs : Nat)
    (ch : Option (List (String × DataNode))) (oi : Option (List String)) :
    (DataNode.node nm d hi c dat cs ch oi).totalSize =
      1 + (match ch with
           | none => 0
           | some tbl => DataNode.totalSize.sizeList tbl) := by
  rw [DataNode.totalSize.eq_def]

theorem sizeList_nil : DataNode.totalSize.sizeList [] = 0 := by
  rw [DataNode.totalSize.sizeList.eq_def]

theorem sizeList_cons (k : String) (c : DataNode) (rest : List (String × DataNode)) :
    DataNode.totalSize.sizeList ((k, c) :: rest) =
      c.totalSize + DataNode.totalSize.sizeList rest := by
  rw [DataNode.totalSize.sizeList.eq_def]

theorem DataNode.totalSize_pos (n : DataNode) : 1 ≤ n.totalSize := by
  cases n with
  | node nm d hi c dat cs ch oi =>
    rw [totalSize_node]
    exact Nat.le_add_right 1 _

theorem DataNode.totalSize_children (n : DataNode) (tbl : List (String × DataNode))
    (h : n.children = some tbl) :
    n.totalSize = 1 + DataNode.totalSize.sizeList tbl := by
  cases n with
  | node nm d hi c dat cs ch oi =>
    simp only [DataNode.children] at h
    subst h
    rw [totalSize_node]

theorem sizeList_zero {tbl : List (String × DataNode)}
    (h : DataNode.totalSize.sizeList tbl = 0) : tbl = [] := by
  cases tbl with
  | nil => rfl
  | cons e rest =>
    exfalso
    cases e with
    | mk k c =>
      have hp := DataNode.totalSize_pos c
      rw [sizeList_cons] at h
      omega

theorem drainChildren_none (f : Nat) (n : DataNode) (nt : Bool) (p : List String)
    (h : n.children = none) : drainChildren f n nt p = (n, []) := by
  cases f with
  | zero => rw [drainChildren.eq_def]
  | succ f =>
    rw [drainChildren.eq_def]
    simp [h]

theorem removeIndexEntry_children (n : DataNode) (key : String) (notify : Bool) :
    (removeIndexEntry n key notify).1.children = n.children := by
  rcases h : n.orderedIndex with _ | idx
  · simp [removeIndexEntry, h]
  · rcases hf : findLastIdx idx key with _ | i <;> simp [removeIndexEntry, h, hf]

theorem removeIndexEntry_data (n : DataNode) (key : String) (notify : Bool) :
    (removeIndexEntry n key notify).1.data = n.data := by
  rcases h : n.orderedIndex with _ | idx
  · simp [removeIndexEntry, h]
  · rcases hf : findLastIdx idx key with _ | i <;> simp [removeIndexEntry, h, hf]

@[simp] theorem removedPaths_nil : removedPaths [] = [] := rfl

theorem removedPaths_removeEvent (p : List String) (d : Option Nat) :
    removedPaths [Event.nodeChanged p d ⟨true, false⟩] = [p] := rfl

theorem removedPaths_append (l1 l2 : List Event) :
    removedPaths (l1 ++ l2) = removedPaths l1 ++ removedPaths l2 := by
  simp [removedPaths]

theorem removedPaths_removeIndexEntry (n : DataNode) (key : String) (notify : Bool) :
    removedPaths (removeIndexEntry n key notify).2.2 = [] := by
  rcases h : n.orderedIndex with _ | idx
  · simp [removeIndexEntry, h, removedPaths]
  · rcases hf : findLastIdx idx key with _ | i
    · simp [removeIndexEntry, h, hf, removedPaths]
    · cases notify <;> simp [removeIndexEntry, h, hf, removedPaths]

theorem postorderPaths_node (nm : String) (d hi c : Nat) (dat : Option Nat)
    (cs : Nat) (ch : Option (List (String × DataNode))) (oi : Option (List String))
    (base : List String) :
    postorderPaths (.node nm d hi c dat cs ch oi) base =
      (match ch with
       | none => []
       | some tbl => postorderPathsList tbl base) ++ [base] := by
  rw [postorderPaths.eq_def]

theorem postorderPaths_eq (n : DataNode) (base : List String) :
    postorderPaths n base =
      (match n.children with
       | none => []
       | some tbl => postorderPathsList tbl base) ++ [base] := by
  cases n with
  | node nm d hi c dat cs ch oi => rw [postorderPaths_node]; rfl

theorem postorderPathsList_nil (base : List String) :
    postorderPathsList [] base = [] := by
  rw [postorderPathsList.eq_def]

theorem postorderPathsList_cons (k : String) (c : DataNode)
    (rest : List (String × DataNode)) (base : List String) :
    postorderPathsList ((k, c) :: rest) base =
      postorderPaths c (base ++ [k]) ++ postorderPathsList rest base := by
  rw [postorderPathsList.eq_def]

/-- The joint fuel induction for RemoveChild and its child-draining loop:
with fuel at least 2·(subtree size) − 1 the recursion never exhausts, the
removal succeeds, and the ISBEINGREMOVED notifications list exactly the
removed subtree's paths in post-order (children drained in table iteration
order, each subtree fully removed before its root's notification). -/
theorem removeDrainPostorder : ∀ fuel : Nat,
    (∀ (n : DataNode) (tbl : List (String × DataNode)) (key : String)
       (child : DataNode) (path : List String),
       n.children = some tbl → alGet tbl key = some child →
       2 * child.totalSize - 1 ≤ fuel → 1 ≤ fuel →
       (removeChild fuel n key true true path).2.1 = Status.noError ∧
       removedPaths (removeChild fuel n key true true path).2.2 =
         postorderPaths child (path ++ [key]) ∧
       (removeChild fuel n key true true path).1.children =
         some (alRemove tbl key) ∧
       (removeChild fuel n key true true path).1.data = n.data) ∧
    (∀ (n : DataNode) (tbl : List (String × DataNode)) (path : List String),
       n.children = some tbl →
       2 * DataNode.totalSize.sizeList tbl ≤ fuel →
       removedPaths (drainChildren fuel n true path).2 =
         postorderPathsList tbl path ∧
       (drainChildren fuel n true path).1.children = some [] ∧
       (drainChildren fuel n true path).1.data = n.data) := by
  intro fuel
  induction fuel with
  | zero =>
    constructor
    · intro n tbl key child path h1 h2 hf h0
      omega
    · intro n tbl path h1 hf
      have ht : tbl = [] := sizeList_zero (by omega)
      subst ht
      have hb : drainChildren 0 n true path = (n, []) := by
        rw [drainChildren.eq_def]
      rw [hb]
      exact ⟨by rw [postorderPathsList_nil]; rfl, h1, rfl⟩
  | succ fuel ih =>
    constructor
    · -- the RemoveChild half at fuel+1
      intro n tbl key child path h1 h2 hf h0
      have hrie_ch := removeIndexEntry_children n key true
      have hrie_d := removeIndexEntry_data n key true
      have hrie_rp := removedPaths_removeIndexEntry n key true
      have hbody : removeChild (fuel + 1) n key true true path =
          ((removeIndexEntry n key true).1.setChildren
             (some (alRemove ((removeIndexEntry n key true).1.children.getD []) key)),
           Status.noError,
           (drainChildren fuel child true (path ++ [key])).2 ++
             (removeIndexEntry n key true).2.2 ++
             [Event.nodeChanged (path ++ [key])
               (drainChildren fuel child true (path ++ [key])).1.data ⟨true, false⟩]) := by
        rw [removeChild.eq_def]
        simp [h1, h2]
      cases hcc : child.children with
      | none =>
        have hdr := drainChildren_none fuel child true (path ++ [key]) hcc
        rw [hbody, hdr]
        refine ⟨rfl, ?_, ?_, ?_⟩
        · rw [removedPaths_append, removedPaths_append, hrie_rp,
            removedPaths_removeEvent, postorderPaths_eq, hcc]
          simp
        · simp [hrie_ch, h1]
        · simp [hrie_d]
      | some ctbl =>
        have hts : child.totalSize = 1 + DataNode.totalSize.sizeList ctbl :=
          DataNode.totalSize_children child ctbl hcc
        have hdr := ih.2 child ctbl (path ++ [key]) hcc (by omega)
        rw [hbody]
        refine ⟨rfl, ?_, ?_, ?_⟩
        · rw [removedPaths_append, removedPaths_append, hrie_rp,
            removedPaths_removeEvent, hdr.1, postorderPaths_eq, hcc]
          simp
        · simp [hrie_ch, h1]
        · simp [hrie_d]
    · -- the drain half at fuel+1
      intro n tbl path h1 hf
      cases tbl with
      | nil =>
        have hb : drainChildren (fuel + 1) n true path = (n, []) := by
          rw [drainChildren.eq_def]
          simp [h1]
        rw [hb]
        exact ⟨by rw [postorderPathsList_nil]; rfl, h1, rfl⟩
      | cons e rest =>
        cases e with
        | mk k c =>
          have hsz : DataNode.totalSize.sizeList ((k, c) :: rest) =
              c.totalSize + DataNode.totalSize.sizeList rest := sizeList_cons k c rest
          have hcp := DataNode.totalSize_pos c
          have hrc := ih.1 n ((k, c) :: rest) k c path h1 (by simp [alGet])
            (by rw [hsz] at hf; omega) (by rw [hsz] at hf; omega)
          have hrest : alRemove ((k, c) :: rest) k = rest := by simp [alRemove]
          have hdc := ih.2 (removeChild fuel n k true true path).1 rest path
            (by rw [hrc.2.2.1, hrest]) (by rw [hsz] at hf; omega)
          have hbody : drainChildren (fuel + 1) n true path =
              ((drainChildren fuel (removeChild fuel n k true true path).1 true path).1,
               (removeChild fuel n k true true path).2.2 ++
                 (drainChildren fuel (removeChild fuel n k true true path).1 true path).2) := by
            rw [drainChildren.eq_def]
            simp [h1]
          rw [hbody]
          refine ⟨?_, hdc.2.1, by rw [hdc.2.2, hrc.2.2.2]⟩
          rw [removedPaths_append, hrc.2.1, hdc.1, postorderPathsList_cons]

theorem removeChild_found_status (fuel : Nat) (n : DataNode)
    (tbl : List (String × DataNode)) (key : String) (child : DataNode)
    (notify recurse : Bool) (path : List String)
    (h1 : n.children = some tbl) (h2 : alGet tbl key = some child) :
    (removeChild (fuel + 1) n key notify recurse path).2.1 = Status.noError := by
  rw [removeChild.eq_def]
  simp [h1, h2]

theorem removeChild_missing (fuel : Nat) (n : DataNode) (key : String)
    (notify recurse : Bool) (path : List String)
    (h : n.hasChild key = false) :
    removeChild (fuel + 1) n key notify recurse path =
      (n, Status.dataNotFound, []) := by
  rw [removeChild.eq_def]
  rcases hch : n.children with _ | tbl
  · simp [hch]
  · rw [DataNode.hasChild, hch] at h
    rcases hget : alGet tbl key with _ | c
    · simp [hch, hget]
    · simp [hget] at h

/-- A two-level concrete tree r → a → b for exercising recursive removal. -/
def c7Tree : DataNode :=
  .node "r" 0 0 0 none 0
    (some [("a", .node "a" 1 0 0 none 0
      (some [("b", .node "b" 2 0 0 none 0 none none)]) none)]) none

/-- No entry of the table carries this key. -/
def keyNotIn (k : String) : List (String × DataNode) → Bool
  | [] => true
  | (k2, _) :: rest => !(k2 == k) && keyNotIn k rest

mutual

/-- Well-formedness of a subtree as muscle's Hashtable guarantees it: no
children table holds two entries with the same key. -/
def nodupTreeb : DataNode → Bool
  | .node _ _ _ _ _ _ ch _ =>
    match ch with
    | none => true
    | some tbl => nodupTreebList tbl

def nodupTreebList : List (String × DataNode) → Bool
  | [] => true
  | (k, c) :: rest => keyNotIn k rest && nodupTreeb c && nodupTreebList rest

end

theorem nodupTreeb_node (nm : String) (d hi c : Nat) (dat : Option Nat)
    (cs : Nat) (ch : Option (List (String × DataNode))) (oi : Option (List String)) :
    nodupTreeb (.node nm d hi c dat cs ch oi) =
      (match ch with
       | none => true
       | some tbl => nodupTreebList tbl) := by
  rw [nodupTreeb.eq_def]

theorem nodupTreebList_cons (k : String) (c : DataNode)
    (rest : List (String × DataNode)) :
    nodupTreebList ((k, c) :: rest) =
      (keyNotIn k rest && nodupTreeb c && nodupTreebList rest) := by
  rw [nodupTreebList.eq_def]

theorem keyNotIn_spec (k : String) : ∀ (tbl : List (String × DataNode)),
    keyNotIn k tbl = true → ∀ k2 c2, (k2, c2) ∈ tbl → k2 ≠ k
  | [], _, k2, c2, hm => by cases hm
  | (k3, c3) :: rest, h, k2, c2, hm => by
    rw [keyNotIn] at h
    rcases List.mem_cons.1 hm with he | ht
    · injection he with he1 he2
      subst he1
      intro hk
      subst hk
      simp at h
    · exact keyNotIn_spec k rest (by simp at h; exact h.2) k2 c2 ht

mutual

/-- Every path listed by a subtree's post-order traversal extends the
subtree root's path. -/
theorem postorderPaths_prefix : ∀ (t : DataNode) (base p : List String),
    p ∈ postorderPaths t base → base <+: p
  | .node nm d hi c dat cs ch oi, base, p, hp => by
    rw [postorderPaths_node] at hp
    rcases List.mem_append.1 hp with h | h
    · cases ch with
      | none => cases h
      | some tbl =>
        obtain ⟨k, _, hpre⟩ := postorderPathsList_prefix tbl base p h
        exact (List.prefix_append base [k]).trans hpre
    · rw [List.mem_singleton] at h
      subst h
      exact List.prefix_refl p

/-- Every path listed for a children table extends the base path through
one of the table's keys. -/
theorem postorderPathsList_prefix : ∀ (tbl : List (String × DataNode))
    (base p : List String), p ∈ postorderPathsList tbl base →
    ∃ k, (∃ c, (k, c) ∈ tbl) ∧ (base ++ [k]) <+: p
  | [], base, p, hp => by rw [postorderPathsList_nil] at hp; cases hp
  | (k, c) :: rest, base, p, hp => by
    rw [postorderPathsList_cons] at hp
    rcases List.mem_append.1 hp with h | h
    · exact ⟨k, ⟨c, List.mem_cons_self (k, c) rest⟩,
        postorderPaths_prefix c (base ++ [k]) p h⟩
    · obtain ⟨k2, ⟨c2, hm⟩, hpre⟩ := postorderPathsList_prefix rest base p h
      exact ⟨k2, ⟨c2, List.mem_cons_of_mem _ hm⟩, hpre⟩

end

mutual

/-- In a duplicate-free subtree, no path in the post-order list is strictly
extended by a later one: every removed node's descendants appear earlier. -/
theorem postorderPaths_pairwise : ∀ (t : DataNode) (base : List String),
    nodupTreeb t = true →
    (postorderPaths t base).Pairwise (fun p q => p = q ∨ ¬ p <+: q)
  | .node nm d hi c dat cs ch oi, base, hnd => by
    rw [postorderPaths_node]
    rw [nodupTreeb_node] at hnd
    rw [List.pairwise_append]
    refine ⟨?_, List.pairwise_singleton _ _, ?_⟩
    · cases ch with
      | none => exact List.Pairwise.nil
      | some tbl => exact postorderPathsList_pairwise tbl base hnd
    · intro p hp q hq
      rw [List.mem_singleton] at hq
      cases ch with
      | none => cases hp
      | some tbl =>
        obtain ⟨k, _, hpre⟩ := postorderPathsList_prefix tbl base p hp
        right
        intro hpq
        rw [hq] at hpq
        have h1 : base.length + 1 ≤ p.length := by
          have := hpre.length_le
          simp at this
          omega
        have h2 : p.length ≤ base.length := hpq.length_le
        omega

/-- The list version of postorderPaths_pairwise. -/
theorem postorderPathsList_pairwise : ∀ (tbl : List (String × DataNode))
    (base : List String), nodupTreebList tbl = true →
    (postorderPathsList tbl base).Pairwise (fun p q => p = q ∨ ¬ p <+: q)
  | [], base, _ => by
    rw [postorderPathsList_nil]
    exact List.Pairwise.nil
  | (k, c) :: rest, base, hnd => by
    rw [postorderPathsList_cons]
    rw [nodupTreebList_cons] at hnd
    simp only [Bool.and_eq_true] at hnd
    rw [List.pairwise_append]
    refine ⟨postorderPaths_pairwise c (base ++ [k]) hnd.1.2,
      postorderPathsList_pairwise rest base hnd.2, ?_⟩
    intro p hp q hq
    right
    intro hpq
    have hkp : (base ++ [k]) <+: p := postorderPaths_prefix c (base ++ [k]) p hp
    obtain ⟨k2, ⟨c2, hm⟩, hk2q⟩ := postorderPathsList_prefix rest base q hq
    have hkq : (base ++ [k]) <+: q := hkp.trans hpq
    have hlen : (base ++ [k]).length ≤ (base ++ [k2]).length := by simp
    have heq : (base ++ [k]) = (base ++ [k2]) :=
      (List.prefix_of_prefix_length_le hkq hk2q hlen).eq_of_length (by simp)
    have hk12 : k = k2 := by simpa using heq
    exact keyNotIn_spec k rest hnd.1.1 k2 c2 hm (hk12 ▸ rfl)

end

/-! ## C7 -/

/-- C7: RemoveChild(name) returns B_DATA_NOT_FOUND — leaving the node
(children table, ordered index and payload) entirely unchanged and emitting
nothing — exactly when no child of that name exists; when the child exists
and recurse is set (with a notification session), the removal succeeds and
the NodeChanged(ISBEINGREMOVED) notifications list exactly the removed
subtree's node paths in post-order: every node's descendants are removed,
depth-first in child-table order, before the node itself. -/
theorem c7_removeChild (fuel : Nat) (n : DataNode) (key : String)
    (notify recurse : Bool) (path : List String) :
    ((removeChild (fuel + 1) n key notify recurse path).2.1 = Status.dataNotFound ↔
      n.hasChild key = false) ∧
    (n.hasChild key = false →
      removeChild (fuel + 1) n key notify recurse path =
        (n, Status.dataNotFound, [])) ∧
    (∀ tbl child, n.children = some tbl → alGet tbl key = some child →
      2 * child.totalSize - 1 ≤ fuel + 1 →
      (removeChild (fuel + 1) n key true true path).2.1 = Status.noError ∧
      removedPaths (removeChild (fuel + 1) n key true true path).2.2 =
        postorderPaths child (path ++ [key]) ∧
      (nodupTreeb child = true →
        (removedPaths (removeChild (fuel + 1) n key true true path).2.2).Pairwise
          (fun p q => p = q ∨ ¬ p <+: q))) := by
  refine ⟨?_, removeChild_missing fuel n key notify recurse path, ?_⟩
  · constructor
    · intro hst
      by_contra hcb
      rw [Bool.not_eq_false] at hcb
      rw [DataNode.hasChild] at hcb
      rcases hch : n.children with _ | tbl
      · rw [hch] at hcb; simp at hcb
      · rw [hch] at hcb
        rcases hget : alGet tbl key with _ | c
        · simp [hget] at hcb
        · have := removeChild_found_status fuel n tbl key c notify recurse path hch hget
          rw [hst] at this
          cases this
    · intro hmiss
      rw [removeChild_missing fuel n key notify recurse path hmiss]
  · intro tbl child h1 h2 hfuel
    have h := (removeDrainPostorder (fuel + 1)).1 n tbl key child path h1 h2 hfuel
      (Nat.le_add_left 1 fuel)
    refine ⟨h.1, h.2.1, ?_⟩
    intro hnd
    rw [h.2.1]
    exact postorderPaths_pairwise child (path ++ [key]) hnd

/-- C7 witness: removing child a of the tree r → a → b recursively emits
ISBEINGREMOVED for a/b first and then for a, and removing an absent name
reports B_DATA_NOT_FOUND with the tree untouched. -/
theorem c7_removeChild_witness :
    (removeChild 4 c7Tree "a" true true []).2.1 = Status.noError ∧
    removedPaths (removeChild 4 c7Tree "a" true true []).2.2 =
      [["a", "b"], ["a"]] ∧
    removeChild 4 c7Tree "zz" true true [] =
      (c7Tree, Status.dataNotFound, []) := by
  have h := c7_removeChild 3 c7Tree "a" true true []
  have h2 := h.2.2 [("a", .node "a" 1 0 0 none 0
      (some [("b", .node "b" 2 0 0 none 0 none none)]) none)]
    (.node "a" 1 0 0 none 0 (some [("b", .node "b" 2 0 0 none 0 none none)]) none)
    rfl rfl (by decide)
  refine ⟨h2.1, ?_, ?_⟩
  · rw [h2.2.1]
    decide
  · exact (c7_removeChild 3 c7Tree "zz" true true []).2.1 (by decide)

/-! ## C2 support: the checksum-cache invariant -/

theorem u32_lt (x : Nat) : u32 x < 4294967296 := Nat.mod_lt x (by decide)

theorem u32_u32_add (a b : Nat) : u32 (u32 a + b) = u32 (a + b) :=
  Nat.mod_add_mod a 4294967296 b

theorem u32_add_u32 (a b : Nat) : u32 (a + u32 b) = u32 (a + b) :=
  Nat.add_mod_mod a b 4294967296

theorem localChecksum_node (nm : String) (d hi c : Nat) (dat : Option Nat)
    (cs : Nat) (ch : Option (List (String × DataNode))) (oi : Option (List String)) :
    localChecksum (.node nm d hi c dat cs ch oi) =
      u32 (bytesChecksum nm + dat.getD 0) := rfl

theorem localChecksum_lt (n : DataNode) : localChecksum n < 4294967296 :=
  u32_lt _

theorem cacheOKb_node (nm : String) (d hi c : Nat) (dat : Option Nat)
    (cs : Nat) (ch : Option (List (String × DataNode))) (oi : Option (List String)) :
    cacheOKb (.node nm d hi c dat cs ch oi) =
      ((cs == 0 || cs == localChecksum (.node nm d hi c dat cs ch oi)) &&
       (match ch with
        | none => true
        | some tbl => cacheOKbList tbl)) := by
  rw [cacheOKb.eq_def]

theorem cacheOKbList_nil : cacheOKbList [] = true := by
  rw [cacheOKbList.eq_def]

theorem cacheOKbList_cons (k : String) (c : DataNode)
    (rest : List (String × DataNode)) :
    cacheOKbList ((k, c) :: rest) = (cacheOKb c && cacheOKbList rest) := by
  rw [cacheOKbList.eq_def]

theorem checksumSpec_node (nm : String) (d hi c : Nat) (dat : Option Nat)
    (cs : Nat) (ch : Option (List (String × DataNode))) (oi : Option (List String))
    (dep : Nat) :
    checksumSpec (.node nm d hi c dat cs ch oi) dep =
      (if dep = 0 then localChecksum (.node nm d hi c dat cs ch oi)
       else u32 (localChecksum (.node nm d hi c dat cs ch oi)
         + ((oi.getD []).map bytesChecksum).sum
         + (match ch with
            | none => 0
            | some tbl => checksumSpecList tbl (dep - 1)))) := by
  rw [checksumSpec.eq_def]

theorem checksumSpecList_nil (dep : Nat) : checksumSpecList [] dep = 0 := by
  rw [checksumSpecList.eq_def]

theorem checksumSpecList_cons (k : String) (c : DataNode)
    (rest : List (String × DataNode)) (dep : Nat) :
    checksumSpecList ((k, c) :: rest) dep =
      checksumSpec c dep + checksumSpecList rest dep := by
  rw [checksumSpecList.eq_def]

theorem calcChecksumList_nil (dep acc : Nat) :
    calcChecksumList [] dep acc = (acc, []) := by
  rw [calcChecksumList.eq_def]

theorem calcChecksumList_cons (k : String) (c : DataNode)
    (rest : List (String × DataNode)) (dep acc : Nat) :
    calcChecksumList ((k, c) :: rest) dep acc =
      ((calcChecksumList rest dep (u32 (acc + (calculateChecksum c dep).1))).1,
       (k, (calculateChecksum c dep).2) ::
         (calcChecksumList rest dep (u32 (acc + (calculateChecksum c dep).1))).2) := by
  rw [calcChecksumList.eq_def]

theorem sumU32_eq (l : List Nat) : ∀ init, init < 4294967296 →
    sumU32 init l = u32 (init + l.sum) := by
  induction l with
  | nil =>
    intro init h
    simp [sumU32, u32, Nat.mod_eq_of_lt h]
  | cons x rest ih =>
    intro init h
    show sumU32 (u32 (init + x)) rest = _
    rw [ih (u32 (init + x)) (u32_lt _), u32_u32_add]
    simp [List.sum_cons, Nat.add_assoc]

theorem cacheOKbList_alGet : ∀ (tbl : List (String × DataNode)) (k : String)
    (c : DataNode), cacheOKbList tbl = true → alGet tbl k = some c →
    cacheOKb c = true
  | [], k, c, _, hg => by cases hg
  | (k2, c2) :: rest, k, c, hl, hg => by
    rw [cacheOKbList_cons, Bool.and_eq_true] at hl
    rw [alGet] at hg
    by_cases he : k2 = k
    · rw [if_pos he] at hg
      injection hg with hg
      subst hg
      exact hl.1
    · rw [if_neg he] at hg
      exact cacheOKbList_alGet rest k c hl.2 hg

theorem cacheOKbList_alPut : ∀ (tbl : List (String × DataNode)) (k : String)
    (v : DataNode), cacheOKbList tbl = true → cacheOKb v = true →
    cacheOKbList (alPut tbl k v) = true
  | [], k, v, _, hv => by
    rw [alPut, cacheOKbList_cons, cacheOKbList_nil]
    simp [hv]
  | (k2, c2) :: rest, k, v, hl, hv => by
    rw [cacheOKbList_cons, Bool.and_eq_true] at hl
    rw [alPut]
    by_cases he : k2 = k
    · rw [if_pos he, cacheOKbList_cons]
      simp [hv, hl.2]
    · rw [if_neg he, cacheOKbList_cons]
      simp [hl.1, cacheOKbList_alPut rest k v hl.2 hv]

theorem cacheOKbList_alRemove : ∀ (tbl : List (String × DataNode)) (k : String),
    cacheOKbList tbl = true → cacheOKbList (alRemove tbl k) = true
  | [], k, _ => by rw [alRemove]; exact cacheOKbList_nil
  | (k2, c2) :: rest, k, hl => by
    rw [cacheOKbList_cons, Bool.and_eq_true] at hl
    rw [alRemove]
    by_cases he : k2 = k
    · rw [if_pos he]
      exact hl.2
    · rw [if_neg he, cacheOKbList_cons]
      simp [hl.1, cacheOKbList_alRemove rest k hl.2]

theorem cacheOKb_children (n : DataNode) (tbl : List (String × DataNode))
    (h : cacheOKb n = true) (hch : n.children = some tbl) :
    cacheOKbList tbl = true := by
  cases n with
  | node nm d hi c dat cs ch oi =>
    simp only [DataNode.children] at hch
    subst hch
    rw [cacheOKb_node, Bool.and_eq_true] at h
    exact h.2

theorem cacheOKb_localOK (n : DataNode) (h : cacheOKb n = true) :
    (n.cachedDataChecksum == 0 || n.cachedDataChecksum == localChecksum n) = true := by
  cases n with
  | node nm d hi c dat cs ch oi =>
    rw [cacheOKb_node, Bool.and_eq_true] at h
    exact h.1

theorem cacheOKb_setChildren (n : DataNode) (tbl : List (String × DataNode))
    (h : cacheOKb n = true) (hl : cacheOKbList tbl = true) :
    cacheOKb (n.setChildren (some tbl)) = true := by
  cases n with
  | node nm d hi c dat cs ch oi =>
    rw [DataNode.setChildren, cacheOKb_node] at *
    rw [Bool.and_eq_true] at h ⊢
    exact ⟨h.1, hl⟩

theorem cacheOKb_setOrderedIndex (n : DataNode) (oi2 : Option (List String)) :
    cacheOKb (n.setOrderedIndex oi2) = cacheOKb n := by
  cases n with
  | node nm d hi c dat cs ch oi =>
    rw [DataNode.setOrderedIndex, cacheOKb_node, cacheOKb_node,
      localChecksum_node, localChecksum_node]

theorem cacheOKb_setDepth (n : DataNode) (d2 : Nat) :
    cacheOKb (n.setDepth d2) = cacheOKb n := by
  cases n with
  | node nm d hi c dat cs ch oi =>
    rw [DataNode.setDepth, cacheOKb_node, cacheOKb_node,
      localChecksum_node, localChecksum_node]

theorem cacheOKb_setMaxChildIDHint (n : DataNode) (h2 : Nat) :
    cacheOKb (n.setMaxChildIDHint h2) = cacheOKb n := by
  cases n with
  | node nm d hi c dat cs ch oi =>
    rw [DataNode.setMaxChildIDHint, cacheOKb_node, cacheOKb_node,
      localChecksum_node, localChecksum_node]

theorem cacheOKb_setOrderedCounter (n : DataNode) (c2 : Nat) :
    cacheOKb (n.setOrderedCounter c2) = cacheOKb n := by
  cases n with
  | node nm d hi c dat cs ch oi =>
    rw [DataNode.setOrderedCounter, cacheOKb_node, cacheOKb_node,
      localChecksum_node, localChecksum_node]

theorem cacheOKb_setDataZero (n : DataNode) (dat2 : Option Nat)
    (h : cacheOKb n = true) :
    cacheOKb ((n.setDataField dat2).setCache 0) = true := by
  cases n with
  | node nm d hi c dat cs ch oi =>
    rw [DataNode.setDataField, DataNode.setCache]
    rw [cacheOKb_node] at h ⊢
    rw [Bool.and_eq_true] at h ⊢
    refine ⟨by simp, h.2⟩

theorem cacheOKb_mkFreshNode (nm : String) (dat : Option Nat) :
    cacheOKb (mkFreshNode nm dat) = true := by
  rw [mkFreshNode, cacheOKb_node]
  simp

theorem sumU32_lt (l : List Nat) (init : Nat) (h : init < 4294967296) :
    sumU32 init l < 4294967296 := by
  rw [sumU32_eq l init h]
  exact u32_lt _

theorem calculateChecksum_node (nm : String) (d hi c : Nat) (dat : Option Nat)
    (cache : Nat) (ch : Option (List (String × DataNode)))
    (oi : Option (List String)) (dep lc : Nat)
    (hlc : (if cache = 0 then localChecksum (.node nm d hi c dat cache ch oi)
            else cache) = lc) :
    calculateChecksum (.node nm d hi c dat cache ch oi) dep =
      (if dep = 0 then (lc, .node nm d hi c dat lc ch oi)
       else
         match ch with
         | none => (sumU32 lc ((oi.getD []).reverse.map bytesChecksum),
                    .node nm d hi c dat lc none oi)
         | some tbl =>
           ((calcChecksumList tbl (dep - 1)
               (sumU32 lc ((oi.getD []).reverse.map bytesChecksum))).1,
            .node nm d hi c dat lc
              (some (calcChecksumList tbl (dep - 1)
                (sumU32 lc ((oi.getD []).reverse.map bytesChecksum))).2) oi)) := by
  subst hlc
  rw [calculateChecksum.eq_def]
  cases ch <;> cases dep <;> rfl

theorem sum_reverse_map (oi : Option (List String)) :
    ((oi.getD []).reverse.map bytesChecksum).sum =
      ((oi.getD []).map bytesChecksum).sum := by
  rw [List.map_reverse, List.sum_reverse]

mutual

/-- CalculateChecksum returns the spec's checksum value on any subtree whose
caches satisfy the cache invariant, and re-establishes the invariant on the
node it updates. -/
theorem calculateChecksum_spec : ∀ (t : DataNode) (dep : Nat),
    cacheOKb t = true →
    (calculateChecksum t dep).1 = checksumSpec t dep ∧
    cacheOKb (calculateChecksum t dep).2 = true
  | .node nm d hi c dat cache ch oi, dep, h => by
    have hloc : cache = 0 ∨ cache = localChecksum (.node nm d hi c dat cache ch oi) := by
      have hh := cacheOKb_localOK _ h
      simp only [DataNode.cachedDataChecksum] at hh
      simpa using hh
    have hlc : (if cache = 0 then localChecksum (.node nm d hi c dat cache ch oi)
        else cache) = localChecksum (.node nm d hi c dat cache ch oi) := by
      by_cases h0 : cache = 0
      · rw [if_pos h0]
      · rw [if_neg h0]
        rcases hloc with h1 | h1
        · exact absurd h1 h0
        · exact h1
    rw [calculateChecksum_node nm d hi c dat cache ch oi dep _ hlc,
      checksumSpec_node]
    by_cases hd : dep = 0
    · rw [if_pos hd, if_pos hd]
      refine ⟨rfl, ?_⟩
      rw [cacheOKb_node, Bool.and_eq_true]
      constructor
      · simp [localChecksum_node]
      · cases ch with
        | none => simp
        | some tbl => exact cacheOKb_children _ _ h rfl
    · rw [if_neg hd, if_neg hd]
      cases ch with
      | none =>
        refine ⟨?_, ?_⟩
        · rw [sumU32_eq _ _ (localChecksum_lt _), sum_reverse_map]
          simp [localChecksum_node]
        · rw [cacheOKb_node, Bool.and_eq_true]
          refine ⟨?_, by simp⟩
          simp [localChecksum_node]
      | some tbl =>
        have htbl : cacheOKbList tbl = true := cacheOKb_children _ _ h rfl
        have hlist := calcChecksumList_spec tbl (dep - 1)
          (sumU32 (localChecksum (.node nm d hi c dat cache (some tbl) oi))
            ((oi.getD []).reverse.map bytesChecksum))
          htbl (sumU32_lt _ _ (localChecksum_lt _))
        refine ⟨?_, ?_⟩
        · rw [hlist.1, sumU32_eq _ _ (localChecksum_lt _), u32_u32_add,
            sum_reverse_map]
        · rw [cacheOKb_node, Bool.and_eq_true]
          refine ⟨?_, hlist.2⟩
          simp [localChecksum_node]

theorem calcChecksumList_spec : ∀ (tbl : List (String × DataNode)) (dep acc : Nat),
    cacheOKbList tbl = true → acc < 4294967296 →
    (calcChecksumList tbl dep acc).1 = u32 (acc + checksumSpecList tbl dep) ∧
    cacheOKbList (calcChecksumList tbl dep acc).2 = true
  | [], dep, acc, _, hacc => by
    rw [calcChecksumList_nil, checksumSpecList_nil]
    exact ⟨by rw [Nat.add_zero, u32, Nat.mod_eq_of_lt hacc], cacheOKbList_nil⟩
  | (k, c) :: rest, dep, acc, hl, hacc => by
    rw [cacheOKbList_cons, Bool.and_eq_true] at hl
    have hc := calculateChecksum_spec c dep hl.1
    have hr := calcChecksumList_spec rest dep
      (u32 (acc + (calculateChecksum c dep).1)) hl.2 (u32_lt _)
    rw [calcChecksumList_cons, checksumSpecList_cons]
    constructor
    · rw [hr.1, u32_u32_add, hc.1, Nat.add_assoc]
    · rw [cacheOKbList_cons]
      simp [hc.2, hr.2]

end

theorem putChildFull_cacheOK (n : DataNode) (a : Nat) (p : List String)
    (nodeArg : Option DataNode) (nSP nCD oomPut : Bool)
    (hn : cacheOKb n = true)
    (hc : ∀ c, nodeArg = some c → cacheOKb c = true) :
    cacheOKb (putChildFull n a p nodeArg nSP nCD oomPut).1 = true := by
  cases nodeArg with
  | none => simpa [putChildFull] using hn
  | some child =>
    have hcc : cacheOKb child = true := hc child rfl
    have halloc : cacheOKb (match n.children with
        | none => n.setChildren (some [])
        | some _ => n) = true := by
      rcases hch : n.children with _ | tbl
      · simp only [hch]
        exact cacheOKb_setChildren n [] hn cacheOKbList_nil
      · simp only [hch]
        exact hn
    have hlist : cacheOKbList ((match n.children with
        | none => n.setChildren (some [])
        | some _ => n).children.getD []) = true := by
      rcases hch : n.children with _ | tbl
      · simp only [hch, DataNode.children_setChildren, Option.getD_some]
        exact cacheOKbList_nil
      · simp only [hch, Option.getD_some]
        exact cacheOKb_children n tbl hn hch
    simp only [putChildFull, setParentAttach]
    cases oomPut with
    | true =>
      simp only [if_true]
      rw [cacheOKb_setMaxChildIDHint]
      exact halloc
    | false =>
      simp only [Bool.false_eq_true, if_false]
      refine cacheOKb_setChildren _ _ ?_ ?_
      · rw [cacheOKb_setMaxChildIDHint]
        exact halloc
      · refine cacheOKbList_alPut _ _ _ ?_ ?_
        · rw [DataNode.children_setMaxChildIDHint]
          exact hlist
        · rw [cacheOKb_setDepth]
          exact hcc

theorem removeIndexEntry_cacheOK (n : DataNode) (key : String) (notify : Bool)
    (hn : cacheOKb n = true) :
    cacheOKb (removeIndexEntry n key notify).1 = true := by
  rcases h : n.orderedIndex with _ | idx
  · simpa [removeIndexEntry, h] using hn
  · rcases hf : findLastIdx idx key with _ | i
    · simpa [removeIndexEntry, h, hf] using hn
    · simp only [removeIndexEntry, h, hf]
      rw [cacheOKb_setOrderedIndex]
      exact hn

theorem removeDrain_cacheOK : ∀ fuel : Nat,
    (∀ (n : DataNode) (key : String) (notify recurse : Bool) (path : List String),
      cacheOKb n = true →
      cacheOKb (removeChild fuel n key notify recurse path).1 = true) ∧
    (∀ (n : DataNode) (notify : Bool) (path : List String),
      cacheOKb n = true →
      cacheOKb (drainChildren fuel n notify path).1 = true) := by
  intro fuel
  induction fuel with
  | zero =>
    constructor
    · intro n key notify recurse path hn
      rw [removeChild.eq_def]
      exact hn
    · intro n notify path hn
      rw [drainChildren.eq_def]
      exact hn
  | succ fuel ih =>
    constructor
    · intro n key notify recurse path hn
      rw [removeChild.eq_def]
      rcases hch : n.children with _ | tbl
      · simp only [hch]
        exact hn
      · rcases hget : alGet tbl key with _ | child
        · simp only [hch, hget]
          exact hn
        · simp only [hch, hget]
          refine cacheOKb_setChildren _ _ ?_ ?_
          · exact removeIndexEntry_cacheOK n key notify hn
          · rw [removeIndexEntry_children]
            rw [hch]
            exact cacheOKbList_alRemove tbl key (cacheOKb_children n tbl hn hch)
    · intro n notify path hn
      rw [drainChildren.eq_def]
      rcases hch : n.children with _ | tbl
      · simp only [hch]
        exact hn
      · cases tbl with
        | nil =>
          simp only [hch]
          exact hn
        | cons e rest =>
          cases e with
          | mk k c =>
            simp only [hch]
            exact ih.2 _ notify path (ih.1 n k notify true path hn)

theorem removeIndexEntryAt_cacheOK (n : DataNode) (pos : Nat) (notify : Bool)
    (hn : cacheOKb n = true) :
    cacheOKb (removeIndexEntryAt n pos notify).1 = true := by
  rcases h : n.orderedIndex with _ | idx
  · simpa [removeIndexEntryAt, h] using hn
  · by_cases hlt : pos < idx.length
    · simp only [removeIndexEntryAt, h, dif_pos hlt]
      rw [cacheOKb_setOrderedIndex]
      exact hn
    · simp only [removeIndexEntryAt, h, dif_neg hlt]
      exact hn

theorem insertIndexEntryAt_cacheOK (n : DataNode) (pos : Nat) (key : String)
    (hn : cacheOKb n = true) :
    cacheOKb (insertIndexEntryAt n pos key).1 = true := by
  rcases hch : n.children with _ | tbl
  · simpa [insertIndexEntryAt, hch] using hn
  · rcases hget : alGet tbl key with _ | c
    · simpa [insertIndexEntryAt, hch, hget] using hn
    · simp only [insertIndexEntryAt, hch, hget]
      rw [cacheOKb_setOrderedIndex]
      exact hn

theorem reorderChild_cacheOK (n : DataNode) (childName before : Option String)
    (notify : Bool) (hn : cacheOKb n = true) :
    cacheOKb (reorderChild n childName before notify).1 = true := by
  cases childName with
  | none => simpa [reorderChild] using hn
  | some cn =>
    rcases hidx : n.orderedIndex with _ | idx
    · simpa [reorderChild, hidx] using hn
    · by_cases hb : before = some cn
      · simpa [reorderChild, hidx, hb] using hn
      · have hrem := removeIndexEntry_cacheOK n cn notify hn
        by_cases hst : (removeIndexEntry n cn notify).2.1 = Status.noError
        · simp only [reorderChild, hidx, if_neg hb, hst, ne_eq, not_true_eq_false,
            if_false]
          rw [cacheOKb_setOrderedIndex]
          exact hrem
        · simp only [reorderChild, hidx, if_neg hb, ne_eq, hst, not_false_eq_true,
            if_true]
          exact hrem

theorem insertOrderedChildBody_cacheOK (oom : OomOracle) (n : DataNode)
    (a : Nat) (p : List String) (d : Option Nat) (before nmArg : Option String)
    (nCD : Bool) (hn : cacheOKb n = true) :
    cacheOKb (insertOrderedChildBody oom n a p d before nmArg nCD).1 = true := by
  simp only [insertOrderedChildBody]
  cases oom.nodeAlloc with
  | true =>
    simp only [if_true]
    rw [cacheOKb_setOrderedCounter]
    exact hn
  | false =>
    simp only [Bool.false_eq_true, if_false]
    have hput : cacheOKb (putChildFull (n.setOrderedCounter
        (match nmArg with
         | some nm2 => (nm2, n.orderedCounter)
         | none => findFreeAutoName (n.children.getD [])
             ((n.children.getD []).length + 1) n.orderedCounter).2) a p
        (some (mkFreshNode
          (match nmArg with
           | some nm2 => (nm2, n.orderedCounter)
           | none => findFreeAutoName (n.children.getD [])
               ((n.children.getD []).length + 1) n.orderedCounter).1 d))
        true nCD oom.hashPut).1 = true := by
      refine putChildFull_cacheOK _ _ _ _ _ _ _ ?_ ?_
      · rw [cacheOKb_setOrderedCounter]
        exact hn
      · intro c2 hc2
        injection hc2 with hc2
        subst hc2
        exact cacheOKb_mkFreshNode _ _
    by_cases hst : (putChildFull (n.setOrderedCounter
        (match nmArg with
         | some nm2 => (nm2, n.orderedCounter)
         | none => findFreeAutoName (n.children.getD [])
             ((n.children.getD []).length + 1) n.orderedCounter).2) a p
        (some (mkFreshNode
          (match nmArg with
           | some nm2 => (nm2, n.orderedCounter)
           | none => findFreeAutoName (n.children.getD [])
               ((n.children.getD []).length + 1) n.orderedCounter).1 d))
        true nCD oom.hashPut).2.1 = Status.noError
    · simp only [hst, ne_eq, not_true_eq_false, if_false]
      cases oom.indexInsert with
      | true =>
        simp only [if_true]
        exact (removeDrain_cacheOK 1).1 _ _ _ _ _ hput
      | false =>
        simp only [Bool.false_eq_true, if_false]
        rw [cacheOKb_setOrderedIndex]
        exact hput
    · simp only [ne_eq, hst, not_false_eq_true, if_true]
      exact hput

theorem insertOrderedChildFull_cacheOK (oom : OomOracle) (n : DataNode)
    (a : Nat) (p : List String) (d : Option Nat) (before nmArg : Option String)
    (nCD : Bool) (hn : cacheOKb n = true) :
    cacheOKb (insertOrderedChildFull oom n a p d before nmArg nCD).1 = true := by
  rcases hidx : n.orderedIndex with _ | idx
  · simp only [insertOrderedChildFull, hidx]
    cases oom.queueAlloc with
    | true => simpa using hn
    | false =>
      simp only [Bool.false_eq_true, if_false]
      refine insertOrderedChildBody_cacheOK oom _ a p d before nmArg nCD ?_
      rw [cacheOKb_setOrderedIndex]
      exact hn
  · simp only [insertOrderedChildFull, hidx]
    exact insertOrderedChildBody_cacheOK oom n a p d before nmArg nCD hn

theorem setData_cacheOK (n : DataNode) (d : Option Nat) (notify bc es : Bool)
    (p : List String) (hn : cacheOKb n = true) :
    cacheOKb (setData n d notify bc es p).1 = true := by
  simp only [setData]
  exact cacheOKb_setDataZero n d hn

/-- The only tree operation that injects an externally built node is
PutChild; an operation is cache-valid when that node (if any) itself
satisfies the cache invariant. -/
def TreeOp.cacheValid : TreeOp → Bool
  | .putChildOp _ (some c) _ _ => cacheOKb c
  | _ => true

theorem modifyAtPath_cacheOK
    (f : Nat → List String → DataNode → DataNode × List Event)
    (hf : ∀ a p m, cacheOKb m = true → cacheOKb (f a p m).1 = true) :
    ∀ (path : List String) (n : DataNode) (a : Nat) (p0 : List String),
    cacheOKb n = true → cacheOKb (modifyAtPath f n a p0 path).1 = true
  | [], n, a, p0, hn => hf a p0 n hn
  | k :: rest, n, a, p0, hn => by
    rw [modifyAtPath]
    rcases hch : n.children with _ | tbl
    · simp only [hch]
      exact hn
    · rcases hget : alGet tbl k with _ | c
      · simp only [hch, hget]
        exact hn
      · simp only [hch, hget]
        have hcok : cacheOKb c = true := cacheOKbList_alGet tbl k c
          (cacheOKb_children n tbl hn hch) hget
        have hrec := modifyAtPath_cacheOK f hf rest c (a + 1) (p0 ++ [k]) hcok
        refine cacheOKb_setChildren _ _ hn ?_
        exact cacheOKbList_alPut tbl k _ (cacheOKb_children n tbl hn hch) hrec

theorem applyOp_cacheOK (n : DataNode) (op : TreeOp)
    (hn : cacheOKb n = true) (hop : op.cacheValid = true) :
    cacheOKb (applyOp n op) = true := by
  cases op with
  | putChildOp path child nSP nCD =>
    refine modifyAtPath_cacheOK _ ?_ path n 0 [] hn
    intro a p m hm
    refine putChildFull_cacheOK m a p child nSP nCD false hm ?_
    intro c hc
    subst hc
    simpa [TreeOp.cacheValid] using hop
  | removeChildOp path key notify recurse =>
    refine modifyAtPath_cacheOK _ ?_ path n 0 [] hn
    intro a p m hm
    exact (removeDrain_cacheOK n.totalSize).1 m key notify recurse p hm
  | insertOrderedChildOp path d before nm2 nCD =>
    refine modifyAtPath_cacheOK _ ?_ path n 0 [] hn
    intro a p m hm
    exact insertOrderedChildFull_cacheOK ⟨false, false, false, false⟩ m a p d
      before nm2 nCD hm
  | insertIndexEntryAtOp path pos key =>
    refine modifyAtPath_cacheOK _ ?_ path n 0 [] hn
    intro a p m hm
    exact insertIndexEntryAt_cacheOK m pos key hm
  | removeIndexEntryAtOp path pos notify =>
    refine modifyAtPath_cacheOK _ ?_ path n 0 [] hn
    intro a p m hm
    exact removeIndexEntryAt_cacheOK m pos notify hm
  | reorderChildOp path childName before notify =>
    refine modifyAtPath_cacheOK _ ?_ path n 0 [] hn
    intro a p m hm
    exact reorderChild_cacheOK m childName before notify hm
  | setDataOp path d notify bc es =>
    refine modifyAtPath_cacheOK _ ?_ path n 0 [] hn
    intro a p m hm
    exact setData_cacheOK m d notify bc es p hm
  | calcChecksumOp path depth =>
    refine modifyAtPath_cacheOK _ ?_ path n 0 [] hn
    intro a p m hm
    exact (calculateChecksum_spec m depth hm).2

/-! ## C2 -/

/-- C2: the cached-checksum invariant — every node's `_cachedDataChecksum`
is 0 or the checksum of its name+payload — is preserved by every tree
operation (applied at any path, with PutChild's injected node itself
cache-valid); under that invariant CalculateChecksum(depth) returns the
name+payload checksum plus, for depth > 0, each indexed child's name
checksum plus each child's recursive checksum at depth−1, and leaves the
invariant intact in the caches it fills; and SetData (the payload mutation)
zeroes the node's cache. -/
theorem c2_checksumCache (n : DataNode) (op : TreeOp) (dep : Nat)
    (dat : Option Nat) (notify bc es : Bool) (p : List String)
    (hn : cacheOKb n = true) (hop : op.cacheValid = true) :
    cacheOKb (applyOp n op) = true ∧
    (calculateChecksum n dep).1 = checksumSpec n dep ∧
    cacheOKb (calculateChecksum n dep).2 = true ∧
    (setData n dat notify bc es p).1.cachedDataChecksum = 0 := by
  refine ⟨applyOp_cacheOK n op hn hop, (calculateChecksum_spec n dep hn).1,
    (calculateChecksum_spec n dep hn).2, ?_⟩
  simp [setData]

/-- C2 witness: the invariant and checksum agreement on the concrete S2
parent, with a SetData operation applied below it. -/
theorem c2_checksumCache_witness :
    cacheOKb (applyOp c5Parent (.setDataOp ["a"] (some 5) true false false)) = true ∧
    (calculateChecksum c5Parent 1).1 = checksumSpec c5Parent 1 :=
  ⟨(c2_checksumCache c5Parent (.setDataOp ["a"] (some 5) true false false) 1
      (some 5) true false false ["a"] (by decide) (by decide)).1,
   (c2_checksumCache c5Parent (.setDataOp ["a"] (some 5) true false false) 1
      (some 5) true false false ["a"] (by decide) (by decide)).2.1⟩

/-! ## C3 support: the depth invariant -/

theorem depthOKb_node (nm : String) (d hi c : Nat) (dat : Option Nat) (cs : Nat)
    (ch : Option (List (String × DataNode))) (oi : Option (List String)) (a : Nat) :
    depthOKb (.node nm d hi c dat cs ch oi) a =
      ((d == a) && (match ch with
                    | none => true
                    | some tbl => depthOKbList tbl (a + 1))) := by
  rw [depthOKb.eq_def]

theorem depthOKbList_nil (a : Nat) : depthOKbList [] a = true := by
  rw [depthOKbList.eq_def]

theorem depthOKbList_cons (k : String) (c : DataNode)
    (rest : List (String × DataNode)) (a : Nat) :
    depthOKbList ((k, c) :: rest) a = (depthOKb c a && depthOKbList rest a) := by
  rw [depthOKbList.eq_def]

theorem depthOKb_setOrderedIndex (n : DataNode) (oi2 : Option (List String))
    (a : Nat) : depthOKb (n.setOrderedIndex oi2) a = depthOKb n a := by
  cases n with
  | node nm d hi c dat cs ch oi =>
    rw [DataNode.setOrderedIndex, depthOKb_node, depthOKb_node]

theorem depthOKb_setMaxChildIDHint (n : DataNode) (h2 a : Nat) :
    depthOKb (n.setMaxChildIDHint h2) a = depthOKb n a := by
  cases n with
  | node nm d hi c dat cs ch oi =>
    rw [DataNode.setMaxChildIDHint, depthOKb_node, depthOKb_node]

theorem depthOKb_setOrderedCounter (n : DataNode) (c2 a : Nat) :
    depthOKb (n.setOrderedCounter c2) a = depthOKb n a := by
  cases n with
  | node nm d hi c dat cs ch oi =>
    rw [DataNode.setOrderedCounter, depthOKb_node, depthOKb_node]

theorem depthOKb_setDataField (n : DataNode) (dat2 : Option Nat) (a : Nat) :
    depthOKb (n.setDataField dat2) a = depthOKb n a := by
  cases n with
  | node nm d hi c dat cs ch oi =>
    rw [DataNode.setDataField, depthOKb_node, depthOKb_node]

theorem depthOKb_setCache (n : DataNode) (cs2 a : Nat) :
    depthOKb (n.setCache cs2) a = depthOKb n a := by
  cases n with
  | node nm d hi c dat cs ch oi =>
    rw [DataNode.setCache, depthOKb_node, depthOKb_node]

theorem depthOKbList_alGet : ∀ (tbl : List (String × DataNode)) (k : String)
    (c : DataNode) (a : Nat), depthOKbList tbl a = true → alGet tbl k = some c →
    depthOKb c a = true
  | [], k, c, a, _, hg => by cases hg
  | (k2, c2) :: rest, k, c, a, hl, hg => by
    rw [depthOKbList_cons, Bool.and_eq_true] at hl
    rw [alGet] at hg
    by_cases he : k2 = k
    · rw [if_pos he] at hg
      injection hg with hg
      subst hg
      exact hl.1
    · rw [if_neg he] at hg
      exact depthOKbList_alGet rest k c a hl.2 hg

theorem depthOKbList_alPut : ∀ (tbl : List (String × DataNode)) (k : String)
    (v : DataNode) (a : Nat), depthOKbList tbl a = true → depthOKb v a = true →
    depthOKbList (alPut tbl k v) a = true
  | [], k, v, a, _, hv => by
    rw [alPut, depthOKbList_cons, depthOKbList_nil]
    simp [hv]
  | (k2, c2) :: rest, k, v, a, hl, hv => by
    rw [depthOKbList_cons, Bool.and_eq_true] at hl
    rw [alPut]
    by_cases he : k2 = k
    · rw [if_pos he, depthOKbList_cons]
      simp [hv, hl.2]
    · rw [if_neg he, depthOKbList_cons]
      simp [hl.1, depthOKbList_alPut rest k v a hl.2 hv]

theorem depthOKbList_alRemove : ∀ (tbl : List (String × DataNode)) (k : String)
    (a : Nat), depthOKbList tbl a = true → depthOKbList (alRemove tbl k) a = true
  | [], k, a, _ => by rw [alRemove]; exact depthOKbList_nil a
  | (k2, c2) :: rest, k, a, hl => by
    rw [depthOKbList_cons, Bool.and_eq_true] at hl
    rw [alRemove]
    by_cases he : k2 = k
    · rw [if_pos he]
      exact hl.2
    · rw [if_neg he, depthOKbList_cons]
      simp [hl.1, depthOKbList_alRemove rest k a hl.2]

theorem depthOKb_children (n : DataNode) (tbl : List (String × DataNode))
    (a : Nat) (h : depthOKb n a = true) (hch : n.children = some tbl) :
    depthOKbList tbl (a + 1) = true := by
  cases n with
  | node nm d hi c dat cs ch oi =>
    simp only [DataNode.children] at hch
    subst hch
    rw [depthOKb_node, Bool.and_eq_true] at h
    exact h.2

theorem depthOKb_setChildren (n : DataNode) (tbl : List (String × DataNode))
    (a : Nat) (h : depthOKb n a = true) (hl : depthOKbList tbl (a + 1) = true) :
    depthOKb (n.setChildren (some tbl)) a = true := by
  cases n with
  | node nm d hi c dat cs ch oi =>
    rw [DataNode.setChildren]
    rw [depthOKb_node, Bool.and_eq_true] at h ⊢
    exact ⟨h.1, hl⟩

theorem depthOKb_childless_setDepth (c : DataNode) (a : Nat)
    (h : c.childless = true) : depthOKb (c.setDepth a) a = true := by
  cases c with
  | node nm d hi cc dat cs ch oi =>
    rw [DataNode.setDepth, depthOKb_node]
    simp only [DataNode.childless, DataNode.children] at h
    cases ch with
    | none => simp
    | some tbl =>
      cases tbl with
      | nil => simp [depthOKbList_nil]
      | cons e rest => cases h

theorem putChildFull_depthOK (n : DataNode) (a : Nat) (p : List String)
    (nodeArg : Option DataNode) (nSP nCD oomPut : Bool)
    (hn : depthOKb n a = true)
    (hc : ∀ c, nodeArg = some c → c.childless = true) :
    depthOKb (putChildFull n a p nodeArg nSP nCD oomPut).1 a = true := by
  cases nodeArg with
  | none => simpa [putChildFull] using hn
  | some child =>
    have hcc : child.childless = true := hc child rfl
    have halloc : depthOKb (match n.children with
        | none => n.setChildren (some [])
        | some _ => n) a = true := by
      rcases hch : n.children with _ | tbl
      · simp only [hch]
        exact depthOKb_setChildren n [] a hn (depthOKbList_nil _)
      · simp only [hch]
        exact hn
    have hlist : depthOKbList ((match n.children with
        | none => n.setChildren (some [])
        | some _ => n).children.getD []) (a + 1) = true := by
      rcases hch : n.children with _ | tbl
      · simp only [hch, DataNode.children_setChildren, Option.getD_some]
        exact depthOKbList_nil _
      · simp only [hch, Option.getD_some]
        exact depthOKb_children n tbl a hn hch
    simp only [putChildFull, setParentAttach]
    cases oomPut with
    | true =>
      simp only [if_true]
      rw [depthOKb_setMaxChildIDHint]
      exact halloc
    | false =>
      simp only [Bool.false_eq_true, if_false]
      refine depthOKb_setChildren _ _ _ ?_ ?_
      · rw [depthOKb_setMaxChildIDHint]
        exact halloc
      · refine depthOKbList_alPut _ _ _ _ ?_ ?_
        · rw [DataNode.children_setMaxChildIDHint]
          exact hlist
        · exact depthOKb_childless_setDepth child (a + 1) hcc

theorem removeIndexEntry_depthOK (n : DataNode) (key : String) (notify : Bool)
    (a : Nat) (hn : depthOKb n a = true) :
    depthOKb (removeIndexEntry n key notify).1 a = true := by
  rcases h : n.orderedIndex with _ | idx
  · simpa [removeIndexEntry, h] using hn
  · rcases hf : findLastIdx idx key with _ | i
    · simpa [removeIndexEntry, h, hf] using hn
    · simp only [removeIndexEntry, h, hf]
      rw [depthOKb_setOrderedIndex]
      exact hn

theorem removeDrain_depthOK : ∀ fuel : Nat,
    (∀ (n : DataNode) (key : String) (notify recurse : Bool) (path : List String)
      (a : Nat), depthOKb n a = true →
      depthOKb (removeChild fuel n key notify recurse path).1 a = true) ∧
    (∀ (n : DataNode) (notify : Bool) (path : List String) (a : Nat),
      depthOKb n a = true →
      depthOKb (drainChildren fuel n notify path).1 a = true) := by
  intro fuel
  induction fuel with
  | zero =>
    constructor
    · intro n key notify recurse path a hn
      rw [removeChild.eq_def]
      exact hn
    · intro n notify path a hn
      rw [drainChildren.eq_def]
      exact hn
  | succ fuel ih =>
    constructor
    · intro n key notify recurse path a hn
      rw [removeChild.eq_def]
      rcases hch : n.children with _ | tbl
      · simp only [hch]
        exact hn
      · rcases hget : alGet tbl key with _ | child
        · simp only [hch, hget]
          exact hn
        · simp only [hch, hget]
          refine depthOKb_setChildren _ _ _ ?_ ?_
          · exact removeIndexEntry_depthOK n key notify a hn
          · rw [removeIndexEntry_children]
            rw [hch]
            exact depthOKbList_alRemove tbl key (a + 1)
              (depthOKb_children n tbl a hn hch)
    · intro n notify path a hn
      rw [drainChildren.eq_def]
      rcases hch : n.children with _ | tbl
      · simp only [hch]
        exact hn
      · cases tbl with
        | nil =>
          simp only [hch]
          exact hn
        | cons e rest =>
          cases e with
          | mk k c =>
            simp only [hch]
            exact ih.2 _ notify path a (ih.1 n k notify true path a hn)

theorem removeIndexEntryAt_depthOK (n : DataNode) (pos : Nat) (notify : Bool)
    (a : Nat) (hn : depthOKb n a = true) :
    depthOKb (removeIndexEntryAt n pos notify).1 a = true := by
  rcases h : n.orderedIndex with _ | idx
  · simpa [removeIndexEntryAt, h] using hn
  · by_cases hlt : pos < idx.length
    · simp only [removeIndexEntryAt, h, dif_pos hlt]
      rw [depthOKb_setOrderedIndex]
      exact hn
    · simp only [removeIndexEntryAt, h, dif_neg hlt]
      exact hn

theorem insertIndexEntryAt_depthOK (n : DataNode) (pos : Nat) (key : String)
    (a : Nat) (hn : depthOKb n a = true) :
    depthOKb (insertIndexEntryAt n pos key).1 a = true := by
  rcases hch : n.children with _ | tbl
  · simpa [insertIndexEntryAt, hch] using hn
  · rcases hget : alGet tbl key with _ | c
    · simpa [insertIndexEntryAt, hch, hget] using hn
    · simp only [insertIndexEntryAt, hch, hget]
      rw [depthOKb_setOrderedIndex]
      exact hn

theorem reorderChild_depthOK (n : DataNode) (childName before : Option String)
    (notify : Bool) (a : Nat) (hn : depthOKb n a = true) :
    depthOKb (reorderChild n childName before notify).1 a = true := by
  cases childName with
  | none => simpa [reorderChild] using hn
  | some cn =>
    rcases hidx : n.orderedIndex with _ | idx
    · simpa [reorderChild, hidx] using hn
    · by_cases hb : before = some cn
      · simpa [reorderChild, hidx, hb] using hn
      · have hrem := removeIndexEntry_depthOK n cn notify a hn
        by_cases hst : (removeIndexEntry n cn notify).2.1 = Status.noError
        · simp only [reorderChild, hidx, if_neg hb, hst, ne_eq, not_true_eq_false,
            if_false]
          rw [depthOKb_setOrderedIndex]
          exact hrem
        · simp only [reorderChild, hidx, if_neg hb, ne_eq, hst, not_false_eq_true,
            if_true]
          exact hrem

theorem insertOrderedChildBody_depthOK (oom : OomOracle) (n : DataNode)
    (a : Nat) (p : List String) (d : Option Nat) (before nmArg : Option String)
    (nCD : Bool) (hn : depthOKb n a = true) :
    depthOKb (insertOrderedChildBody oom n a p d before nmArg nCD).1 a = true := by
  simp only [insertOrderedChildBody]
  cases oom.nodeAlloc with
  | true =>
    simp only [if_true]
    rw [depthOKb_setOrderedCounter]
    exact hn
  | false =>
    simp only [Bool.false_eq_true, if_false]
    have hput : depthOKb (putChildFull (n.setOrderedCounter
        (match nmArg with
         | some nm2 => (nm2, n.orderedCounter)
         | none => findFreeAutoName (n.children.getD [])
             ((n.children.getD []).length + 1) n.orderedCounter).2) a p
        (some (mkFreshNode
          (match nmArg with
           | some nm2 => (nm2, n.orderedCounter)
           | none => findFreeAutoName (n.children.getD [])
               ((n.children.getD []).length + 1) n.orderedCounter).1 d))
        true nCD oom.hashPut).1 a = true := by
      refine putChildFull_depthOK _ _ _ _ _ _ _ ?_ ?_
      · rw [depthOKb_setOrderedCounter]
        exact hn
      · intro c2 hc2
        injection hc2 with hc2
        subst hc2
        rfl
    by_cases hst : (putChildFull (n.setOrderedCounter
        (match nmArg with
         | some nm2 => (nm2, n.orderedCounter)
         | none => findFreeAutoName (n.children.getD [])
             ((n.children.getD []).length + 1) n.orderedCounter).2) a p
        (some (mkFreshNode
          (match nmArg with
           | some nm2 => (nm2, n.orderedCounter)
           | none => findFreeAutoName (n.children.getD [])
               ((n.children.getD []).length + 1) n.orderedCounter).1 d))
        true nCD oom.hashPut).2.1 = Status.noError
    · simp only [hst, ne_eq, not_true_eq_false, if_false]
      cases oom.indexInsert with
      | true =>
        simp only [if_true]
        exact (removeDrain_depthOK 1).1 _ _ _ _ _ a hput
      | false =>
        simp only [Bool.false_eq_true, if_false]
        rw [depthOKb_setOrderedIndex]
        exact hput
    · simp only [ne_eq, hst, not_false_eq_true, if_true]
      exact hput

theorem insertOrderedChildFull_depthOK (oom : OomOracle) (n : DataNode)
    (a : Nat) (p : List String) (d : Option Nat) (before nmArg : Option String)
    (nCD : Bool) (hn : depthOKb n a = true) :
    depthOKb (insertOrderedChildFull oom n a p d before nmArg nCD).1 a = true := by
  rcases hidx : n.orderedIndex with _ | idx
  · simp only [insertOrderedChildFull, hidx]
    cases oom.queueAlloc with
    | true => simpa using hn
    | false =>
      simp only [Bool.false_eq_true, if_false]
      refine insertOrderedChildBody_depthOK oom _ a p d before nmArg nCD ?_
      rw [depthOKb_setOrderedIndex]
      exact hn
  · simp only [insertOrderedChildFull, hidx]
    exact insertOrderedChildBody_depthOK oom n a p d before nmArg nCD hn

mutual

theorem calculateChecksum_depthOK : ∀ (t : DataNode) (dep a : Nat),
    depthOKb t a = true → depthOKb (calculateChecksum t dep).2 a = true
  | .node nm d hi c dat cache ch oi, dep, a, h => by
    rw [calculateChecksum_node nm d hi c dat cache ch oi dep _ rfl]
    rw [depthOKb_node, Bool.and_eq_true] at h
    by_cases hd : dep = 0
    · rw [if_pos hd]
      rw [depthOKb_node, Bool.and_eq_true]
      exact h
    · rw [if_neg hd]
      cases ch with
      | none =>
        rw [depthOKb_node, Bool.and_eq_true]
        exact ⟨h.1, by simp⟩
      | some tbl =>
        rw [depthOKb_node, Bool.and_eq_true]
        exact ⟨h.1, calcChecksumList_depthOK tbl (dep - 1) _ (a + 1) h.2⟩

theorem calcChecksumList_depthOK : ∀ (tbl : List (String × DataNode))
    (dep acc a : Nat), depthOKbList tbl a = true →
    depthOKbList (calcChecksumList tbl dep acc).2 a = true
  | [], dep, acc, a, _ => by
    rw [calcChecksumList_nil]
    exact depthOKbList_nil a
  | (k, c) :: rest, dep, acc, a, hl => by
    rw [depthOKbList_cons, Bool.and_eq_true] at hl
    rw [calcChecksumList_cons, depthOKbList_cons]
    simp only [Bool.and_eq_true]
    exact ⟨calculateChecksum_depthOK c dep a hl.1,
      calcChecksumList_depthOK rest dep _ a hl.2⟩

end

theorem setData_depthOK (n : DataNode) (d : Option Nat) (notify bc es : Bool)
    (p : List String) (a : Nat) (hn : depthOKb n a = true) :
    depthOKb (setData n d notify bc es p).1 a = true := by
  simp only [setData]
  rw [depthOKb_setCache, depthOKb_setDataField]
  exact hn

/-- True when the operation injects no pre-built subtree: the node handed
to PutChild, if any, must be freshly created (childless). -/
def TreeOp.childlessPuts : TreeOp → Bool
  | .putChildOp _ (some c) _ _ => c.childless
  | _ => true

theorem modifyAtPath_depthOK
    (f : Nat → List String → DataNode → DataNode × List Event)
    (hf : ∀ a p m, depthOKb m a = true → depthOKb (f a p m).1 a = true) :
    ∀ (path : List String) (n : DataNode) (a : Nat) (p0 : List String),
    depthOKb n a = true → depthOKb (modifyAtPath f n a p0 path).1 a = true
  | [], n, a, p0, hn => hf a p0 n hn
  | k :: rest, n, a, p0, hn => by
    rw [modifyAtPath]
    rcases hch : n.children with _ | tbl
    · simp only [hch]
      exact hn
    · rcases hget : alGet tbl k with _ | c
      · simp only [hch, hget]
        exact hn
      · simp only [hch, hget]
        have hcok : depthOKb c (a + 1) = true := depthOKbList_alGet tbl k c (a + 1)
          (depthOKb_children n tbl a hn hch) hget
        have hrec := modifyAtPath_depthOK f hf rest c (a + 1) (p0 ++ [k]) hcok
        refine depthOKb_setChildren _ _ _ hn ?_
        exact depthOKbList_alPut tbl k _ (a + 1)
          (depthOKb_children n tbl a hn hch) hrec

theorem applyOp_depthOK (n : DataNode) (op : TreeOp)
    (hn : depthOKb n 0 = true) (hop : op.childlessPuts = true) :
    depthOKb (applyOp n op) 0 = true := by
  cases op with
  | putChildOp path child nSP nCD =>
    refine modifyAtPath_depthOK _ ?_ path n 0 [] hn
    intro a p m hm
    refine putChildFull_depthOK m a p child nSP nCD false hm ?_
    intro c hc
    subst hc
    simpa [TreeOp.childlessPuts] using hop
  | removeChildOp path key notify recurse =>
    refine modifyAtPath_depthOK _ ?_ path n 0 [] hn
    intro a p m hm
    exact (removeDrain_depthOK n.totalSize).1 m key notify recurse p a hm
  | insertOrderedChildOp path d before nm2 nCD =>
    refine modifyAtPath_depthOK _ ?_ path n 0 [] hn
    intro a p m hm
    exact insertOrderedChildFull_depthOK ⟨false, false, false, false⟩ m a p d
      before nm2 nCD hm
  | insertIndexEntryAtOp path pos key =>
    refine modifyAtPath_depthOK _ ?_ path n 0 [] hn
    intro a p m hm
    exact insertIndexEntryAt_depthOK m pos key a hm
  | removeIndexEntryAtOp path pos notify =>
    refine modifyAtPath_depthOK _ ?_ path n 0 [] hn
    intro a p m hm
    exact removeIndexEntryAt_depthOK m pos notify a hm
  | reorderChildOp path childName before notify =>
    refine modifyAtPath_depthOK _ ?_ path n 0 [] hn
    intro a p m hm
    exact reorderChild_depthOK m childName before notify a hm
  | setDataOp path d notify bc es =>
    refine modifyAtPath_depthOK _ ?_ path n 0 [] hn
    intro a p m hm
    exact setData_depthOK m d notify bc es p a hm
  | calcChecksumOp path depth =>
    refine modifyAtPath_depthOK _ ?_ path n 0 [] hn
    intro a p m hm
    exact calculateChecksum_depthOK m depth a hm

theorem applyOps_depthOK : ∀ (ops : List TreeOp) (n : DataNode),
    depthOKb n 0 = true → (∀ op ∈ ops, op.childlessPuts = true) →
    depthOKb (applyOps n ops) 0 = true
  | [], n, hn, _ => hn
  | op :: rest, n, hn, hops => by
    rw [applyOps]
    exact applyOps_depthOK rest (applyOp n op)
      (applyOp_depthOK n op hn (hops op (List.mem_cons_self op rest)))
      (fun op2 hm => hops op2 (List.mem_cons_of_mem op hm))

/-- A detached node a that already carries a child b (built by
a.PutChild(b) while a was not attached anywhere). -/
def c3A : DataNode :=
  (putChild (mkFreshNode "a" none) 0 [] (some (mkFreshNode "b" none)) true false).1

/-- A root that receives the two-node subtree a → b via PutChild. -/
def c3Tree : DataNode :=
  (putChild (mkFreshNode "" none) 0 [] (some c3A) true false).1

/-! ## C3 -/

/-- C3 counterexample: building b under a detached node a and then
attaching a below the root — a legal PutChild/SetParent sequence — leaves
b's stored depth at 1 although b now has two ancestors: SetParent
recomputes only the directly attached node's `_depth` and never walks the
attached node's descendants, so the depth invariant fails for them. -/
theorem c3_counterexample :
    depthOKb c3Tree 0 = false ∧
    (getAtPath c3Tree ["a"]).map DataNode.depth = some 1 ∧
    (getAtPath c3Tree ["a", "b"]).map DataNode.depth = some 1 := by
  refine ⟨by decide, by decide, by decide⟩

/-- C3 amended: after any sequence of tree operations in which every node
handed to PutChild is freshly created (childless — InsertOrderedChild's own
nodes always are), every node reachable from the root has its stored depth
equal to its ancestor count, the root at 0. -/
theorem c3_depth_amended (rootName : String) (ops : List TreeOp)
    (h : ∀ op ∈ ops, op.childlessPuts = true) :
    depthOKb (applyOps (mkFreshNode rootName none) ops) 0 = true := by
  refine applyOps_depthOK ops (mkFreshNode rootName none) ?_ h
  rw [mkFreshNode, depthOKb_node]
  simp

/-- C3 amended witness: a put, an ordered insert below it, and a recursive
removal. -/
theorem c3_depth_amended_witness :
    depthOKb (applyOps (mkFreshNode "" none)
      [.putChildOp [] (some (mkFreshNode "a" none)) true false,
       .insertOrderedChildOp ["a"] none none none false,
       .removeChildOp [] "a" true true]) 0 = true :=
  c3_depth_amended ""
    [.putChildOp [] (some (mkFreshNode "a" none)) true false,
     .insertOrderedChildOp ["a"] none none none false,
     .removeChildOp [] "a" true true] (by decide)

/-! ## C10 support: the undo path of InsertOrderedChild -/

theorem alGet_alPut_self : ∀ (tbl : List (String × DataNode)) (key : String)
    (v : DataNode), alGet (alPut tbl key v) key = some v
  | [], key, v => by simp [alPut, alGet]
  | (k2, c2) :: rest, key, v => by
    rw [alPut]
    by_cases he : k2 = key
    · rw [if_pos he, alGet, if_pos he]
    · rw [if_neg he, alGet, if_neg he]
      exact alGet_alPut_self rest key v

theorem alRemove_alPut : ∀ (tbl : List (String × DataNode)) (key : String)
    (v : DataNode), alRemove (alPut tbl key v) key = alRemove tbl key
  | [], key, v => by simp [alPut, alRemove]
  | (k2, c2) :: rest, key, v => by
    rw [alPut]
    by_cases he : k2 = key
    · rw [if_pos he, alRemove, if_pos he, alRemove, if_pos he]
    · rw [if_neg he, alRemove, if_neg he, alRemove, if_neg he,
        alRemove_alPut rest key v]

theorem alRemove_of_alGet_none : ∀ (tbl : List (String × DataNode))
    (key : String), alGet tbl key = none → alRemove tbl key = tbl
  | [], key, _ => rfl
  | (k2, c2) :: rest, key, hg => by
    rw [alGet] at hg
    by_cases he : k2 = key
    · rw [if_pos he] at hg
      cases hg
    · rw [if_neg he] at hg
      rw [alRemove, if_neg he, alRemove_of_alGet_none rest key hg]

theorem alGet_alRemove_ne : ∀ (tbl : List (String × DataNode)) (key k2 : String),
    k2 ≠ key → alGet (alRemove tbl key) k2 = alGet tbl k2
  | [], key, k2, _ => rfl
  | (k3, c3) :: rest, key, k2, hne => by
    rw [alRemove]
    by_cases he : k3 = key
    · rw [if_pos he]
      have h3 : alGet ((k3, c3) :: rest) k2 = alGet rest k2 := by
        rw [alGet, if_neg (fun h2 => hne (h2.symm.trans he))]
      rw [h3]
    · rw [if_neg he, alGet, alGet]
      by_cases he2 : k3 = k2
      · rw [if_pos he2, if_pos he2]
      · rw [if_neg he2, if_neg he2]
        exact alGet_alRemove_ne rest key k2 hne

theorem alGet_eq_none_of_not_mem : ∀ (tbl : List (String × DataNode))
    (key : String), key ∉ tbl.map Prod.fst → alGet tbl key = none
  | [], key, _ => rfl
  | (k2, c2) :: rest, key, h => by
    rw [List.map_cons, List.mem_cons] at h
    push_neg at h
    rw [alGet, if_neg (fun he => h.1 he.symm)]
    exact alGet_eq_none_of_not_mem rest key h.2

theorem alGet_alRemove_self : ∀ (tbl : List (String × DataNode)) (key : String),
    (tbl.map Prod.fst).Nodup → alGet (alRemove tbl key) key = none
  | [], key, _ => rfl
  | (k2, c2) :: rest, key, hnd => by
    rw [List.map_cons, List.nodup_cons] at hnd
    rw [alRemove]
    by_cases he : k2 = key
    · rw [if_pos he]
      subst he
      exact alGet_eq_none_of_not_mem rest k2 hnd.1
    · rw [if_neg he, alGet, if_neg he]
      exact alGet_alRemove_self rest key hnd.2

theorem putChildFull_oom_children (m : DataNode) (a : Nat) (p : List String)
    (child : DataNode) (nSP nCD : Bool) :
    (putChildFull m a p (some child) nSP nCD true).1.children.getD [] =
      m.children.getD [] := by
  simp only [putChildFull, setParentAttach, if_true]
  rw [DataNode.children_setMaxChildIDHint]
  rcases hch : m.children with _ | tbl <;> simp [hch]

theorem putChildFull_oom_status (m : DataNode) (a : Nat) (p : List String)
    (child : DataNode) (nSP nCD : Bool) :
    (putChildFull m a p (some child) nSP nCD true).2.1 = Status.outOfMemory := by
  simp [putChildFull, setParentAttach]

theorem putChildFull_ok_children (m : DataNode) (a : Nat) (p : List String)
    (child : DataNode) (nSP nCD : Bool) :
    (putChildFull m a p (some child) nSP nCD false).1.children =
      some (alPut (m.children.getD []) child.nodeName (child.setDepth (a + 1))) := by
  simp only [putChildFull, setParentAttach, Bool.false_eq_true, if_false]
  rw [DataNode.children_setChildren]
  rw [DataNode.children_setMaxChildIDHint, DataNode.nodeName_setDepth]
  rcases hch : m.children with _ | tbl <;> simp [hch]

theorem putChildFull_ok_status (m : DataNode) (a : Nat) (p : List String)
    (child : DataNode) (nSP nCD : Bool) :
    (putChildFull m a p (some child) nSP nCD false).2.1 = Status.noError := by
  simp [putChildFull, setParentAttach]

theorem removeChild_found_children (fuel : Nat) (n : DataNode)
    (tbl : List (String × DataNode)) (key : String) (notify recurse : Bool)
    (path : List String) (child : DataNode)
    (h1 : n.children = some tbl) (h2 : alGet tbl key = some child) :
    (removeChild (fuel + 1) n key notify recurse path).1.children =
      some (alRemove tbl key) := by
  rw [removeChild.eq_def]
  simp only [h1, h2]
  rw [DataNode.children_setChildren, removeIndexEntry_children, h1]
  simp

theorem hasChild_false_alGet (n : DataNode) (s : String)
    (h : n.hasChild s = false) : alGet (n.children.getD []) s = none := by
  rcases hch : n.children with _ | tbl
  · rfl
  · rw [DataNode.hasChild, hch] at h
    change (alGet tbl s).isSome = false at h
    rcases hg : alGet tbl s with _ | v
    · exact hg
    · rw [hg] at h
      simp at h

theorem nodeName_mkFreshNode (nm : String) (d : Option Nat) :
    (mkFreshNode nm d).nodeName = nm := rfl

/-- The undo analysis shared by both branches of InsertOrderedChild: after
the PutChild of the fresh node named nm1 succeeds and the index insert
fails, the children table of the result is the original table with any
nm1 entry removed. -/
theorem insertUndo_children (m : DataNode) (a : Nat) (p : List String)
    (nm1 : String) (d : Option Nat) (nCD : Bool) :
    (removeChild 1 (putChildFull m a p (some (mkFreshNode nm1 d)) true nCD false).1
        nm1 true false p).1.children =
      some (alRemove (m.children.getD []) nm1) := by
  have hput := putChildFull_ok_children m a p (mkFreshNode nm1 d) true nCD
  rw [nodeName_mkFreshNode] at hput
  have hfound := alGet_alPut_self (m.children.getD []) nm1
    ((mkFreshNode nm1 d).setDepth (a + 1))
  have h := removeChild_found_children 0 _ _ nm1 true false p _ hput hfound
  rw [h, alRemove_alPut]

/-- Error atomicity of the InsertOrderedChild body (the code path that runs
once `_orderedIndex` is allocated): when the returned status is not
B_NO_ERROR, every key of the resulting children table maps to its previous
node or to nothing, and when an explicitly named child was not already
present the children table comes back exactly unchanged. -/
theorem insertOrderedChildBody_atomic (oq ona ohp oii : Bool) (n : DataNode)
    (a : Nat) (p : List String) (d : Option Nat) (before nmArg : Option String)
    (nCD : Bool)
    (hnodup : ((n.children.getD []).map Prod.fst).Nodup)
    (hst : (insertOrderedChildBody ⟨oq, ona, ohp, oii⟩ n a p d before nmArg nCD).2.1
      ≠ Status.noError) :
    (∀ k,
      alGet ((insertOrderedChildBody ⟨oq, ona, ohp, oii⟩ n a p d before nmArg
          nCD).1.children.getD []) k = alGet (n.children.getD []) k ∨
      alGet ((insertOrderedChildBody ⟨oq, ona, ohp, oii⟩ n a p d before nmArg
          nCD).1.children.getD []) k = none) ∧
    (∀ s, nmArg = some s → n.hasChild s = false →
      (insertOrderedChildBody ⟨oq, ona, ohp, oii⟩ n a p d before nmArg
          nCD).1.children.getD [] = n.children.getD []) := by
  cases ona with
  | true =>
    constructor
    · intro k
      left
      simp [insertOrderedChildBody]
    · intro s hs hhc
      simp [insertOrderedChildBody]
  | false =>
    cases ohp with
    | true =>
      constructor
      · intro k
        left
        simp [insertOrderedChildBody, putChildFull_oom_status,
          putChildFull_oom_children]
      · intro s hs hhc
        simp [insertOrderedChildBody, putChildFull_oom_status,
          putChildFull_oom_children]
    | false =>
      cases oii with
      | true =>
        constructor
        · intro k
          cases nmArg with
          | some s =>
            simp [insertOrderedChildBody, putChildFull_ok_status,
              insertUndo_children]
            by_cases hk : k = s
            · right
              subst hk
              exact alGet_alRemove_self _ _ hnodup
            · left
              exact alGet_alRemove_ne _ _ _ hk
          | none =>
            simp only [insertOrderedChildBody]
            generalize hg : findFreeAutoName (n.children.getD [])
              ((n.children.getD []).length + 1) n.orderedCounter = nc
            obtain ⟨nm1, c1⟩ := nc
            simp [putChildFull_ok_status, insertUndo_children]
            by_cases hk : k = nm1
            · right
              subst hk
              exact alGet_alRemove_self _ _ hnodup
            · left
              exact alGet_alRemove_ne _ _ _ hk
        · intro s hs hhc
          subst hs
          simp [insertOrderedChildBody, putChildFull_ok_status,
            insertUndo_children]
          exact alRemove_of_alGet_none _ _ (hasChild_false_alGet n s hhc)
      | false =>
        exfalso
        apply hst
        simp [insertOrderedChildBody, putChildFull_ok_status]

/-- C10: DataNode::InsertOrderedChild is atomic on error.  Whichever of its
fallible steps fails — the `newnothrow` allocation of the ordered index,
GetNewDataNode returning NULL, the children-Hashtable Put inside PutChild,
or InsertItemAt on the ordered index (after which the just-added child is
removed again via RemoveChild before the error is returned) — a
non-B_NO_ERROR return leaves the parent's children map with no new entry:
every name maps to the child it mapped to before the call, or to nothing;
and when the call used an explicit name that was not already a child, the
children map comes back exactly unchanged. -/
theorem c10_insertOrderedChild_atomic (oom : OomOracle) (n : DataNode)
    (a : Nat) (p : List String) (d : Option Nat) (before nmArg : Option String)
    (nCD : Bool)
    (hnodup : ((n.children.getD []).map Prod.fst).Nodup)
    (hst : (insertOrderedChildFull oom n a p d before nmArg nCD).2.1
      ≠ Status.noError) :
    (∀ k,
      alGet ((insertOrderedChildFull oom n a p d before nmArg
          nCD).1.children.getD []) k = alGet (n.children.getD []) k ∨
      alGet ((insertOrderedChildFull oom n a p d before nmArg
          nCD).1.children.getD []) k = none) ∧
    (∀ s, nmArg = some s → n.hasChild s = false →
      (insertOrderedChildFull oom n a p d before nmArg
          nCD).1.children.getD [] = n.children.getD []) := by
  obtain ⟨oq, ona, ohp, oii⟩ := oom
  rcases hoi : n.orderedIndex with _ | idx
  · cases oq with
    | true =>
      constructor
      · intro k
        left
        simp [insertOrderedChildFull, hoi]
      · intro s hs hhc
        simp [insertOrderedChildFull, hoi]
    | false =>
      rw [insertOrderedChildFull] at hst ⊢
      simp only [hoi, Bool.false_eq_true, if_false] at hst ⊢
      have hnodup2 : (((n.setOrderedIndex (some [])).children.getD []).map
          Prod.fst).Nodup := by
        rw [DataNode.children_setOrderedIndex]
        exact hnodup
      have h := insertOrderedChildBody_atomic false ona ohp oii
        (n.setOrderedIndex (some [])) a p d before nmArg nCD hnodup2 hst
      rw [DataNode.children_setOrderedIndex] at h
      refine ⟨h.1, fun s hs hhc => h.2 s hs ?_⟩
      rw [DataNode.hasChild_setOrderedIndex]
      exact hhc
  · rw [insertOrderedChildFull] at hst ⊢
    simp only [hoi] at hst ⊢
    exact insertOrderedChildBody_atomic oq ona ohp oii n a p d before nmArg
      nCD hnodup hst

/-- Counterexample to the state-unchanged-on-error reading of C10: when
InsertOrderedChild is called with an explicit name that is already a child,
PutChild overwrites the old child, and the error-path RemoveChild undo then
removes the overwriting entry — so an error return can lose the pre-existing
child: here the parent had a child x before the failing call and has none
after it. -/
theorem c10_counterexample :
    (insertOrderedChildFull ⟨false, false, false, true⟩ c8Good 0 [] none none
        (some "x") false).2.1 ≠ Status.noError ∧
    c8Good.hasChild "x" = true ∧
    (insertOrderedChildFull ⟨false, false, false, true⟩ c8Good 0 [] none none
        (some "x") false).1.hasChild "x" = false :=
  ⟨by decide, by decide, by decide⟩

/-- Witness for C10: on a parent with one child x, InsertOrderedChild of a
fresh child y whose InsertItemAt fails returns an error with the children
table exactly as before. -/
theorem c10_insertOrderedChild_atomic_witness :
    ((c8Good.children.getD []).map Prod.fst).Nodup ∧
    (insertOrderedChildFull ⟨false, false, false, true⟩ c8Good 0 [] none none
        (some "y") false).2.1 ≠ Status.noError ∧
    (insertOrderedChildFull ⟨false, false, false, true⟩ c8Good 0 [] none none
        (some "y") false).1.children.getD [] = c8Good.children.getD [] :=
  ⟨by decide, by decide,
   (c10_insertOrderedChild_atomic ⟨false, false, false, true⟩ c8Good 0 [] none
       none (some "y") false (by decide) (by decide)).2 "y" rfl (by decide)⟩

/-! ## C4: bookkeeping over the Nat-keyed association lists -/

theorem nlGet_nlPut_self {α : Type} : ∀ (l : List (Nat × α)) (k : Nat) (v : α),
    nlGet (nlPut l k v) k = some v
  | [], k, v => by simp [nlPut, nlGet]
  | (k2, w) :: rest, k, v => by
    rw [nlPut]
    by_cases he : k2 = k
    · rw [if_pos he, nlGet, if_pos he]
    · rw [if_neg he, nlGet, if_neg he]
      exact nlGet_nlPut_self rest k v

theorem nlGet_nlPut_ne {α : Type} : ∀ (l : List (Nat × α)) (k k2 : Nat) (v : α),
    k2 ≠ k → nlGet (nlPut l k v) k2 = nlGet l k2
  | [], k, k2, v, hne => by
    show (if k = k2 then some v else nlGet [] k2) = nlGet ([] : List (Nat × α)) k2
    rw [if_neg (fun h => hne h.symm)]
  | (k3, w) :: rest, k, k2, v, hne => by
    rw [nlPut]
    by_cases he : k3 = k
    · have h3 : ¬k3 = k2 := fun h => hne (h.symm.trans he)
      rw [if_pos he, nlGet, if_neg h3, nlGet, if_neg h3]
    · rw [if_neg he, nlGet, nlGet]
      by_cases he2 : k3 = k2
      · rw [if_pos he2, if_pos he2]
      · rw [if_neg he2, if_neg he2]
        exact nlGet_nlPut_ne rest k k2 v hne

theorem nlPut_self {α : Type} : ∀ (l : List (Nat × α)) (k : Nat) (v : α),
    nlGet l k = some v → nlPut l k v = l
  | [], k, v, hg => by cases hg
  | (k2, w) :: rest, k, v, hg => by
    rw [nlGet] at hg
    rw [nlPut]
    by_cases he : k2 = k
    · rw [if_pos he] at hg ⊢
      cases hg
      rfl
    · rw [if_neg he] at hg ⊢
      rw [nlPut_self rest k v hg]

theorem nlGet_nlRemove_ne {α : Type} : ∀ (l : List (Nat × α)) (k k2 : Nat),
    k2 ≠ k → nlGet (nlRemove l k) k2 = nlGet l k2
  | [], k, k2, _ => rfl
  | (k3, w) :: rest, k, k2, hne => by
    rw [nlRemove]
    by_cases he : k3 = k
    · rw [if_pos he, nlGet, if_neg (fun h => hne (h.symm.trans he))]
    · rw [if_neg he, nlGet, nlGet]
      by_cases he2 : k3 = k2
      · rw [if_pos he2, if_pos he2]
      · rw [if_neg he2, if_neg he2]
        exact nlGet_nlRemove_ne rest k k2 hne

theorem nlRemove_sublist {α : Type} : ∀ (l : List (Nat × α)) (k : Nat),
    List.Sublist (nlRemove l k) l
  | [], _ => List.Sublist.refl []
  | (k2, w) :: rest, k => by
    rw [nlRemove]
    by_cases he : k2 = k
    · rw [if_pos he]
      exact List.sublist_cons_self (k2, w) rest
    · rw [if_neg he]
      exact List.Sublist.cons₂ (k2, w) (nlRemove_sublist rest k)

theorem nlGet_eq_none_iff {α : Type} : ∀ (l : List (Nat × α)) (k : Nat),
    nlGet l k = none ↔ k ∉ l.map Prod.fst
  | [], k => by simp [nlGet]
  | (k2, w) :: rest, k => by
    rw [nlGet, List.map_cons, List.mem_cons]
    by_cases he : k2 = k
    · rw [if_pos he]
      simp [he]
    · rw [if_neg he]
      rw [nlGet_eq_none_iff rest k]
      simp only [List.mem_cons]
      constructor
      · rintro h (h2 | h2)
        · exact he h2.symm
        · exact h h2
      · intro h
        exact fun h2 => h (Or.inr h2)

theorem mem_of_nlGet {α : Type} : ∀ (l : List (Nat × α)) (k : Nat) (v : α),
    nlGet l k = some v → (k, v) ∈ l
  | [], k, v, hg => by cases hg
  | (k2, w) :: rest, k, v, hg => by
    rw [nlGet] at hg
    by_cases he : k2 = k
    · rw [if_pos he] at hg
      cases hg
      subst he
      exact List.mem_cons_self (k2, w) rest
    · rw [if_neg he] at hg
      exact List.mem_cons_of_mem _ (mem_of_nlGet rest k v hg)

theorem nlGet_of_mem {α : Type} : ∀ (l : List (Nat × α)) (k : Nat) (v : α),
    (l.map Prod.fst).Nodup → (k, v) ∈ l → nlGet l k = some v
  | [], k, v, _, hm => by cases hm
  | (k2, w) :: rest, k, v, hnd, hm => by
    rw [List.map_cons, List.nodup_cons] at hnd
    rw [nlGet]
    rcases List.mem_cons.1 hm with h | h
    · cases h
      rw [if_pos rfl]
    · by_cases he : k2 = k
      · exfalso
        apply hnd.1
        rw [he]
        exact List.mem_map.2 ⟨(k, v), h, rfl⟩
      · rw [if_neg he]
        exact nlGet_of_mem rest k v hnd.2 h

theorem nlGet_nlRemove_self {α : Type} : ∀ (l : List (Nat × α)) (k : Nat),
    (l.map Prod.fst).Nodup → nlGet (nlRemove l k) k = none
  | [], k, _ => rfl
  | (k2, w) :: rest, k, hnd => by
    rw [List.map_cons, List.nodup_cons] at hnd
    rw [nlRemove]
    by_cases he : k2 = k
    · rw [if_pos he]
      rw [nlGet_eq_none_iff]
      rw [he] at hnd
      exact hnd.1
    · rw [if_neg he, nlGet, if_neg he]
      exact nlGet_nlRemove_self rest k hnd.2

theorem keys_nlPut_of_get {α : Type} : ∀ (l : List (Nat × α)) (k : Nat) (v w : α),
    nlGet l k = some w → (nlPut l k v).map Prod.fst = l.map Prod.fst
  | [], k, v, w, hg => by cases hg
  | (k2, w2) :: rest, k, v, w, hg => by
    rw [nlGet] at hg
    rw [nlPut]
    by_cases he : k2 = k
    · rw [if_pos he, List.map_cons, List.map_cons]
    · rw [if_neg he] at hg
      rw [if_neg he, List.map_cons, List.map_cons,
        keys_nlPut_of_get rest k v w hg]

theorem nlGet_append_some {α : Type} : ∀ (l l2 : List (Nat × α)) (k : Nat) (v : α),
    nlGet l k = some v → nlGet (l ++ l2) k = some v
  | [], l2, k, v, hg => by cases hg
  | (k2, w) :: rest, l2, k, v, hg => by
    rw [nlGet] at hg
    rw [List.cons_append, nlGet]
    by_cases he : k2 = k
    · rw [if_pos he] at hg ⊢
      exact hg
    · rw [if_neg he] at hg ⊢
      exact nlGet_append_some rest l2 k v hg

theorem nlGet_append_none {α : Type} : ∀ (l l2 : List (Nat × α)) (k : Nat),
    nlGet l k = none → nlGet (l ++ l2) k = nlGet l2 k
  | [], l2, k, _ => rfl
  | (k2, w) :: rest, l2, k, hg => by
    rw [nlGet] at hg
    rw [List.cons_append, nlGet]
    by_cases he : k2 = k
    · rw [if_pos he] at hg
      cases hg
    · rw [if_neg he] at hg ⊢
      exact nlGet_append_none rest l2 k hg

theorem mem_nlPut_of_nodup {α : Type} : ∀ (l : List (Nat × α)) (k : Nat) (v : α)
    (x : Nat × α), (l.map Prod.fst).Nodup → x ∈ nlPut l k v →
    x = (k, v) ∨ (x ∈ l ∧ x.1 ≠ k)
  | [], k, v, x, _, hm => by
    rw [nlPut] at hm
    rcases List.mem_cons.1 hm with h | h
    · exact Or.inl h
    · cases h
  | (k2, w) :: rest, k, v, x, hnd, hm => by
    rw [List.map_cons, List.nodup_cons] at hnd
    rw [nlPut] at hm
    by_cases he : k2 = k
    · rw [if_pos he] at hm
      rcases List.mem_cons.1 hm with h | h
      · exact Or.inl (by rw [h, he])
      · refine Or.inr ⟨List.mem_cons_of_mem _ h, fun hx => ?_⟩
        apply hnd.1
        rw [he, ← hx]
        exact List.mem_map.2 ⟨x, h, rfl⟩
    · rw [if_neg he] at hm
      rcases List.mem_cons.1 hm with h | h
      · refine Or.inr ⟨by rw [h]; exact List.mem_cons_self _ _, ?_⟩
        rw [h]
        exact he
      · rcases mem_nlPut_of_nodup rest k v x hnd.2 h with h2 | h2
        · exact Or.inl h2
        · exact Or.inr ⟨List.mem_cons_of_mem _ h2.1, h2.2⟩

theorem mem_nlRemove_of_nodup {α : Type} : ∀ (l : List (Nat × α)) (k : Nat)
    (x : Nat × α), (l.map Prod.fst).Nodup → x ∈ nlRemove l k →
    x ∈ l ∧ x.1 ≠ k
  | [], k, x, _, hm => by cases hm
  | (k2, w) :: rest, k, x, hnd, hm => by
    rw [List.map_cons, List.nodup_cons] at hnd
    rw [nlRemove] at hm
    by_cases he : k2 = k
    · rw [if_pos he] at hm
      refine ⟨List.mem_cons_of_mem _ hm, fun hx => ?_⟩
      apply hnd.1
      rw [he, ← hx]
      exact List.mem_map.2 ⟨x, hm, rfl⟩
    · rw [if_neg he] at hm
      rcases List.mem_cons.1 hm with h | h
      · refine ⟨by rw [h]; exact List.mem_cons_self _ _, ?_⟩
        rw [h]
        exact he
      · rcases mem_nlRemove_of_nodup rest k x hnd.2 h with ⟨h5, h6⟩
        exact ⟨List.mem_cons_of_mem _ h5, h6⟩

theorem countP_nlPut {α : Type} (p : Nat × α → Bool) :
    ∀ (l : List (Nat × α)) (k : Nat) (v w : α), nlGet l k = some w →
    (nlPut l k v).countP p + (if p (k, w) then 1 else 0)
      = l.countP p + (if p (k, v) then 1 else 0)
  | [], k, v, w, hg => by cases hg
  | (k2, w2) :: rest, k, v, w, hg => by
    rw [nlGet] at hg
    rw [nlPut]
    by_cases he : k2 = k
    · rw [if_pos he] at hg ⊢
      cases hg
      subst he
      rw [List.countP_cons, List.countP_cons]
      omega
    · rw [if_neg he] at hg ⊢
      rw [List.countP_cons, List.countP_cons]
      have := countP_nlPut p rest k v w hg
      omega

theorem countP_nlRemove {α : Type} (p : Nat × α → Bool) :
    ∀ (l : List (Nat × α)) (k : Nat) (w : α), nlGet l k = some w →
    (nlRemove l k).countP p + (if p (k, w) then 1 else 0) = l.countP p
  | [], k, w, hg => by cases hg
  | (k2, w2) :: rest, k, w, hg => by
    rw [nlGet] at hg
    rw [nlRemove]
    by_cases he : k2 = k
    · rw [if_pos he] at hg ⊢
      cases hg
      subst he
      rw [List.countP_cons]
    · rw [if_neg he] at hg ⊢
      rw [List.countP_cons, List.countP_cons]
      have := countP_nlRemove p rest k w hg
      omega

theorem two_le_countP {α : Type} [DecidableEq α] (p : α → Bool) :
    ∀ (l : List α) (a b : α), a ∈ l → b ∈ l → a ≠ b → p a = true → p b = true →
    2 ≤ l.countP p
  | [], a, b, ha, _, _, _, _ => by cases ha
  | c :: rest, a, b, ha, hb, hab, hpa, hpb => by
    rw [List.countP_cons]
    by_cases hac : a = c
    · have hbr : b ∈ rest := by
        rcases List.mem_cons.1 hb with h | h
        · exact absurd (h.trans hac.symm) (fun h2 => hab h2.symm)
        · exact h
      have h1 : 0 < rest.countP p := List.countP_pos_iff.2 ⟨b, hbr, hpb⟩
      rw [← hac, hpa, if_pos rfl]
      omega
    · by_cases hbc : b = c
      · have har : a ∈ rest := by
          rcases List.mem_cons.1 ha with h | h
          · exact absurd (h.trans hbc.symm) hab
          · exact h
        have h1 : 0 < rest.countP p := List.countP_pos_iff.2 ⟨a, har, hpa⟩
        rw [← hbc, hpb, if_pos rfl]
        omega
      · have har : a ∈ rest := by
          rcases List.mem_cons.1 ha with h | h
          · exact absurd h hac
          · exact h
        have hbr : b ∈ rest := by
          rcases List.mem_cons.1 hb with h | h
          · exact absurd h hbc
          · exact h
        have := two_le_countP p rest a b har hbr hab hpa hpb
        omega

theorem nlGet_isSome_iff {α : Type} (l : List (Nat × α)) (k : Nat) :
    (nlGet l k).isSome = true ↔ k ∈ l.map Prod.fst := by
  rcases hg : nlGet l k with _ | v
  · simp only [Option.isSome_none, Bool.false_eq_true, false_iff]
    exact (nlGet_eq_none_iff l k).1 hg
  · simp only [Option.isSome_some, true_iff]
    by_contra hmem
    rw [(nlGet_eq_none_iff l k).2 hmem] at hg
    cases hg

/-! ### incRefObj / decRefObj -/

theorem keys_incRefObj (objs : List (Nat × Nat)) (o : Nat) :
    (incRefObj objs o).map Prod.fst = objs.map Prod.fst := by
  induction objs with
  | nil => rfl
  | cons e rest ih =>
    simp only [incRefObj, List.map_cons] at ih ⊢
    rw [ih]
    by_cases he : e.1 = o <;> simp [he]

theorem nlGet_incRefObj_self : ∀ (objs : List (Nat × Nat)) (o rc : Nat),
    nlGet objs o = some rc → nlGet (incRefObj objs o) o = some (rc + 1)
  | [], o, rc, hg => by cases hg
  | (k, v) :: rest, o, rc, hg => by
    rw [nlGet] at hg
    show nlGet ((if k = o then (k, v + 1) else (k, v)) :: incRefObj rest o) o
      = some (rc + 1)
    by_cases he : k = o
    · rw [if_pos he] at hg ⊢
      cases hg
      rw [nlGet, if_pos he]
    · rw [if_neg he] at hg ⊢
      rw [nlGet, if_neg he]
      exact nlGet_incRefObj_self rest o rc hg

theorem nlGet_incRefObj_ne : ∀ (objs : List (Nat × Nat)) (o o2 : Nat),
    o2 ≠ o → nlGet (incRefObj objs o) o2 = nlGet objs o2
  | [], _, _, _ => rfl
  | (k, v) :: rest, o, o2, hne => by
    show nlGet ((if k = o then (k, v + 1) else (k, v)) :: incRefObj rest o) o2
      = nlGet ((k, v) :: rest) o2
    by_cases he : k = o
    · have h2 : ¬k = o2 := fun h => hne (h.symm.trans he)
      rw [if_pos he]
      rw [nlGet, if_neg h2]
      rw [nlGet, if_neg h2]
      exact nlGet_incRefObj_ne rest o o2 hne
    · rw [if_neg he]
      by_cases he2 : k = o2
      · rw [nlGet, if_pos he2]
        rw [nlGet, if_pos he2]
      · rw [nlGet, if_neg he2]
        rw [nlGet, if_neg he2]
        exact nlGet_incRefObj_ne rest o o2 hne

theorem isSome_nlGet_incRefObj (objs : List (Nat × Nat)) (o o2 : Nat) :
    (nlGet (incRefObj objs o2) o).isSome = (nlGet objs o).isSome := by
  have h1 := nlGet_isSome_iff (incRefObj objs o2) o
  have h2 := nlGet_isSome_iff objs o
  rw [keys_incRefObj] at h1
  by_cases hm : o ∈ objs.map Prod.fst
  · rw [h1.2 hm, h2.2 hm]
  · have e1 : (nlGet (incRefObj objs o2) o).isSome = false := by
      rw [← Bool.not_eq_true, h1]
      exact hm
    have e2 : (nlGet objs o).isSome = false := by
      rw [← Bool.not_eq_true, h2]
      exact hm
    rw [e1, e2]

theorem decRefObj_dead (objs : List (Nat × Nat)) (o : Nat)
    (h : nlGet objs o = none) : decRefObj objs o = objs := by
  rw [decRefObj, h]

theorem decRefObj_one (objs : List (Nat × Nat)) (o : Nat)
    (h : nlGet objs o = some 1) : decRefObj objs o = nlRemove objs o := by
  simp only [decRefObj, h]
  rw [if_pos trivial]

theorem decRefObj_ge2 (objs : List (Nat × Nat)) (o rc : Nat)
    (h : nlGet objs o = some rc) (h2 : 2 ≤ rc) :
    decRefObj objs o = nlPut objs o (rc - 1) := by
  simp only [decRefObj, h]
  rw [if_neg (by omega)]

theorem nlGet_decRefObj_ne (objs : List (Nat × Nat)) (o o2 : Nat)
    (hne : o2 ≠ o) : nlGet (decRefObj objs o) o2 = nlGet objs o2 := by
  rcases hg : nlGet objs o with _ | rc
  · rw [decRefObj_dead objs o hg]
  · simp only [decRefObj, hg]
    by_cases h1 : rc - 1 = 0
    · rw [if_pos h1]
      exact nlGet_nlRemove_ne objs o o2 hne
    · rw [if_neg h1]
      exact nlGet_nlPut_ne objs o o2 (rc - 1) hne

theorem nodup_keys_decRefObj (objs : List (Nat × Nat)) (o : Nat)
    (hnd : (objs.map Prod.fst).Nodup) :
    ((decRefObj objs o).map Prod.fst).Nodup := by
  rcases hg : nlGet objs o with _ | rc
  · rw [decRefObj_dead objs o hg]
    exact hnd
  · simp only [decRefObj, hg]
    by_cases h1 : rc - 1 = 0
    · rw [if_pos h1]
      exact ((nlRemove_sublist objs o).map Prod.fst).nodup hnd
    · rw [if_neg h1]
      rw [keys_nlPut_of_get objs o (rc - 1) rc hg]
      exact hnd

/-! ### refObjs / unrefObjs -/

theorem refObjs_hit (objs : List (Nat × Nat)) (hv : HandleVal) (o : Nat)
    (hs : hv.strong = true) (hp : hv.ptr = some o) :
    refObjs objs hv = incRefObj objs o := by
  rw [refObjs, hp, hs]

theorem refObjs_not_hit (objs : List (Nat × Nat)) (hv : HandleVal)
    (h : ¬(hv.strong = true ∧ ∃ o, hv.ptr = some o)) : refObjs objs hv = objs := by
  rw [refObjs]
  rcases hp : hv.ptr with _ | o
  · rcases hs : hv.strong <;> rfl
  · rcases hs : hv.strong
    · rfl
    · exact absurd ⟨hs, o, hp⟩ h

theorem unrefObjs_hit (objs : List (Nat × Nat)) (hv : HandleVal) (o : Nat)
    (hs : hv.strong = true) (hp : hv.ptr = some o) :
    unrefObjs objs hv = decRefObj objs o := by
  rw [unrefObjs, hp, hs]

theorem unrefObjs_not_hit (objs : List (Nat × Nat)) (hv : HandleVal)
    (h : ¬(hv.strong = true ∧ ∃ o, hv.ptr = some o)) : unrefObjs objs hv = objs := by
  rw [unrefObjs]
  rcases hp : hv.ptr with _ | o
  · rcases hs : hv.strong <;> rfl
  · rcases hs : hv.strong
    · rfl
    · exact absurd ⟨hs, o, hp⟩ h

theorem nlGet_refObjs_ne (objs : List (Nat × Nat)) (hv : HandleVal) (o : Nat)
    (h : ¬(hv.strong = true ∧ hv.ptr = some o)) :
    nlGet (refObjs objs hv) o = nlGet objs o := by
  rw [refObjs]
  rcases hp : hv.ptr with _ | o2
  · rcases hs : hv.strong <;> rfl
  · rcases hs : hv.strong
    · rfl
    · refine nlGet_incRefObj_ne objs o2 o fun he => h ⟨hs, ?_⟩
      rw [hp, he]

theorem nlGet_unrefObjs_ne (objs : List (Nat × Nat)) (hv : HandleVal) (o : Nat)
    (h : ¬(hv.strong = true ∧ hv.ptr = some o)) :
    nlGet (unrefObjs objs hv) o = nlGet objs o := by
  rw [unrefObjs]
  rcases hp : hv.ptr with _ | o2
  · rcases hs : hv.strong <;> rfl
  · rcases hs : hv.strong
    · rfl
    · refine nlGet_decRefObj_ne objs o2 o fun he => h ⟨hs, ?_⟩
      rw [hp, he]

theorem isSome_nlGet_refObjs (objs : List (Nat × Nat)) (hv : HandleVal) (o : Nat) :
    (nlGet (refObjs objs hv) o).isSome = (nlGet objs o).isSome := by
  rw [refObjs]
  rcases hp : hv.ptr with _ | o2
  · rcases hs : hv.strong <;> rfl
  · rcases hs : hv.strong
    · rfl
    · exact isSome_nlGet_incRefObj objs o o2

theorem nodup_keys_unrefObjs (objs : List (Nat × Nat)) (hv : HandleVal)
    (hnd : (objs.map Prod.fst).Nodup) :
    ((unrefObjs objs hv).map Prod.fst).Nodup := by
  rw [unrefObjs]
  rcases hp : hv.ptr with _ | o2
  · rcases hs : hv.strong <;> exact hnd
  · rcases hs : hv.strong
    · exact hnd
    · exact nodup_keys_decRefObj objs o2 hnd

theorem nodup_keys_refObjs (objs : List (Nat × Nat)) (hv : HandleVal)
    (hnd : (objs.map Prod.fst).Nodup) :
    ((refObjs objs hv).map Prod.fst).Nodup := by
  rw [refObjs]
  rcases hp : hv.ptr with _ | o2
  · rcases hs : hv.strong <;> exact hnd
  · rcases hs : hv.strong
    · exact hnd
    · rw [keys_incRefObj]
      exact hnd

/-! ### The strong-handle count and the per-handle primitives -/

theorem strongPred_true_of (hv : HandleVal) (o : Nat)
    (hs : hv.strong = true) (hp : hv.ptr = some o) :
    (hv.strong && hv.ptr == some o) = true := by
  rw [hs, hp]
  simp

theorem strongPred_false_of (hv : HandleVal) (o : Nat)
    (h : ¬(hv.strong = true ∧ hv.ptr = some o)) :
    (hv.strong && hv.ptr == some o) = false := by
  rcases hs : hv.strong
  · simp
  · simp only [Bool.true_and, beq_eq_false_iff_ne, ne_eq]
    exact fun hp => h ⟨hs, hp⟩

theorem strongPred_elim (hv : HandleVal) (o : Nat)
    (h : (hv.strong && hv.ptr == some o) = true) :
    hv.strong = true ∧ hv.ptr = some o := by
  rw [Bool.and_eq_true, beq_iff_eq] at h
  exact h

theorem strongCount_eq_zero_of_dead (s : RCState)
    (h4 : ∀ h hv, (h, hv) ∈ s.handles → hv.strong = true → ∀ o, hv.ptr = some o →
      (nlGet s.objs o).isSome = true)
    (o : Nat) (hdead : nlGet s.objs o = none) : strongCount s o = 0 := by
  rw [strongCount, List.countP_eq_zero]
  rintro ⟨h, hv⟩ hmem hp
  rcases strongPred_elim hv o hp with ⟨hs2, hp2⟩
  have := h4 h hv hmem hs2 o hp2
  rw [hdead] at this
  simp at this

theorem strongTargetAlive_elim (s : RCState) (hv : HandleVal)
    (hal : strongTargetAlive s hv = true) (hs : hv.strong = true) (o : Nat)
    (hp : hv.ptr = some o) : (nlGet s.objs o).isSome = true := by
  rw [strongTargetAlive, hp, hs] at hal
  exact hal

theorem unrefItem_fst_objs (s : RCState) (hv : HandleVal) :
    (unrefItem s hv).1.objs = unrefObjs s.objs hv := by
  rcases hp : hv.ptr with _ | o <;> rcases hs : hv.strong <;>
    simp [unrefItem, unrefObjs, hp, hs]

theorem unrefItem_fst_handles (s : RCState) (hv : HandleVal) :
    (unrefItem s hv).1.handles = s.handles := by
  rcases hp : hv.ptr with _ | o <;> rcases hs : hv.strong <;>
    simp [unrefItem, hp, hs]

theorem refItem_objs (s : RCState) (hv : HandleVal) :
    (refItem s hv).objs = refObjs s.objs hv := by
  rcases hp : hv.ptr with _ | o <;> rcases hs : hv.strong <;>
    simp [refItem, refObjs, hp, hs]

theorem refItem_handles (s : RCState) (hv : HandleVal) :
    (refItem s hv).handles = s.handles := by
  rcases hp : hv.ptr with _ | o <;> rcases hs : hv.strong <;>
    simp [refItem, hp, hs]

/-- The copy constructor's SetRef from a fresh (NULL, doRefCount = true)
handle reduces to a plain RefItem of the copied value. -/
theorem setRefVal_fresh (s : RCState) (p : Option Nat) (b : Bool) :
    setRefVal s ⟨none, true⟩ p b = (refItem s ⟨p, b⟩, ⟨p, b⟩) := by
  rcases p with _ | o
  · rcases b <;> simp [setRefVal, refItem, unrefItem]
  · simp [setRefVal, refItem, unrefItem]

/-- SetRef either leaves the world and handle untouched (same pointer, same
bit) or acts as: unreference the old handle value, re-point the handle,
reference the new value; in the latter case the dropped and acquired values
never strongly hit the same object, and a strongly acquired object is alive
after the unreference. -/
theorem setRefVal_canon (s : RCState) (hv : HandleVal) (item : Option Nat)
    (b : Bool) (hg : strongTargetAlive s ⟨item, b⟩ = true) :
    setRefVal s hv item b = (s, hv) ∨
    ((setRefVal s hv item b).1.objs
        = refObjs (unrefObjs s.objs hv) (setRefVal s hv item b).2 ∧
     (setRefVal s hv item b).1.handles = s.handles ∧
     (hv.strong = true → (setRefVal s hv item b).2.strong = true →
       ∀ o, hv.ptr = some o → (setRefVal s hv item b).2.ptr ≠ some o) ∧
     ((setRefVal s hv item b).2.strong = true → ∀ o,
       (setRefVal s hv item b).2.ptr = some o →
       (nlGet (unrefObjs s.objs hv) o).isSome = true)) := by
  by_cases hip : item = hv.ptr
  · by_cases hbs : b = hv.strong
    · left
      simp [setRefVal, hip, hbs]
    · right
      rcases hs : hv.strong
      · have hb : b = true := by
          cases b
          · exact absurd hs.symm hbs
          · rfl
        have hres : setRefVal s hv item b
            = (refItem s ⟨hv.ptr, true⟩, ⟨hv.ptr, true⟩) := by
          simp [setRefVal, hip, hb, hs]
        rw [hres]
        have hU : unrefObjs s.objs hv = s.objs :=
          unrefObjs_not_hit s.objs hv (fun hc => by rw [hs] at hc; cases hc.1)
        refine ⟨?_, refItem_handles s _, ?_, ?_⟩
        · rw [refItem_objs, hU]
        · intro hs2 _ o _ _
          simp at hs2
        · intro _ o hpo
          rw [hU]
          have hpo2 : hv.ptr = some o := hpo
          rw [hip] at hg
          rw [hb] at hg
          exact strongTargetAlive_elim s ⟨hv.ptr, true⟩ hg rfl o hpo2
      · have hb : b = false := by
          cases b
          · rfl
          · exact absurd hs.symm hbs
        have hres : setRefVal s hv item b = ((unrefItem s hv).1, ⟨none, false⟩) := by
          rcases hp : hv.ptr with _ | o
          · simp [setRefVal, hip, hb, hs, unrefItem, hp]
          · simp [setRefVal, hip, hb, hs, unrefItem, hp]
        rw [hres]
        refine ⟨?_, unrefItem_fst_handles s hv, ?_, ?_⟩
        · rw [unrefItem_fst_objs]
          rw [refObjs_not_hit _ ⟨none, false⟩ (fun hc => by cases hc.1)]
        · intro _ hs2 o _ _
          cases hs2
        · intro hs2 o _
          cases hs2
  · right
    have hres : setRefVal s hv item b
        = (refItem (unrefItem s hv).1 ⟨item, b⟩, ⟨item, b⟩) := by
      simp [setRefVal, hip]
    rw [hres]
    refine ⟨?_, ?_, ?_, ?_⟩
    · rw [refItem_objs, unrefItem_fst_objs]
    · rw [refItem_handles, unrefItem_fst_handles]
    · intro _ _ o hpo hio
      have hio2 : item = some o := hio
      exact hip (hio2.trans hpo.symm)
    · intro hb2 o hio
      have hio2 : item = some o := hio
      have hb3 : b = true := hb2
      rw [hio2, hb3] at hg
      have halive0 : (nlGet s.objs o).isSome = true :=
        strongTargetAlive_elim s ⟨some o, true⟩ hg rfl o rfl
      have hne : ¬(hv.strong = true ∧ hv.ptr = some o) := by
        rintro ⟨_, hpe⟩
        exact hip (hio2.trans hpe.symm)
      rw [nlGet_unrefObjs_ne s.objs hv o hne]
      exact halive0

/-! ### Counting the strong handles across a slot update -/

theorem strongCount_mk (objs : List (Nat × Nat))
    (handles : List (Nat × HandleVal)) (o : Nat) :
    strongCount ⟨objs, handles⟩ o
      = handles.countP (fun e => e.2.strong && e.2.ptr == some o) := rfl

theorem countP_nlPut_tf {α : Type} (p : Nat × α → Bool) (l : List (Nat × α))
    (k : Nat) (v w : α) (hget : nlGet l k = some w)
    (hw : p (k, w) = true) (hv : p (k, v) = false) :
    (nlPut l k v).countP p + 1 = l.countP p := by
  have h := countP_nlPut p l k v w hget
  rw [hw, hv] at h
  simpa using h

theorem countP_nlPut_ft {α : Type} (p : Nat × α → Bool) (l : List (Nat × α))
    (k : Nat) (v w : α) (hget : nlGet l k = some w)
    (hw : p (k, w) = false) (hv : p (k, v) = true) :
    (nlPut l k v).countP p = l.countP p + 1 := by
  have h := countP_nlPut p l k v w hget
  rw [hw, hv] at h
  simpa using h

theorem countP_nlPut_ff {α : Type} (p : Nat × α → Bool) (l : List (Nat × α))
    (k : Nat) (v w : α) (hget : nlGet l k = some w)
    (hw : p (k, w) = false) (hv : p (k, v) = false) :
    (nlPut l k v).countP p = l.countP p := by
  have h := countP_nlPut p l k v w hget
  rw [hw, hv] at h
  simpa using h

theorem countP_nlRemove_t {α : Type} (p : Nat × α → Bool) (l : List (Nat × α))
    (k : Nat) (w : α) (hget : nlGet l k = some w) (hw : p (k, w) = true) :
    (nlRemove l k).countP p + 1 = l.countP p := by
  have h := countP_nlRemove p l k w hget
  rw [hw] at h
  simpa using h

theorem countP_nlRemove_f {α : Type} (p : Nat × α → Bool) (l : List (Nat × α))
    (k : Nat) (w : α) (hget : nlGet l k = some w) (hw : p (k, w) = false) :
    (nlRemove l k).countP p = l.countP p := by
  have h := countP_nlRemove p l k w hget
  rw [hw] at h
  simpa using h

/-! ### Invariant preservation by the slot-level transitions -/

/-- Replacing the value of an existing handle slot, with the object table
adjusted by unreferencing the old value and referencing the new one,
preserves the refcount invariant (the shape shared by SetRef-based
assignment and copy-into-existing-handle operations). -/
theorem slotUpdate_inv (s : RCState) (k : Nat) (old new : HandleVal)
    (hinv : rcInv s) (hget : nlGet s.handles k = some old)
    (hdiff : old.strong = true → new.strong = true →
      ∀ o, old.ptr = some o → new.ptr ≠ some o)
    (halive : new.strong = true → ∀ o, new.ptr = some o →
      (nlGet (unrefObjs s.objs old) o).isSome = true) :
    rcInv ⟨refObjs (unrefObjs s.objs old) new, nlPut s.handles k new⟩ := by
  obtain ⟨h1, h2, h3, h4⟩ := hinv
  have hmemOld : (k, old) ∈ s.handles := mem_of_nlGet _ _ _ hget
  have hnd2 : ((refObjs (unrefObjs s.objs old) new).map Prod.fst).Nodup :=
    nodup_keys_refObjs _ _ (nodup_keys_unrefObjs _ _ h1)
  have hk2 : ((nlPut s.handles k new).map Prod.fst) = s.handles.map Prod.fst :=
    keys_nlPut_of_get _ _ _ _ hget
  refine ⟨hnd2, ?_, ?_, ?_⟩
  · rw [hk2]
    exact h2
  · intro o rc2 hmem2
    have hget2 : nlGet (refObjs (unrefObjs s.objs old) new) o = some rc2 :=
      nlGet_of_mem _ _ _ hnd2 hmem2
    rw [strongCount_mk]
    by_cases hOld : old.strong = true ∧ old.ptr = some o
    · by_cases hNew : new.strong = true ∧ new.ptr = some o
      · exact absurd hNew.2 (hdiff hOld.1 hNew.1 o hOld.2)
      · have haliveO : (nlGet s.objs o).isSome = true :=
          h4 k old hmemOld hOld.1 o hOld.2
        rcases hrc : nlGet s.objs o with _ | rcA
        · rw [hrc] at haliveO
          simp at haliveO
        · have hrcA : rcA = strongCount s o := h3 o rcA (mem_of_nlGet _ _ _ hrc)
          have hobj2 : nlGet (refObjs (unrefObjs s.objs old) new) o
              = nlGet (decRefObj s.objs o) o := by
            rw [nlGet_refObjs_ne _ _ _ hNew,
              unrefObjs_hit s.objs old o hOld.1 hOld.2]
          by_cases h1A : rcA = 1
          · rw [hobj2, decRefObj_one s.objs o (by rw [hrc, h1A]),
              nlGet_nlRemove_self s.objs o h1] at hget2
            cases hget2
          · have hpos : 0 < strongCount s o := by
              rw [strongCount]
              exact List.countP_pos_iff.2 ⟨(k, old), hmemOld,
                strongPred_true_of old o hOld.1 hOld.2⟩
            rw [strongCount] at hrcA hpos
            have hge2 : 2 ≤ rcA := by omega
            rw [hobj2, decRefObj_ge2 s.objs o rcA hrc hge2,
              nlGet_nlPut_self] at hget2
            injection hget2 with h5
            subst h5
            have hcnt2 := countP_nlPut_tf
              (fun e => e.2.strong && e.2.ptr == some o) s.handles k new old
              hget (strongPred_true_of old o hOld.1 hOld.2)
              (strongPred_false_of new o hNew)
            omega
    · by_cases hNew : new.strong = true ∧ new.ptr = some o
      · have haliveU := halive hNew.1 o hNew.2
        have hobjU : nlGet (unrefObjs s.objs old) o = nlGet s.objs o :=
          nlGet_unrefObjs_ne _ _ _ hOld
        rcases hrc : nlGet s.objs o with _ | rcA
        · rw [hobjU, hrc] at haliveU
          simp at haliveU
        · have hrcA : rcA = strongCount s o := h3 o rcA (mem_of_nlGet _ _ _ hrc)
          have hobj2 : nlGet (refObjs (unrefObjs s.objs old) new) o
              = some (rcA + 1) := by
            rw [refObjs_hit _ new o hNew.1 hNew.2]
            exact nlGet_incRefObj_self _ o rcA (by rw [hobjU, hrc])
          rw [hobj2] at hget2
          injection hget2 with h5
          subst h5
          have hcnt2 := countP_nlPut_ft
            (fun e => e.2.strong && e.2.ptr == some o) s.handles k new old
            hget (strongPred_false_of old o hOld)
            (strongPred_true_of new o hNew.1 hNew.2)
          rw [strongCount] at hrcA
          omega
      · have hobj2 : nlGet (refObjs (unrefObjs s.objs old) new) o
            = nlGet s.objs o := by
          rw [nlGet_refObjs_ne _ _ _ hNew, nlGet_unrefObjs_ne _ _ _ hOld]
        rw [hobj2] at hget2
        have hrc2 : rc2 = strongCount s o := h3 o rc2 (mem_of_nlGet _ _ _ hget2)
        have hcnt2 := countP_nlPut_ff
          (fun e => e.2.strong && e.2.ptr == some o) s.handles k new old
          hget (strongPred_false_of old o hOld)
          (strongPred_false_of new o hNew)
        rw [strongCount] at hrc2
        omega
  · intro h hv hmemH hs o hp
    rw [isSome_nlGet_refObjs]
    rcases mem_nlPut_of_nodup s.handles k new (h, hv) h2 hmemH with hcase | hcase
    · injection hcase with hEq1 hEq2
      subst hEq2
      exact halive hs o hp
    · have haliveO : (nlGet s.objs o).isSome = true := h4 h hv hcase.1 hs o hp
      by_cases hOld : old.strong = true ∧ old.ptr = some o
      · rcases hrc : nlGet s.objs o with _ | rcA
        · rw [hrc] at haliveO
          simp at haliveO
        · have hrcA : rcA = strongCount s o := h3 o rcA (mem_of_nlGet _ _ _ hrc)
          have hne2 : (k, old) ≠ (h, hv) := by
            intro he
            injection he with he1 he2
            exact hcase.2 he1.symm
          have hge2 : 2 ≤ strongCount s o := by
            rw [strongCount]
            exact two_le_countP _ s.handles (k, old) (h, hv) hmemOld hcase.1
              hne2 (strongPred_true_of old o hOld.1 hOld.2)
              (strongPred_true_of hv o hs hp)
          rw [unrefObjs_hit s.objs old o hOld.1 hOld.2,
            decRefObj_ge2 s.objs o rcA hrc (by omega), nlGet_nlPut_self]
          rfl
      · rw [nlGet_unrefObjs_ne _ _ _ hOld]
        exact haliveO

/-- Destroying a handle (removing its slot, unreferencing its value)
preserves the refcount invariant. -/
theorem slotRemove_inv (s : RCState) (k : Nat) (old : HandleVal)
    (hinv : rcInv s) (hget : nlGet s.handles k = some old) :
    rcInv ⟨unrefObjs s.objs old, nlRemove s.handles k⟩ := by
  obtain ⟨h1, h2, h3, h4⟩ := hinv
  have hmemOld : (k, old) ∈ s.handles := mem_of_nlGet _ _ _ hget
  have hnd2 : ((unrefObjs s.objs old).map Prod.fst).Nodup :=
    nodup_keys_unrefObjs _ _ h1
  refine ⟨hnd2, ?_, ?_, ?_⟩
  · exact ((nlRemove_sublist s.handles k).map Prod.fst).nodup h2
  · intro o rc2 hmem2
    have hget2 : nlGet (unrefObjs s.objs old) o = some rc2 :=
      nlGet_of_mem _ _ _ hnd2 hmem2
    rw [strongCount_mk]
    by_cases hOld : old.strong = true ∧ old.ptr = some o
    · have haliveO : (nlGet s.objs o).isSome = true :=
        h4 k old hmemOld hOld.1 o hOld.2
      rcases hrc : nlGet s.objs o with _ | rcA
      · rw [hrc] at haliveO
        simp at haliveO
      · have hrcA : rcA = strongCount s o := h3 o rcA (mem_of_nlGet _ _ _ hrc)
        have hobj2 : nlGet (unrefObjs s.objs old) o
            = nlGet (decRefObj s.objs o) o := by
          rw [unrefObjs_hit s.objs old o hOld.1 hOld.2]
        by_cases h1A : rcA = 1
        · rw [hobj2, decRefObj_one s.objs o (by rw [hrc, h1A]),
            nlGet_nlRemove_self s.objs o h1] at hget2
          cases hget2
        · have hpos : 0 < strongCount s o := by
            rw [strongCount]
            exact List.countP_pos_iff.2 ⟨(k, old), hmemOld,
              strongPred_true_of old o hOld.1 hOld.2⟩
          rw [strongCount] at hrcA hpos
          have hge2 : 2 ≤ rcA := by omega
          rw [hobj2, decRefObj_ge2 s.objs o rcA hrc hge2,
            nlGet_nlPut_self] at hget2
          injection hget2 with h5
          subst h5
          have hcnt2 := countP_nlRemove_t
            (fun e => e.2.strong && e.2.ptr == some o) s.handles k old
            hget (strongPred_true_of old o hOld.1 hOld.2)
          omega
    · have hobj2 : nlGet (unrefObjs s.objs old) o = nlGet s.objs o :=
        nlGet_unrefObjs_ne _ _ _ hOld
      rw [hobj2] at hget2
      have hrc2 : rc2 = strongCount s o := h3 o rc2 (mem_of_nlGet _ _ _ hget2)
      have hcnt2 := countP_nlRemove_f
        (fun e => e.2.strong && e.2.ptr == some o) s.handles k old
        hget (strongPred_false_of old o hOld)
      rw [strongCount] at hrc2
      omega
  · intro h hv hmemH hs o hp
    rcases mem_nlRemove_of_nodup s.handles k (h, hv) h2 hmemH with ⟨hmem0, hne0⟩
    have haliveO : (nlGet s.objs o).isSome = true := h4 h hv hmem0 hs o hp
    by_cases hOld : old.strong = true ∧ old.ptr = some o
    · rcases hrc : nlGet s.objs o with _ | rcA
      · rw [hrc] at haliveO
        simp at haliveO
      · have hrcA : rcA = strongCount s o := h3 o rcA (mem_of_nlGet _ _ _ hrc)
        have hne2 : (k, old) ≠ (h, hv) := by
          intro he
          injection he with he1 he2
          exact hne0 he1.symm
        have hge2 : 2 ≤ strongCount s o := by
          rw [strongCount]
          exact two_le_countP _ s.handles (k, old) (h, hv) hmemOld hmem0 hne2
            (strongPred_true_of old o hOld.1 hOld.2)
            (strongPred_true_of hv o hs hp)
        rw [unrefObjs_hit s.objs old o hOld.1 hOld.2,
          decRefObj_ge2 s.objs o rcA hrc (by omega), nlGet_nlPut_self]
        rfl
    · rw [nlGet_unrefObjs_ne _ _ _ hOld]
      exact haliveO

/-- Allocating a fresh RefCountable (refcount 0, no handles touched)
preserves the refcount invariant. -/
theorem addObject_inv (s : RCState) (o2 : Nat) (hinv : rcInv s)
    (hfresh : nlGet s.objs o2 = none) :
    rcInv ⟨s.objs ++ [(o2, 0)], s.handles⟩ := by
  obtain ⟨h1, h2, h3, h4⟩ := hinv
  refine ⟨?_, h2, ?_, ?_⟩
  · simp only [List.map_append, List.map_cons, List.map_nil]
    refine List.Nodup.append h1 (List.nodup_singleton _) ?_
    intro a ha hb
    rw [List.mem_singleton] at hb
    subst hb
    exact (nlGet_eq_none_iff _ _).1 hfresh ha
  · intro o rc hmem
    rw [strongCount_mk]
    rcases List.mem_append.1 hmem with hm0 | hm0
    · have := h3 o rc hm0
      rw [strongCount] at this
      exact this
    · rw [List.mem_singleton] at hm0
      injection hm0 with hA hB
      subst hA
      subst hB
      have := strongCount_eq_zero_of_dead s h4 o hfresh
      rw [strongCount] at this
      exact this.symm
  · intro h hv hm hs o hp
    have := h4 h hv hm hs o hp
    rcases hg : nlGet s.objs o with _ | v
    · rw [hg] at this
      simp at this
    · rw [nlGet_append_some s.objs [(o2, 0)] o v hg]
      rfl

/-- Constructing a fresh handle (appending its slot, referencing its value)
preserves the refcount invariant. -/
theorem addHandle_inv (s : RCState) (h0 : Nat) (hv : HandleVal)
    (hinv : rcInv s) (hfresh : nlGet s.handles h0 = none)
    (hAlive : strongTargetAlive s hv = true) :
    rcInv ⟨refObjs s.objs hv, s.handles ++ [(h0, hv)]⟩ := by
  obtain ⟨h1, h2, h3, h4⟩ := hinv
  have hnd2 := nodup_keys_refObjs s.objs hv h1
  refine ⟨hnd2, ?_, ?_, ?_⟩
  · simp only [List.map_append, List.map_cons, List.map_nil]
    refine List.Nodup.append h2 (List.nodup_singleton _) ?_
    intro a ha hb
    rw [List.mem_singleton] at hb
    subst hb
    exact (nlGet_eq_none_iff _ _).1 hfresh ha
  · intro o rc hmem
    have hget2 : nlGet (refObjs s.objs hv) o = some rc :=
      nlGet_of_mem _ _ _ hnd2 hmem
    rw [strongCount_mk, List.countP_append]
    by_cases hHit : hv.strong = true ∧ hv.ptr = some o
    · have haliveO : (nlGet s.objs o).isSome = true :=
        strongTargetAlive_elim s hv hAlive hHit.1 o hHit.2
      rcases hrc : nlGet s.objs o with _ | rcA
      · rw [hrc] at haliveO
        simp at haliveO
      · have hrcA : rcA = strongCount s o := h3 o rcA (mem_of_nlGet _ _ _ hrc)
        rw [refObjs_hit _ hv o hHit.1 hHit.2,
          nlGet_incRefObj_self _ o rcA hrc] at hget2
        injection hget2 with h5
        subst h5
        have hone : List.countP (fun e => e.2.strong && e.2.ptr == some o)
            [(h0, hv)] = 1 := by
          simp [List.countP_cons, strongPred_true_of hv o hHit.1 hHit.2]
        rw [strongCount] at hrcA
        omega
    · have hzero : List.countP (fun e => e.2.strong && e.2.ptr == some o)
          [(h0, hv)] = 0 := by
        simp [List.countP_cons, strongPred_false_of hv o hHit]
      rw [nlGet_refObjs_ne _ _ _ hHit] at hget2
      have hrc2 : rc = strongCount s o := h3 o rc (mem_of_nlGet _ _ _ hget2)
      rw [strongCount] at hrc2
      omega
  · intro h hv2 hm hs o hp
    rw [isSome_nlGet_refObjs]
    rcases List.mem_append.1 hm with hm0 | hm0
    · exact h4 h hv2 hm0 hs o hp
    · rw [List.mem_singleton] at hm0
      injection hm0 with hA hB
      subst hB
      exact strongTargetAlive_elim s hv2 hAlive hs o hp

/-! ### Deletion happens exactly on the last strong release -/

theorem addObject_char (s : RCState) (o2 : Nat) (o : Nat) :
    ((nlGet s.objs o).isSome = true ∧ nlGet (s.objs ++ [(o2, 0)]) o = none) ↔
    (strongCount s o = 1 ∧
     strongCount ⟨s.objs ++ [(o2, 0)], s.handles⟩ o = 0) := by
  constructor
  · rintro ⟨ha, hd⟩
    exfalso
    rcases hg : nlGet s.objs o with _ | v
    · rw [hg] at ha
      simp at ha
    · rw [nlGet_append_some s.objs [(o2, 0)] o v hg] at hd
      cases hd
  · rintro ⟨h1c, h0c⟩
    exfalso
    rw [strongCount_mk] at h0c
    rw [strongCount] at h1c
    omega

theorem addHandle_char (s : RCState) (h0 : Nat) (hv : HandleVal) (o : Nat) :
    ((nlGet s.objs o).isSome = true ∧ nlGet (refObjs s.objs hv) o = none) ↔
    (strongCount s o = 1 ∧
     strongCount ⟨refObjs s.objs hv, s.handles ++ [(h0, hv)]⟩ o = 0) := by
  constructor
  · rintro ⟨ha, hd⟩
    exfalso
    have := isSome_nlGet_refObjs s.objs hv o
    rw [hd, ha] at this
    simp at this
  · rintro ⟨h1c, h0c⟩
    exfalso
    rw [strongCount_mk, List.countP_append] at h0c
    rw [strongCount] at h1c
    omega

theorem slotUpdate_char (s : RCState) (k : Nat) (old new : HandleVal)
    (hinv : rcInv s) (hget : nlGet s.handles k = some old)
    (hdiff : old.strong = true → new.strong = true →
      ∀ o, old.ptr = some o → new.ptr ≠ some o)
    (halive : new.strong = true → ∀ o, new.ptr = some o →
      (nlGet (unrefObjs s.objs old) o).isSome = true) (o : Nat) :
    ((nlGet s.objs o).isSome = true ∧
     nlGet (refObjs (unrefObjs s.objs old) new) o = none) ↔
    (strongCount s o = 1 ∧
     strongCount ⟨refObjs (unrefObjs s.objs old) new,
       nlPut s.handles k new⟩ o = 0) := by
  obtain ⟨h1, h2, h3, h4⟩ := hinv
  have hmemOld : (k, old) ∈ s.handles := mem_of_nlGet _ _ _ hget
  have hM1 : ((nlGet s.objs o).isSome = true ∧
      nlGet (refObjs (unrefObjs s.objs old) new) o = none) ↔
      (old.strong = true ∧ old.ptr = some o ∧ strongCount s o = 1) := by
    constructor
    · rintro ⟨ha, hd⟩
      by_cases hOld : old.strong = true ∧ old.ptr = some o
      · rcases hrc : nlGet s.objs o with _ | rcA
        · rw [hrc] at ha
          simp at ha
        · have hrcA : rcA = strongCount s o := h3 o rcA (mem_of_nlGet _ _ _ hrc)
          have hNew : ¬(new.strong = true ∧ new.ptr = some o) := by
            rintro ⟨hns, hnp⟩
            exact hdiff hOld.1 hns o hOld.2 hnp
          rw [nlGet_refObjs_ne _ _ _ hNew,
            unrefObjs_hit s.objs old o hOld.1 hOld.2] at hd
          by_cases h1A : rcA = 1
          · exact ⟨hOld.1, hOld.2, by rw [← hrcA, h1A]⟩
          · exfalso
            have hpos : 0 < strongCount s o := by
              rw [strongCount]
              exact List.countP_pos_iff.2 ⟨(k, old), hmemOld,
                strongPred_true_of old o hOld.1 hOld.2⟩
            rw [← hrcA] at hpos
            have hge2 : 2 ≤ rcA := by omega
            rw [decRefObj_ge2 s.objs o rcA hrc hge2, nlGet_nlPut_self] at hd
            cases hd
      · exfalso
        by_cases hNew : new.strong = true ∧ new.ptr = some o
        · have haliveU := halive hNew.1 o hNew.2
          rcases hrcU : nlGet (unrefObjs s.objs old) o with _ | rcA
          · rw [hrcU] at haliveU
            simp at haliveU
          · rw [refObjs_hit _ new o hNew.1 hNew.2,
              nlGet_incRefObj_self _ o rcA hrcU] at hd
            cases hd
        · rw [nlGet_refObjs_ne _ _ _ hNew, nlGet_unrefObjs_ne _ _ _ hOld] at hd
          rw [hd] at ha
          simp at ha
    · rintro ⟨hos, hop, hsc⟩
      have hNew : ¬(new.strong = true ∧ new.ptr = some o) := by
        rintro ⟨hns, hnp⟩
        exact hdiff hos hns o hop hnp
      have haliveO := h4 k old hmemOld hos o hop
      refine ⟨haliveO, ?_⟩
      rcases hrc : nlGet s.objs o with _ | rcA
      · rw [hrc] at haliveO
        simp at haliveO
      · have hrcA : rcA = strongCount s o := h3 o rcA (mem_of_nlGet _ _ _ hrc)
        rw [nlGet_refObjs_ne _ _ _ hNew, unrefObjs_hit s.objs old o hos hop,
          decRefObj_one s.objs o (by rw [hrc, hrcA, hsc]),
          nlGet_nlRemove_self s.objs o h1]
  have hM2 : (strongCount s o = 1 ∧
      strongCount ⟨refObjs (unrefObjs s.objs old) new,
        nlPut s.handles k new⟩ o = 0) ↔
      (old.strong = true ∧ old.ptr = some o ∧ strongCount s o = 1) := by
    constructor
    · rintro ⟨h1c, h0c⟩
      by_cases hOld : old.strong = true ∧ old.ptr = some o
      · exact ⟨hOld.1, hOld.2, h1c⟩
      · exfalso
        rw [strongCount_mk] at h0c
        rw [strongCount] at h1c
        by_cases hNew : new.strong = true ∧ new.ptr = some o
        · have hcnt2 := countP_nlPut_ft
            (fun e => e.2.strong && e.2.ptr == some o) s.handles k new old
            hget (strongPred_false_of old o hOld)
            (strongPred_true_of new o hNew.1 hNew.2)
          omega
        · have hcnt2 := countP_nlPut_ff
            (fun e => e.2.strong && e.2.ptr == some o) s.handles k new old
            hget (strongPred_false_of old o hOld)
            (strongPred_false_of new o hNew)
          omega
    · rintro ⟨hos, hop, hsc⟩
      refine ⟨hsc, ?_⟩
      rw [strongCount_mk]
      have hNew : ¬(new.strong = true ∧ new.ptr = some o) := by
        rintro ⟨hns, hnp⟩
        exact hdiff hos hns o hop hnp
      have hcnt2 := countP_nlPut_tf
        (fun e => e.2.strong && e.2.ptr == some o) s.handles k new old hget
        (strongPred_true_of old o hos hop) (strongPred_false_of new o hNew)
      rw [strongCount] at hsc
      omega
  rw [hM1, hM2]

theorem slotRemove_char (s : RCState) (k : Nat) (old : HandleVal)
    (hinv : rcInv s) (hget : nlGet s.handles k = some old) (o : Nat) :
    ((nlGet s.objs o).isSome = true ∧
     nlGet (unrefObjs s.objs old) o = none) ↔
    (strongCount s o = 1 ∧
     strongCount ⟨unrefObjs s.objs old, nlRemove s.handles k⟩ o = 0) := by
  obtain ⟨h1, h2, h3, h4⟩ := hinv
  have hmemOld : (k, old) ∈ s.handles := mem_of_nlGet _ _ _ hget
  have hM1 : ((nlGet s.objs o).isSome = true ∧
      nlGet (unrefObjs s.objs old) o = none) ↔
      (old.strong = true ∧ old.ptr = some o ∧ strongCount s o = 1) := by
    constructor
    · rintro ⟨ha, hd⟩
      by_cases hOld : old.strong = true ∧ old.ptr = some o
      · rcases hrc : nlGet s.objs o with _ | rcA
        · rw [hrc] at ha
          simp at ha
        · have hrcA : rcA = strongCount s o := h3 o rcA (mem_of_nlGet _ _ _ hrc)
          rw [unrefObjs_hit s.objs old o hOld.1 hOld.2] at hd
          by_cases h1A : rcA = 1
          · exact ⟨hOld.1, hOld.2, by rw [← hrcA, h1A]⟩
          · exfalso
            have hpos : 0 < strongCount s o := by
              rw [strongCount]
              exact List.countP_pos_iff.2 ⟨(k, old), hmemOld,
                strongPred_true_of old o hOld.1 hOld.2⟩
            rw [← hrcA] at hpos
            have hge2 : 2 ≤ rcA := by omega
            rw [decRefObj_ge2 s.objs o rcA hrc hge2, nlGet_nlPut_self] at hd
            cases hd
      · exfalso
        rw [nlGet_unrefObjs_ne _ _ _ hOld] at hd
        rw [hd] at ha
        simp at ha
    · rintro ⟨hos, hop, hsc⟩
      have haliveO := h4 k old hmemOld hos o hop
      refine ⟨haliveO, ?_⟩
      rcases hrc : nlGet s.objs o with _ | rcA
      · rw [hrc] at haliveO
        simp at haliveO
      · have hrcA : rcA = strongCount s o := h3 o rcA (mem_of_nlGet _ _ _ hrc)
        rw [unrefObjs_hit s.objs old o hos hop,
          decRefObj_one s.objs o (by rw [hrc, hrcA, hsc]),
          nlGet_nlRemove_self s.objs o h1]
  have hM2 : (strongCount s o = 1 ∧
      strongCount ⟨unrefObjs s.objs old, nlRemove s.handles k⟩ o = 0) ↔
      (old.strong = true ∧ old.ptr = some o ∧ strongCount s o = 1) := by
    constructor
    · rintro ⟨h1c, h0c⟩
      by_cases hOld : old.strong = true ∧ old.ptr = some o
      · exact ⟨hOld.1, hOld.2, h1c⟩
      · exfalso
        rw [strongCount_mk] at h0c
        rw [strongCount] at h1c
        have hcnt2 := countP_nlRemove_f
          (fun e => e.2.strong && e.2.ptr == some o) s.handles k old hget
          (strongPred_false_of old o hOld)
        omega
    · rintro ⟨hos, hop, hsc⟩
      refine ⟨hsc, ?_⟩
      rw [strongCount_mk]
      have hcnt2 := countP_nlRemove_t
        (fun e => e.2.strong && e.2.ptr == some o) s.handles k old hget
        (strongPred_true_of old o hos hop)
      rw [strongCount] at hsc
      omega
  rw [hM1, hM2]

/-! ### The invariant along every legal rcStep -/

theorem rcStep_inv (s : RCState) (op : RCOp) (s2 : RCState)
    (hinv : rcInv s) (hstep : rcStep s op = some s2) : rcInv s2 := by
  cases op with
  | newObject o0 =>
    simp only [rcStep] at hstep
    rcases hg : nlGet s.objs o0 with _ | rc
    · simp only [hg, Option.isSome_none, Bool.false_eq_true, if_false] at hstep
      injection hstep with h5
      subst h5
      exact addObject_inv s o0 hinv hg
    · simp only [hg] at hstep
      simp at hstep
  | newHandle h0 oid strong =>
    simp only [rcStep] at hstep
    rcases hgh : nlGet s.handles h0 with _ | hv0
    · simp only [hgh, Option.isSome_none, Bool.false_eq_true, if_false] at hstep
      by_cases hal : strongTargetAlive s { ptr := oid, strong := strong } = true
      · rw [if_pos hal] at hstep
        injection hstep with h5
        subst h5
        show rcInv ⟨(refItem s ⟨oid, strong⟩).objs,
          s.handles ++ [(h0, ⟨oid, strong⟩)]⟩
        rw [refItem_objs]
        exact addHandle_inv s h0 ⟨oid, strong⟩ hinv hgh hal
      · rw [if_neg hal] at hstep
        cases hstep
    · simp only [hgh] at hstep
      simp at hstep
  | copyHandle h0 src =>
    simp only [rcStep] at hstep
    rcases hgh : nlGet s.handles h0 with _ | hv0
    · simp only [hgh, Option.isSome_none, Bool.false_eq_true, if_false] at hstep
      rcases hgs : nlGet s.handles src with _ | sv
      · simp only [hgs] at hstep
        cases hstep
      · simp only [hgs] at hstep
        by_cases hal : strongTargetAlive s sv = true
        · rw [if_pos hal] at hstep
          rw [setRefVal_fresh] at hstep
          simp only [refItem_handles] at hstep
          injection hstep with h5
          subst h5
          show rcInv ⟨(refItem s ⟨sv.ptr, sv.strong⟩).objs,
            s.handles ++ [(h0, ⟨sv.ptr, sv.strong⟩)]⟩
          rw [refItem_objs]
          refine addHandle_inv s h0 ⟨sv.ptr, sv.strong⟩ hinv hgh ?_
          exact hal
        · rw [if_neg hal] at hstep
          cases hstep
    · simp only [hgh] at hstep
      simp at hstep
  | assignHandle dst src =>
    simp only [rcStep] at hstep
    rcases hgd : nlGet s.handles dst with _ | dv
    · simp only [hgd] at hstep
      cases hstep
    · simp only [hgd] at hstep
      rcases hgs : nlGet s.handles src with _ | sv
      · simp only [hgs] at hstep
        cases hstep
      · simp only [hgs] at hstep
        by_cases hal : strongTargetAlive s sv = true
        · rw [if_pos hal] at hstep
          injection hstep with h5
          subst h5
          have hal2 : strongTargetAlive s ⟨sv.ptr, sv.strong⟩ = true := hal
          rcases setRefVal_canon s dv sv.ptr sv.strong hal2 with hcan |
            ⟨ho, hh, hdiff2, halive2⟩
          · rw [hcan]
            show rcInv ⟨s.objs, nlPut s.handles dst dv⟩
            rw [nlPut_self s.handles dst dv hgd]
            exact hinv
          · show rcInv ⟨(setRefVal s dv sv.ptr sv.strong).1.objs,
              nlPut (setRefVal s dv sv.ptr sv.strong).1.handles dst
                (setRefVal s dv sv.ptr sv.strong).2⟩
            rw [ho, hh]
            exact slotUpdate_inv s dst dv _ hinv hgd hdiff2 halive2
        · rw [if_neg hal] at hstep
          cases hstep
  | setRefOp h0 oid strong =>
    simp only [rcStep] at hstep
    rcases hgh : nlGet s.handles h0 with _ | hv0
    · simp only [hgh] at hstep
      cases hstep
    · simp only [hgh] at hstep
      by_cases hal : strongTargetAlive s { ptr := oid, strong := strong } = true
      · rw [if_pos hal] at hstep
        injection hstep with h5
        subst h5
        rcases setRefVal_canon s hv0 oid strong hal with hcan |
          ⟨ho, hh, hdiff2, halive2⟩
        · rw [hcan]
          show rcInv ⟨s.objs, nlPut s.handles h0 hv0⟩
          rw [nlPut_self s.handles h0 hv0 hgh]
          exact hinv
        · show rcInv ⟨(setRefVal s hv0 oid strong).1.objs,
            nlPut (setRefVal s hv0 oid strong).1.handles h0
              (setRefVal s hv0 oid strong).2⟩
          rw [ho, hh]
          exact slotUpdate_inv s h0 hv0 _ hinv hgh hdiff2 halive2
      · rw [if_neg hal] at hstep
        cases hstep
  | destroyHandle h0 =>
    simp only [rcStep] at hstep
    rcases hgh : nlGet s.handles h0 with _ | hv0
    · simp only [hgh] at hstep
      cases hstep
    · simp only [hgh] at hstep
      injection hstep with h5
      subst h5
      show rcInv ⟨(unrefItem s hv0).1.objs,
        nlRemove (unrefItem s hv0).1.handles h0⟩
      rw [unrefItem_fst_objs, unrefItem_fst_handles]
      exact slotRemove_inv s h0 hv0 hinv hgh

/-- Deletion characterization along one legal step: an object leaves the
object table exactly when its strong-handle count drops from one to
zero. -/
theorem rcStep_char (s : RCState) (op : RCOp) (s2 : RCState)
    (hinv : rcInv s) (hstep : rcStep s op = some s2) (o : Nat) :
    ((nlGet s.objs o).isSome = true ∧ nlGet s2.objs o = none) ↔
    (strongCount s o = 1 ∧ strongCount s2 o = 0) := by
  cases op with
  | newObject o0 =>
    simp only [rcStep] at hstep
    rcases hg : nlGet s.objs o0 with _ | rc
    · simp only [hg, Option.isSome_none, Bool.false_eq_true, if_false] at hstep
      injection hstep with h5
      subst h5
      exact addObject_char s o0 o
    · simp only [hg] at hstep
      simp at hstep
  | newHandle h0 oid strong =>
    simp only [rcStep] at hstep
    rcases hgh : nlGet s.handles h0 with _ | hv0
    · simp only [hgh, Option.isSome_none, Bool.false_eq_true, if_false] at hstep
      by_cases hal : strongTargetAlive s { ptr := oid, strong := strong } = true
      · rw [if_pos hal] at hstep
        injection hstep with h5
        subst h5
        show ((nlGet s.objs o).isSome = true ∧
          nlGet (refItem s ⟨oid, strong⟩).objs o = none) ↔
          (strongCount s o = 1 ∧
           strongCount ⟨(refItem s ⟨oid, strong⟩).objs,
             s.handles ++ [(h0, ⟨oid, strong⟩)]⟩ o = 0)
        rw [refItem_objs]
        exact addHandle_char s h0 ⟨oid, strong⟩ o
      · rw [if_neg hal] at hstep
        cases hstep
    · simp only [hgh] at hstep
      simp at hstep
  | copyHandle h0 src =>
    simp only [rcStep] at hstep
    rcases hgh : nlGet s.handles h0 with _ | hv0
    · simp only [hgh, Option.isSome_none, Bool.false_eq_true, if_false] at hstep
      rcases hgs : nlGet s.handles src with _ | sv
      · simp only [hgs] at hstep
        cases hstep
      · simp only [hgs] at hstep
        by_cases hal : strongTargetAlive s sv = true
        · rw [if_pos hal] at hstep
          rw [setRefVal_fresh] at hstep
          simp only [refItem_handles] at hstep
          injection hstep with h5
          subst h5
          show ((nlGet s.objs o).isSome = true ∧
            nlGet (refItem s ⟨sv.ptr, sv.strong⟩).objs o = none) ↔
            (strongCount s o = 1 ∧
             strongCount ⟨(refItem s ⟨sv.ptr, sv.strong⟩).objs,
               s.handles ++ [(h0, ⟨sv.ptr, sv.strong⟩)]⟩ o = 0)
          rw [refItem_objs]
          exact addHandle_char s h0 ⟨sv.ptr, sv.strong⟩ o
        · rw [if_neg hal] at hstep
          cases hstep
    · simp only [hgh] at hstep
      simp at hstep
  | assignHandle dst src =>
    simp only [rcStep] at hstep
    rcases hgd : nlGet s.handles dst with _ | dv
    · simp only [hgd] at hstep
      cases hstep
    · simp only [hgd] at hstep
      rcases hgs : nlGet s.handles src with _ | sv
      · simp only [hgs] at hstep
        cases hstep
      · simp only [hgs] at hstep
        by_cases hal : strongTargetAlive s sv = true
        · rw [if_pos hal] at hstep
          injection hstep with h5
          subst h5
          have hal2 : strongTargetAlive s ⟨sv.ptr, sv.strong⟩ = true := hal
          rcases setRefVal_canon s dv sv.ptr sv.strong hal2 with hcan |
            ⟨ho, hh, hdiff2, halive2⟩
          · rw [hcan]
            show ((nlGet s.objs o).isSome = true ∧ nlGet s.objs o = none) ↔
              (strongCount s o = 1 ∧
               strongCount ⟨s.objs, nlPut s.handles dst dv⟩ o = 0)
            rw [nlPut_self s.handles dst dv hgd]
            constructor
            · rintro ⟨ha, hd⟩
              rw [hd] at ha
              simp at ha
            · rintro ⟨h1c, h0c⟩
              have he : strongCount ⟨s.objs, s.handles⟩ o = strongCount s o := rfl
              rw [he, h1c] at h0c
              exact absurd h0c (by decide)
          · show ((nlGet s.objs o).isSome = true ∧
              nlGet (setRefVal s dv sv.ptr sv.strong).1.objs o = none) ↔
              (strongCount s o = 1 ∧
               strongCount ⟨(setRefVal s dv sv.ptr sv.strong).1.objs,
                 nlPut (setRefVal s dv sv.ptr sv.strong).1.handles dst
                   (setRefVal s dv sv.ptr sv.strong).2⟩ o = 0)
            rw [ho, hh]
            exact slotUpdate_char s dst dv _ hinv hgd hdiff2 halive2 o
        · rw [if_neg hal] at hstep
          cases hstep
  | setRefOp h0 oid strong =>
    simp only [rcStep] at hstep
    rcases hgh : nlGet s.handles h0 with _ | hv0
    · simp only [hgh] at hstep
      cases hstep
    · simp only [hgh] at hstep
      by_cases hal : strongTargetAlive s { ptr := oid, strong := strong } = true
      · rw [if_pos hal] at hstep
        injection hstep with h5
        subst h5
        rcases setRefVal_canon s hv0 oid strong hal with hcan |
          ⟨ho, hh, hdiff2, halive2⟩
        · rw [hcan]
          show ((nlGet s.objs o).isSome = true ∧ nlGet s.objs o = none) ↔
            (strongCount s o = 1 ∧
             strongCount ⟨s.objs, nlPut s.handles h0 hv0⟩ o = 0)
          rw [nlPut_self s.handles h0 hv0 hgh]
          constructor
          · rintro ⟨ha, hd⟩
            rw [hd] at ha
            simp at ha
          · rintro ⟨h1c, h0c⟩
            have he : strongCount ⟨s.objs, s.handles⟩ o = strongCount s o := rfl
            rw [he, h1c] at h0c
            exact absurd h0c (by decide)
        · show ((nlGet s.objs o).isSome = true ∧
            nlGet (setRefVal s hv0 oid strong).1.objs o = none) ↔
            (strongCount s o = 1 ∧
             strongCount ⟨(setRefVal s hv0 oid strong).1.objs,
               nlPut (setRefVal s hv0 oid strong).1.handles h0
                 (setRefVal s hv0 oid strong).2⟩ o = 0)
          rw [ho, hh]
          exact slotUpdate_char s h0 hv0 _ hinv hgh hdiff2 halive2 o
      · rw [if_neg hal] at hstep
        cases hstep
  | destroyHandle h0 =>
    simp only [rcStep] at hstep
    rcases hgh : nlGet s.handles h0 with _ | hv0
    · simp only [hgh] at hstep
      cases hstep
    · simp only [hgh] at hstep
      injection hstep with h5
      subst h5
      show ((nlGet s.objs o).isSome = true ∧
        nlGet (unrefItem s hv0).1.objs o = none) ↔
        (strongCount s o = 1 ∧
         strongCount ⟨(unrefItem s hv0).1.objs,
           nlRemove (unrefItem s hv0).1.handles h0⟩ o = 0)
      rw [unrefItem_fst_objs, unrefItem_fst_handles]
      exact slotRemove_char s h0 hv0 hinv hgh o

theorem rcInv_empty : rcInv ⟨[], []⟩ := by
  refine ⟨List.nodup_nil, List.nodup_nil, ?_, ?_⟩
  · intro o rc hmem
    cases hmem
  · intro h hv hmem
    cases hmem

theorem runRCFrom_inv : ∀ (ops : List RCOp) (s s2 : RCState),
    rcInv s → runRCFrom s ops = some s2 → rcInv s2
  | [], s, s2, hinv, hrun => by
    rw [runRCFrom] at hrun
    injection hrun with h5
    subst h5
    exact hinv
  | op :: rest, s, s2, hinv, hrun => by
    rw [runRCFrom] at hrun
    rcases hstep : rcStep s op with _ | s3
    · simp only [hstep] at hrun
      cases hrun
    · simp only [hstep] at hrun
      exact runRCFrom_inv rest s3 s2 (rcStep_inv s op s3 hinv hstep) hrun

/-- C4: after any legal sequence of handle constructions, copies,
assignments (SetRef), and destructions starting from the empty world, every
live RefCountable's stored refcount equals the number of live strong
(doRefCount = true) handles referencing it; and along any further legal
step, an object is deleted (or recycled to its pool) — i.e. leaves the
object table — exactly when its last strong handle releases it: exactly
when its strong-handle count goes from one to zero across the step. -/
theorem c4_refcount_invariant (ops : List RCOp) (s : RCState)
    (hrun : runRC ops = some s) :
    (∀ o rc, (o, rc) ∈ s.objs → rc = strongCount s o) ∧
    (∀ op s2, rcStep s op = some s2 → ∀ o,
      ((nlGet s.objs o).isSome = true ∧ nlGet s2.objs o = none) ↔
      (strongCount s o = 1 ∧ strongCount s2 o = 0)) := by
  have hinv : rcInv s := runRCFrom_inv ops ⟨[], []⟩ s rcInv_empty hrun
  exact ⟨hinv.2.2.1, fun op s2 hstep o => rcStep_char s op s2 hinv hstep o⟩

/-- Witness for C4: allocating an object and taking one strong handle gives
refcount 1 = strong-handle count. -/
theorem c4_refcount_invariant_witness :
    runRC [RCOp.newObject 5, RCOp.newHandle 1 (some 5) true] =
      some ⟨[(5, 1)], [(1, ⟨some 5, true⟩)]⟩ ∧
    (1 : Nat) = strongCount ⟨[(5, 1)], [(1, ⟨some 5, true⟩)]⟩ 5 :=
  ⟨by decide,
   (c4_refcount_invariant [RCOp.newObject 5, RCOp.newHandle 1 (some 5) true]
     ⟨[(5, 1)], [(1, ⟨some 5, true⟩)]⟩ (by decide)).1 5 1 (by decide)⟩

end Muscle
